import Mathlib

/-!
# Archetype storage engine (`arch.go`)

A shallow embedding of the archetype storage engine: the component identity
registry, the dense columns, the per-archetype lookup list with hole reuse,
lazy deletion with batched compaction, archetype moves and the filter/count
queries.

Conventions of the embedding.

* A Go `map[K]V` is a finite map with unique keys (`GoMap`, Mathlib's
  association lists).  Iteration order of a Go map is unspecified; the
  embedding iterates in the order of the entry list, and every statement
  below holds for every entry order.
* A Go `int` is an `Int`; slice lengths are cast to `Int` before they are
  compared with an index.  `uint32` identifiers are natural numbers; the only
  arithmetic on them (the registry counter) is reduced modulo `2^32`.
* A panic (explicit `panic(...)`, index out of range, failed lookup treated as
  fatal) is the result `none`; a normal return is `some`.
* A pointer stored in a map (`*lookupList`, `*componentSlice[T]`) that is
  mutated in place is embedded by writing the updated value back under the
  same key.
* The type parameter `T` of the generic storage code is represented by the
  component id `name(T)`; all component values live in one value type `V`.
-/

namespace ecs

/-- Go `map[K]V`: a finite map with unique keys. -/
abbrev GoMap (K V : Type) := AList (fun _ : K => V)

/-- Equality of maps is decided on the entry lists. -/
instance GoMap.decEq {K V : Type} [DecidableEq K] [DecidableEq V] : DecidableEq (GoMap K V) :=
  fun a b => decidable_of_iff (a.entries = b.entries) AList.ext_iff.symm

/-- Entity identifier, `type Id uint32`. -/
abbrev Id := Nat

/-- Archetype identifier, `type archetypeId uint32`. -/
abbrev archetypeId := Nat

/-- Component identifier (`componentId`, an unsigned 32 bit integer). -/
abbrev componentId := Nat

/-- Representation of a `reflect.Type`: runtime types are compared for equality only. -/
abbrev reflectType := Nat

/-! ## Slices indexed by a Go `int` -/

/-- Indexing `s[i]`: panics (`none`) when `i` is negative or not below `len(s)`. -/
def sliceGet {α : Type} (s : List α) (i : Int) : Option α :=
  if 0 ≤ i then s[i.toNat]? else none

/-- Assignment `s[i] = v`: panics (`none`) when `i` is negative or not below `len(s)`. -/
def sliceSet {α : Type} (s : List α) (i : Int) (v : α) : Option (List α) :=
  if 0 ≤ i ∧ i < (s.length : Int) then some (s.set i.toNat v) else none

/-! ## Component identity registry -/

/-- The package-level variables `registeredComponents` and `componentRegistryCounter`. -/
structure nameRegistry where
  registeredComponents : GoMap reflectType componentId
  componentRegistryCounter : componentId
deriving DecidableEq

/-- The reserved invalid component id, `invalidComponentId`. -/
def invalidComponentId : componentId := 0

/-- Initial value of the package-level registry: empty map, counter `1`. -/
def nameRegistry.init : nameRegistry :=
  { registeredComponents := ∅, componentRegistryCounter := 1 }

/-- Function `name(t)`: the argument is the runtime type of `t`; the mutex is not modelled.
The counter is a `uint32` and wraps around on increment. -/
def name (g : nameRegistry) (typeof : reflectType) : componentId × nameRegistry :=
  match g.registeredComponents.lookup typeof with
  | some compId => (compId, g)
  | none =>
    let compId := g.componentRegistryCounter
    (compId,
      { registeredComponents := g.registeredComponents.insert typeof compId,
        componentRegistryCounter := (g.componentRegistryCounter + 1) % 2 ^ 32 })

/-! ## Columns -/

/-- Struct `componentSlice[T]`: one dense column. -/
structure componentSlice (T : Type) where
  comp : List T
deriving DecidableEq

/-- Method `componentSlice.Write`: append when `index == len`, else overwrite in place
(which panics outside `0 ≤ index < len`). -/
def componentSlice.Write {T : Type} (s : componentSlice T) (index : Int) (val : T) :
    Option (componentSlice T) :=
  if index = (s.comp.length : Int) then
    some { comp := s.comp ++ [val] }
  else
    (sliceSet s.comp index val).map (fun c => { comp := c })

/-! ## Lookup list -/

/-- Struct `lookupList`: forward map, reverse array and pending holes of one archetype. -/
structure lookupList where
  index : GoMap Id Int
  id : List Id
  holes : List Int
deriving DecidableEq

/-- Method `lookupList.addToEasiestHole`: reuse the last recorded hole, else append.
Returns the slot together with the updated list. -/
def lookupList.addToEasiestHole (l : lookupList) (id : Id) : Option (Int × lookupList) :=
  if 0 < l.holes.length then
    let lastHoleIndex := l.holes.length - 1
    match l.holes[lastHoleIndex]? with
    | none => none
    | some index =>
      match sliceSet l.id index id with
      | none => none
      | some ids =>
        some (index,
          { index := l.index.insert id index, id := ids, holes := l.holes.take lastHoleIndex })
  else
    let ids := l.id ++ [id]
    let index : Int := (ids.length : Int) - 1
    some (index, { index := l.index.insert id index, id := ids, holes := l.holes })

/-! ## Entity snapshots and component values -/

/-- Modelled from the spec: the component value writer `Component` (a boxed value `C(v)`),
whose declaration is not part of `arch.go`.  It exposes its component id and its value. -/
structure Component (V : Type) where
  compId : componentId
  Comp : V
deriving DecidableEq

/-- Modelled from the spec: constructor `C(v)` for a value whose type has component id `n`. -/
def C {V : Type} (n : componentId) (v : V) : Component V := { compId := n, Comp := v }

/-- Modelled from the spec: the method `id()` of a component value. -/
def Component.id {V : Type} (c : Component V) : componentId := c.compId

/-- Modelled from the spec: the owned-copy entity snapshot container `Entity`, whose
declaration is not part of `arch.go`; it holds at most one value per component id. -/
structure Entity (V : Type) where
  comp : GoMap componentId V

/-- Equality of snapshots is decided on the underlying map. -/
instance Entity.decEq {V : Type} [DecidableEq V] : DecidableEq (Entity V) :=
  fun a b => decidable_of_iff (a.comp = b.comp)
    ⟨fun h => by cases a; cases b; cases h; rfl, fun h => by rw [h]⟩

/-- Modelled from the spec: `NewEntity()`, the empty snapshot. -/
def NewEntity {V : Type} : Entity V := { comp := ∅ }

/-- Modelled from the spec: `Entity.Add(comp...)`, "add a component"; a supplied value
overrides an existing value of the same component id. -/
def Entity.Add {V : Type} (ent : Entity V) (comps : List (Component V)) : Entity V :=
  comps.foldl (fun ent c => { comp := ent.comp.insert c.id c.Comp }) ent

/-- Modelled from the spec: `Entity.Comps()`, "enumerate contained components with their
ids" (in the unspecified order of the underlying map). -/
def Entity.Comps {V : Type} (ent : Entity V) : List (Component V) :=
  ent.comp.entries.map (fun p => C p.1 p.2)

/-! ## Column store -/

/-- Struct `componentSliceStorage[T]`: the columns of one component type, per archetype. -/
structure componentSliceStorage (T : Type) where
  slice : GoMap archetypeId (componentSlice T)

/-- Equality of column stores is decided on the underlying map. -/
instance componentSliceStorage.decEq {T : Type} [DecidableEq T] :
    DecidableEq (componentSliceStorage T) :=
  fun a b => decidable_of_iff (a.slice = b.slice)
    ⟨fun h => by cases a; cases b; cases h; rfl, fun h => by rw [h]⟩

/-- Method `componentSliceStorage.ReadToEntity`; `n` is the component id of the element
type `T`, used by `C(...)` to box the value read. -/
def componentSliceStorage.ReadToEntity {T : Type} (ss : componentSliceStorage T)
    (n : componentId) (entity : Entity T) (archId : archetypeId) (index : Int) :
    Option (Entity T × Bool) :=
  match ss.slice.lookup archId with
  | none => some (entity, false)
  | some cSlice =>
    match sliceGet cSlice.comp index with
    | none => none
    | some v => some (entity.Add [C n v], true)

/-- Method `componentSliceStorage.Delete`: swap-remove of row `index` in the column of
`archId`; no column is a no-op. -/
def componentSliceStorage.Delete {T : Type} (ss : componentSliceStorage T)
    (archId : archetypeId) (index : Int) : Option (componentSliceStorage T) :=
  match ss.slice.lookup archId with
  | none => some ss
  | some cSlice =>
    match sliceGet cSlice.comp ((cSlice.comp.length : Int) - 1) with
    | none => none
    | some lastVal =>
      match sliceSet cSlice.comp index lastVal with
      | none => none
      | some comp =>
        some { slice := ss.slice.insert archId { comp := comp.dropLast } }

/-! ## Archetype engine -/

/-- Modelled from the spec: the archetype registry `componentRegistry`, whose declaration is
not part of `arch.go`; only the fields the engine reads are kept: the inverted index
`archSet` from component id to the set of archetype ids containing it, and `generation`. -/
structure componentRegistry where
  archSet : GoMap componentId (GoMap archetypeId Bool)
  generation : Int
deriving DecidableEq

/-- Struct `archEngine`. -/
structure archEngine (V : Type) where
  lookup : GoMap archetypeId lookupList
  compSliceStorage : GoMap componentId (componentSliceStorage V)
  dcr : componentRegistry
  filterLists : List (GoMap archetypeId Bool)
deriving DecidableEq

/-- Modelled from the spec: `newComponentRegistry()`, an empty registry. -/
def newComponentRegistry : componentRegistry := { archSet := ∅, generation := 0 }

/-- Function `newArchEngine`. -/
def newArchEngine {V : Type} : archEngine V :=
  { lookup := ∅, compSliceStorage := ∅, dcr := newComponentRegistry, filterLists := [] }

/-- Method `archEngine.generation`. -/
def archEngine.generation {V : Type} (e : archEngine V) : Int := e.dcr.generation

/-- Method `archEngine.FilterList`.  Returns the filled `archIds` buffer and the engine with
its scratch `filterLists` overwritten; `e.filterLists[0]` panics on an empty query. -/
def archEngine.FilterList {V : Type} (e : archEngine V) (archIds : List archetypeId)
    (comp : List componentId) : Option (List archetypeId × archEngine V) :=
  let filterLists := comp.foldl
    (fun fl compId => fl ++ [(e.dcr.archSet.lookup compId).getD ∅]) (e.filterLists.take 0)
  let e1 := { e with filterLists := filterLists }
  match filterLists[0]? with
  | none => none
  | some first =>
    some (first.keys.foldl
      (fun archIds archId =>
        let missing := filterLists.any (fun fl => (fl.lookup archId).isNone)
        if !missing then archIds ++ [archId] else archIds)
      (archIds.take 0), e1)

/-- Method `archEngine.count`; `anything` lists the runtime types of the arguments.  The
package-level name registry is threaded through. -/
def archEngine.count {V : Type} (g : nameRegistry) (e : archEngine V)
    (anything : List reflectType) : Option (Int × nameRegistry × archEngine V) :=
  let named := anything.foldl
    (fun acc c => let r := name acc.2 c; (acc.1 ++ [r.1], r.2)) (([] : List componentId), g)
  match e.FilterList [] named.1 with
  | none => none
  | some (archIds, e1) =>
    match archIds.foldlM
      (fun (total : Int) archId =>
        match e1.lookup.lookup archId with
        | none => none
        | some lookup => some (total + (lookup.id.length : Int) - (lookup.holes.length : Int)))
      (0 : Int) with
    | none => none
    | some total => some (total, named.2, e1)

/-- Function `getStorageByCompId[T]`: the column store registered under `compId`, created
on first use.  All stores hold values of the one value type, so the type assertion
cannot fail. -/
def getStorageByCompId {V : Type} (e : archEngine V) (compId : componentId) :
    componentSliceStorage V × archEngine V :=
  match e.compSliceStorage.lookup compId with
  | some ss => (ss, e)
  | none =>
    let ss : componentSliceStorage V := { slice := ∅ }
    (ss, { e with compSliceStorage := e.compSliceStorage.insert compId ss })

/-- A loop `for n := range m { m[n].body() }` whose body updates the value stored under
`n` in place and may panic. -/
def forRangeM {K S : Type} [DecidableEq K] (m : GoMap K S) (body : S → Option S) :
    Option (GoMap K S) :=
  m.keys.foldlM
    (fun st n =>
      match st.lookup n with
      | none => some st
      | some ss => (body ss).map (fun ss1 => st.insert n ss1))
    m

/-- The loop `for n := range e.compSliceStorage { e.compSliceStorage[n].Delete(archId, index) }`
on the column stores. -/
def deleteAll {V : Type} (st : GoMap componentId (componentSliceStorage V))
    (archId : archetypeId) (index : Int) : Option (GoMap componentId (componentSliceStorage V)) :=
  forRangeM st (fun ss => ss.Delete archId index)

/-- The inner loop of `CleanupHoles`: pop all holes off the end of the archetype.  The
loop runs at most `len(lookup.id) + 1` times; `fuel` bounds the number of iterations. -/
def CleanupHoles.trim {V : Type} (InvalidEntity : Id) (archId : archetypeId) :
    Nat → List Id → GoMap componentId (componentSliceStorage V) →
    Option (List Id × GoMap componentId (componentSliceStorage V))
  | 0, _, _ => none
  | fuel + 1, ids, st =>
    let lastIndex : Int := (ids.length : Int) - 1
    if lastIndex < 0 then some (ids, st)
    else
      match sliceGet ids lastIndex with
      | none => none
      | some lastId =>
        if lastId = InvalidEntity then
          match deleteAll st archId lastIndex with
          | none => none
          | some st1 => CleanupHoles.trim InvalidEntity archId fuel (ids.take lastIndex.toNat) st1
        else some (ids, st)

/-- One iteration of the outer loop of `CleanupHoles`, for the recorded hole `index`. -/
def CleanupHoles.step {V : Type} (InvalidEntity : Id) (archId : archetypeId)
    (s : lookupList × GoMap componentId (componentSliceStorage V)) (index : Int) :
    Option (lookupList × GoMap componentId (componentSliceStorage V)) :=
  match CleanupHoles.trim InvalidEntity archId (s.1.id.length + 1) s.1.id s.2 with
  | none => none
  | some (ids, st) =>
    if index ≥ (ids.length : Int) then
      some ({ s.1 with id := ids }, st)
    else
      let lastIndex : Int := (ids.length : Int) - 1
      match sliceGet ids lastIndex with
      | none => none
      | some lastId =>
        if lastId = InvalidEntity then none
        else
          match sliceSet ids index lastId with
          | none => none
          | some ids1 =>
            match deleteAll st archId index with
            | none => none
            | some st1 =>
              some ({ index := s.1.index.insert lastId index,
                      id := ids1.take lastIndex.toNat,
                      holes := s.1.holes }, st1)

/-- Method `archEngine.CleanupHoles`. -/
def archEngine.CleanupHoles {V : Type} (InvalidEntity : Id) (e : archEngine V)
    (archId : archetypeId) : Option (archEngine V) :=
  match e.lookup.lookup archId with
  | none => none
  | some lookup =>
    match lookup.holes.foldlM (CleanupHoles.step InvalidEntity archId)
        (lookup, e.compSliceStorage) with
    | none => none
    | some (lookup1, st) =>
      some { e with
        lookup := e.lookup.insert archId { lookup1 with holes := lookup1.holes.take 0 },
        compSliceStorage := st }

/-- Method `archEngine.getOrAddLookupIndex`. -/
def archEngine.getOrAddLookupIndex {V : Type} (InvalidEntity : Id) (e : archEngine V)
    (archId : archetypeId) (id : Id) : Option (Int × archEngine V) :=
  let e1 : archEngine V :=
    match e.lookup.lookup archId with
    | some _ => e
    | none => { e with lookup := e.lookup.insert archId { index := ∅, id := [], holes := [] } }
  match e1.lookup.lookup archId with
  | none => none
  | some lookup =>
    match (if (lookup.holes.length : Int) ≥ 1024 then e1.CleanupHoles InvalidEntity archId
           else some e1) with
    | none => none
    | some e2 =>
      match e2.lookup.lookup archId with
      | none => none
      | some lookup2 =>
        match lookup2.index.lookup id with
        | some index => some (index, e2)
        | none =>
          match lookup2.addToEasiestHole id with
          | none => none
          | some (index, lookup3) =>
            some (index, { e2 with lookup := e2.lookup.insert archId lookup3 })

/-- Function `writeArch[T]`: write `val` at `index` into the column of `archId`, creating
the column on first use.  Returns the updated column store. -/
def writeArch {V : Type} (archId : archetypeId) (index : Int)
    (store : componentSliceStorage V) (val : V) : Option (componentSliceStorage V) :=
  let cSlice : componentSlice V :=
    match store.slice.lookup archId with
    | some c => c
    | none => { comp := [] }
  match cSlice.Write index val with
  | none => none
  | some c => some { slice := store.slice.insert archId c }

/-- Modelled from the spec: the method `write(engine, archetype, slot)` of a component value,
whose declaration is not part of `arch.go`: it drives the value into the column store of
its own component id (`getStorageByCompId` followed by `writeArch`). -/
def Component.write {V : Type} (c : Component V) (e : archEngine V) (archId : archetypeId)
    (index : Int) : Option (archEngine V) :=
  let r := getStorageByCompId e c.id
  match writeArch archId index r.1 c.Comp with
  | none => none
  | some store =>
    some { r.2 with compSliceStorage := r.2.compSliceStorage.insert c.id store }

/-- Method `archEngine.write`. -/
def archEngine.write {V : Type} (InvalidEntity : Id) (e : archEngine V)
    (archId : archetypeId) (id : Id) (comp : List (Component V)) : Option (archEngine V) :=
  match e.getOrAddLookupIndex InvalidEntity archId id with
  | none => none
  | some (index, e1) => comp.foldlM (fun e2 c => c.write e2 archId index) e1

/-- Function `readArch[T]`, with `n = name(T)`.  The outer option is a panic, the inner
one the `(T, bool)` result (`none` for `false`). -/
def readArch {V : Type} (e : archEngine V) (archId : archetypeId) (id : Id)
    (n : componentId) : Option (Option V) :=
  match e.lookup.lookup archId with
  | none => some none
  | some lookup =>
    match lookup.index.lookup id with
    | none => some none
    | some index =>
      match e.compSliceStorage.lookup n with
      | none => some none
      | some storage =>
        match storage.slice.lookup archId with
        | none => some none
        | some cSlice =>
          match sliceGet cSlice.comp index with
          | none => none
          | some v => some (some v)

/-- A loop `for n := range m { acc = body(acc, n, m[n]) }` that reads the map, accumulates
into `acc` and may panic. -/
def forRangeAccM {K S α : Type} (m : GoMap K S) (body : α → K → S → Option α) (init : α) :
    Option α :=
  m.entries.foldlM (fun acc p => body acc p.1 p.2) init

/-- Method `archEngine.ReadEntity`. -/
def archEngine.ReadEntity {V : Type} (e : archEngine V) (archId : archetypeId) (id : Id) :
    Option (Entity V) :=
  match e.lookup.lookup archId with
  | none => none
  | some lookup =>
    match lookup.index.lookup id with
    | none => none
    | some index =>
      forRangeAccM e.compSliceStorage
        (fun ent n ss => (ss.ReadToEntity n ent archId index).map Prod.fst) NewEntity

/-- Method `archEngine.TagForDeletion`. -/
def archEngine.TagForDeletion {V : Type} (InvalidEntity : Id) (e : archEngine V)
    (archId : archetypeId) (id : Id) : Option (archEngine V) :=
  match e.lookup.lookup archId with
  | none => none
  | some lookup =>
    match lookup.index.lookup id with
    | none => none
    | some index =>
      match sliceSet lookup.id index InvalidEntity with
      | none => none
      | some ids =>
        let lookup1 : lookupList :=
          { index := lookup.index.erase id, id := ids, holes := lookup.holes ++ [index] }
        some { e with lookup := e.lookup.insert archId lookup1 }

/-- Method `archEngine.GetarchetypeId`; the registry method `getArchetypeId` is not part of
`arch.go` and is a parameter: it resolves a list of component ids to an archetype id and
may update the registry. -/
def archEngine.GetarchetypeId {V : Type}
    (getArchetypeId : componentRegistry → List componentId → archetypeId × componentRegistry)
    (e : archEngine V) (comp : List componentId) : archetypeId × archEngine V :=
  let r := getArchetypeId e.dcr comp
  (r.1, { e with dcr := r.2 })

/-- Method `archEngine.rewriteArch`. -/
def archEngine.rewriteArch {V : Type} (InvalidEntity : Id)
    (getArchetypeId : componentRegistry → List componentId → archetypeId × componentRegistry)
    (e : archEngine V) (archId : archetypeId) (id : Id) (comp : List (Component V)) :
    Option (archetypeId × archEngine V) :=
  match e.ReadEntity archId id with
  | none => none
  | some ent =>
    let ent1 := ent.Add comp
    let combinedComps := ent1.Comps
    let compIds := combinedComps.map (fun c => c.id)
    let r := e.GetarchetypeId getArchetypeId compIds
    if archId = r.1 then
      match r.2.write InvalidEntity archId id comp with
      | none => none
      | some e1 => some (r.1, e1)
    else
      match r.2.TagForDeletion InvalidEntity archId id with
      | none => none
      | some e1 =>
        match e1.write InvalidEntity r.1 id combinedComps with
        | none => none
        | some e2 => some (r.1, e2)

/-! ## Specification vocabulary -/

/-- The column of component `n` for archetype `archId`, when it exists. -/
def column {V : Type} (st : GoMap componentId (componentSliceStorage V)) (n : componentId)
    (archId : archetypeId) : Option (List V) :=
  match st.lookup n with
  | none => none
  | some ss => (ss.slice.lookup archId).map (fun c => c.comp)

/-- Swap-remove on a list: the last element is copied to position `i`, then the list is
shortened by one. -/
def swapRemove {V : Type} (col : List V) (i : Nat) : List V :=
  match col.getLast? with
  | none => col
  | some last => (col.set i last).dropLast

/-- The lookup-list invariant (a well-formed lookup list): every slot of `id` is either the
sentinel, recorded exactly once in `holes`, or a live entity whose forward mapping is this
slot; every forward mapping points at the slot holding its entity; `holes` lists sentinel
slots only. -/
def lookupList.WF (InvalidEntity : Id) (l : lookupList) : Prop :=
  (∀ (i : Nat) (h : i < l.id.length),
      (l.id[i] = InvalidEntity ∧ l.holes.count (i : Int) = 1) ∨
      (l.id[i] ≠ InvalidEntity ∧ l.index.lookup l.id[i] = some (i : Int))) ∧
  (∀ p ∈ l.index.entries, p.1 ≠ InvalidEntity ∧ sliceGet l.id p.2 = some p.1) ∧
  (∀ h ∈ l.holes, sliceGet l.id h = some InvalidEntity)

/-- The lookup-list invariant is decidable. -/
instance lookupList.decWF (InvalidEntity : Id) (l : lookupList) :
    Decidable (l.WF InvalidEntity) := by
  unfold lookupList.WF
  infer_instance

/-- Column lockstep for archetype `archId`: every column that exists for it has `len` rows. -/
def Lockstep {V : Type} (st : GoMap componentId (componentSliceStorage V))
    (archId : archetypeId) (len : Nat) : Prop :=
  ∀ p ∈ st.entries, ∀ c ∈ p.2.slice.lookup archId, c.comp.length = len

/-- Column lockstep is decidable. -/
instance Lockstep.dec {V : Type} (st : GoMap componentId (componentSliceStorage V))
    (archId : archetypeId) (len : Nat) : Decidable (Lockstep st archId len) := by
  unfold Lockstep
  infer_instance

/-- The value of component `n` stored for entity `id`, through the lookup list `l` of
archetype `archId`: the part of `readArch` after the lookup list is found. -/
def readRow {V : Type} (l : lookupList) (st : GoMap componentId (componentSliceStorage V))
    (archId : archetypeId) (id : Id) (n : componentId) : Option (Option V) :=
  match l.index.lookup id with
  | none => some none
  | some index =>
    match column st n archId with
    | none => some none
    | some col =>
      match sliceGet col index with
      | none => none
      | some v => some (some v)

/-- Invariant of the outer loop of `CleanupHoles`; `hs` are the recorded holes that are
still to be processed. -/
structure CleanupInv {V : Type} (InvalidEntity : Id) (archId : archetypeId) (l : lookupList)
    (st : GoMap componentId (componentSliceStorage V)) (hs : List Int) : Prop where
  live : ∀ (i : Nat) (e : Id), l.id[i]? = some e → e ≠ InvalidEntity →
    l.index.lookup e = some (i : Int)
  hole : ∀ (i : Nat), l.id[i]? = some InvalidEntity → (i : Int) ∈ hs
  back : ∀ (e : Id) (j : Int), l.index.lookup e = some j →
    e ≠ InvalidEntity ∧ sliceGet l.id j = some e
  nodup : hs.Nodup
  pending : ∀ h ∈ hs, ∃ k : Nat, h = (k : Int) ∧ (k < l.id.length → l.id[k]? = some InvalidEntity)
  lock : ∀ n col, column st n archId = some col → col.length = l.id.length

/-- What a compaction step keeps: the set of entities with a forward mapping, the value
read for every entity and component, the set of columns, the columns of the other
archetypes and the set of column stores. -/
structure Preserved {V : Type} (archId : archetypeId) (l : lookupList)
    (st : GoMap componentId (componentSliceStorage V)) (l1 : lookupList)
    (st1 : GoMap componentId (componentSliceStorage V)) : Prop where
  keys : ∀ id, (l1.index.lookup id).isSome = (l.index.lookup id).isSome
  rows : ∀ id n, readRow l1 st1 archId id n = readRow l st archId id n
  cols : ∀ n, (column st1 n archId).isSome = (column st n archId).isSome
  others : ∀ n B, B ≠ archId → column st1 n B = column st n B
  stores : ∀ n, (st1.lookup n).isSome = (st.lookup n).isSome

/-- Lookup list of archetype 7 in the scenario of the specification, after entity 1 was
tagged for deletion: slot 0 is a pending hole, entity 2 lives in slot 1. -/
def scenarioLookup : lookupList :=
  { index := (∅ : GoMap Id Int).insert 2 1, id := [0, 2], holes := [0] }

/-- Scenario of the specification: entities 1 and 2 written with Position `(0,0)` and
`(1,1)` (component id 1) into archetype 7, then entity 1 tagged for deletion.  The
sentinel `InvalidEntity` is 0. -/
def scenarioTagged : archEngine (Int × Int) :=
  { lookup := (∅ : GoMap archetypeId lookupList).insert 7 scenarioLookup,
    compSliceStorage := (∅ : GoMap componentId (componentSliceStorage (Int × Int))).insert 1
      { slice := (∅ : GoMap archetypeId (componentSlice (Int × Int))).insert 7
          { comp := [(0, 0), (1, 1)] } },
    dcr := newComponentRegistry,
    filterLists := [] }

/-- The value a list of component values supplies for component id `m`: the last value
of that id in the list, as `Entity.Add` keeps it. -/
def supplied {V : Type} (comps : List (Component V)) (m : componentId) : Option V :=
  ((NewEntity : Entity V).Add comps).comp.lookup m

/-- The effect of the loop of `write` that drives the component values `comps` into row
`index` of the columns of archetype `archId`, from engine `e` to engine `e1`. -/
structure WriteEffect {V : Type} (archId : archetypeId) (index : Int)
    (comps : List (Component V)) (e e1 : archEngine V) : Prop where
  lookup : e1.lookup = e.lookup
  dcr : e1.dcr = e.dcr
  filterLists : e1.filterLists = e.filterLists
  others : ∀ m B, B ≠ archId → column e1.compSliceStorage m B = column e.compSliceStorage m B
  untouched : ∀ m, supplied comps m = none →
    column e1.compSliceStorage m archId = column e.compSliceStorage m archId ∧
    e1.compSliceStorage.lookup m = e.compSliceStorage.lookup m
  written : ∀ m v, supplied comps m = some v →
    ∃ (col : List V) (i : Nat), index = (i : Int) ∧
      i ≤ ((column e.compSliceStorage m archId).getD []).length ∧
      column e1.compSliceStorage m archId = some col ∧
      col.length = max ((column e.compSliceStorage m archId).getD []).length (i + 1) ∧
      col[i]? = some v ∧
      ∀ j : Nat, j ≠ i → col[j]? = ((column e.compSliceStorage m archId).getD [])[j]?

/-- First part of `getOrAddLookupIndex`: the lookup list of the archetype is created, empty,
when the archetype has none. -/
def ensureLookup {V : Type} (e : archEngine V) (archId : archetypeId) : archEngine V :=
  match e.lookup.lookup archId with
  | some _ => e
  | none => { e with lookup := e.lookup.insert archId { index := ∅, id := [], holes := [] } }

/-- Last part of `getOrAddLookupIndex`: the slot of the entity in the lookup list of the
archetype, allocated by `addToEasiestHole` when the entity has none. -/
def resolveSlot {V : Type} (e : archEngine V) (archId : archetypeId) (id : Id) :
    Option (Int × archEngine V) :=
  match e.lookup.lookup archId with
  | none => none
  | some lookup2 =>
    match lookup2.index.lookup id with
    | some index => some (index, e)
    | none =>
      match lookup2.addToEasiestHole id with
      | none => none
      | some (index, lookup3) =>
        some (index, { e with lookup := e.lookup.insert archId lookup3 })

/-- Scenario of the specification after its first write: entity 1 with Position `(0,0)`
(component id 1) in archetype 7. -/
def scenarioOne : archEngine (Int × Int) :=
  { lookup := (∅ : GoMap archetypeId lookupList).insert 7
      { index := (∅ : GoMap Id Int).insert 1 0, id := [1], holes := [] },
    compSliceStorage := (∅ : GoMap componentId (componentSliceStorage (Int × Int))).insert 1
      { slice := (∅ : GoMap archetypeId (componentSlice (Int × Int))).insert 7
          { comp := [(0, 0)] } },
    dcr := newComponentRegistry,
    filterLists := [] }

/-- An archetype 7 with two columns (component ids 1 and 2) and one entity, 1, in slot 0
with values 10 and 20: the state after `write(7, 1, C(10), C(20))` on a new engine. -/
def twoColumns : archEngine Nat :=
  { lookup := (∅ : GoMap archetypeId lookupList).insert 7
      { index := (∅ : GoMap Id Int).insert 1 0, id := [1], holes := [] },
    compSliceStorage :=
      ((∅ : GoMap componentId (componentSliceStorage Nat)).insert 1
        { slice := (∅ : GoMap archetypeId (componentSlice Nat)).insert 7 { comp := [10] } }).insert 2
        { slice := (∅ : GoMap archetypeId (componentSlice Nat)).insert 7 { comp := [20] } },
    dcr := newComponentRegistry,
    filterLists := [] }

/-- Lookup list with entity 1 in slot 0 and entity 2 in slot 1, no hole. -/
def twoEntitiesLookup : lookupList :=
  { index := ((∅ : GoMap Id Int).insert 1 0).insert 2 1, id := [1, 2], holes := [] }

/-- An archetype 7 with one column (component id 1) and two entities: entity 1 in slot 0
with value 10 and entity 2 in slot 1 with value 20. -/
def twoEntities : archEngine Nat :=
  { lookup := (∅ : GoMap archetypeId lookupList).insert 7 twoEntitiesLookup,
    compSliceStorage := (∅ : GoMap componentId (componentSliceStorage Nat)).insert 1
      { slice := (∅ : GoMap archetypeId (componentSlice Nat)).insert 7 { comp := [10, 20] } },
    dcr := newComponentRegistry,
    filterLists := [] }

/-- The merged component set of `rewriteArch`, as a partial map from component ids to
values: a supplied value overrides, otherwise the value stored for the entity in row
`i` of the column of archetype `archId` (when that column exists) is carried over. -/
def mergedRow {V : Type} (e : archEngine V) (archId : archetypeId) (i : Int)
    (comps : List (Component V)) (m : componentId) : Option V :=
  match supplied comps m with
  | some v => some v
  | none => (column e.compSliceStorage m archId).bind (fun col => sliceGet col i)

/-- Lookup list with the single entity 5 in slot 0. -/
def xyLookup : lookupList :=
  { index := (∅ : GoMap Id Int).insert 5 0, id := [5], holes := [] }

/-- An archetype 7 with components X (id 1) and Y (id 2) holding entity 5 with `X = 1` and
`Y = 2`; no other archetype has been written. -/
def xyEntity : archEngine Nat :=
  { lookup := (∅ : GoMap archetypeId lookupList).insert 7 xyLookup,
    compSliceStorage :=
      ((∅ : GoMap componentId (componentSliceStorage Nat)).insert 1
        { slice := (∅ : GoMap archetypeId (componentSlice Nat)).insert 7 { comp := [1] } }).insert 2
        { slice := (∅ : GoMap archetypeId (componentSlice Nat)).insert 7 { comp := [2] } },
    dcr := newComponentRegistry,
    filterLists := [] }

/-- A registry stub for the scenarios: a set of three component ids resolves to archetype
8, every other set to archetype 7; the registry itself is left unchanged. -/
def xyzRegistry (r : componentRegistry) (comp : List componentId) :
    archetypeId × componentRegistry :=
  (if comp.length = 3 then 8 else 7, r)

/-- Lookup list with `n` pending holes (slots 0 to `n - 1`, tagged in that order) followed
by the live entity 5 in slot `n`; the sentinel is 0. -/
def holesLookup (n : Nat) : lookupList :=
  { index := (∅ : GoMap Id Int).insert 5 (n : Int),
    id := List.replicate n 0 ++ [5],
    holes := (List.range n).map (fun k : Nat => (k : Int)) }

/-- An archetype 7 with one column (component id 1) of `n + 1` rows, `n` pending holes and
the live entity 5 in the last slot with value 42. -/
def holesEngine (n : Nat) : archEngine Nat :=
  { lookup := (∅ : GoMap archetypeId lookupList).insert 7 (holesLookup n),
    compSliceStorage := (∅ : GoMap componentId (componentSliceStorage Nat)).insert 1
      { slice := (∅ : GoMap archetypeId (componentSlice Nat)).insert 7
          { comp := List.replicate n 0 ++ [42] } },
    dcr := newComponentRegistry,
    filterLists := [] }

/-- A registry stub that resolves every component set to the archetype `archId` and leaves
the registry unchanged. -/
def constRegistry (archId : archetypeId) (r : componentRegistry) (_comp : List componentId) :
    archetypeId × componentRegistry :=
  (archId, r)

/-- Reference set intersection of the filter query: membership of the archetype id `a` in
the inverted-index set `archSet[c]` of every queried component id `c`; a component id
without an entry counts as the empty set. -/
def referenceIntersection (archSet : GoMap componentId (GoMap archetypeId Bool))
    (comp : List componentId) (a : archetypeId) : Prop :=
  ∀ c ∈ comp, a ∈ ((archSet.lookup c).getD ∅).keys

/-- Reference superset filter of the specification: the archetype `a`, whose set of
component ids is `components a`, matches the query when that set is a superset of the
queried ids. -/
def referenceSuperset (components : archetypeId → List componentId)
    (comp : List componentId) (a : archetypeId) : Prop :=
  ∀ c ∈ comp, c ∈ components a

/-- Lookup list with a pending hole in slot 0 and entity 4 in slot 1; the sentinel is 0. -/
def holeAndEntityLookup : lookupList :=
  { index := (∅ : GoMap Id Int).insert 4 1, id := [0, 4], holes := [0] }

/-- A name registry in which the runtime type 100 has component id 1 and the runtime type
101 has component id 2. -/
def filterNames : nameRegistry :=
  { registeredComponents :=
      ((∅ : GoMap reflectType componentId).insert 100 1).insert 101 2,
    componentRegistryCounter := 3 }

/-- An engine whose registry knows archetype 7 with component 1 and archetype 8 with
components 1 and 2; archetype 7 holds two live entities and archetype 8 one live entity
and one pending hole. -/
def filterEngine : archEngine Nat :=
  { lookup := ((∅ : GoMap archetypeId lookupList).insert 7 twoEntitiesLookup).insert 8
      holeAndEntityLookup,
    compSliceStorage := ∅,
    dcr :=
      { archSet :=
          AList.insert (2 : componentId) ((∅ : GoMap archetypeId Bool).insert 8 true)
            (AList.insert (1 : componentId)
              (((∅ : GoMap archetypeId Bool).insert 7 true).insert 8 true)
              (∅ : GoMap componentId (GoMap archetypeId Bool))),
        generation := 2 },
    filterLists := [] }

/-- The first loop of `count`: the component ids `name` gives to the runtime types of the
arguments, in order, and the name registry afterwards. -/
def nameAll (g : nameRegistry) (anything : List reflectType) :
    List componentId × nameRegistry :=
  anything.foldl
    (fun acc c => let r := name acc.2 c; (acc.1 ++ [r.1], r.2)) (([] : List componentId), g)

/-- Number of live entities of an archetype: the entities that have a forward mapping in
its lookup list (none when the archetype has no lookup list). -/
def liveEntities {V : Type} (e : archEngine V) (archId : archetypeId) : Nat :=
  match e.lookup.lookup archId with
  | some l => l.index.keys.length
  | none => 0

/-- The empty lookup list `getOrAddLookupIndex` creates for a new archetype. -/
def emptyLookup : lookupList := { index := ∅, id := [], holes := [] }

/-- One call that works on the lookup list of archetype `archId`, with an entity id other
than the sentinel: `getOrAddLookupIndex`; `addToEasiestHole` for an entity that has no
slot (the condition under which `getOrAddLookupIndex` calls it); `TagForDeletion`;
`CleanupHoles`.  The last constructor is any other change of the engine that leaves this
lookup list alone (column writes, calls on other archetypes). -/
inductive lookupStep {V : Type} (InvalidEntity : Id) (archId : archetypeId) :
    archEngine V → archEngine V → Prop
  | getOrAdd {e e1 : archEngine V} {id : Id} {index : Int} :
      id ≠ InvalidEntity → e.getOrAddLookupIndex InvalidEntity archId id = some (index, e1) →
      lookupStep InvalidEntity archId e e1
  | addToEasiestHole {e : archEngine V} {l l1 : lookupList} {id : Id} {index : Int} :
      id ≠ InvalidEntity → e.lookup.lookup archId = some l → l.index.lookup id = none →
      l.addToEasiestHole id = some (index, l1) →
      lookupStep InvalidEntity archId e { e with lookup := e.lookup.insert archId l1 }
  | tag {e e1 : archEngine V} {id : Id} :
      id ≠ InvalidEntity → e.TagForDeletion InvalidEntity archId id = some e1 →
      lookupStep InvalidEntity archId e e1
  | cleanup {e e1 : archEngine V} :
      e.CleanupHoles InvalidEntity archId = some e1 → lookupStep InvalidEntity archId e e1
  | frame {e e1 : archEngine V} :
      e1.lookup.lookup archId = e.lookup.lookup archId → lookupStep InvalidEntity archId e e1

/-- An engine without columns whose only lookup list, of archetype 7, is `l`. -/
def lookupOnly (l : lookupList) : archEngine Nat :=
  { lookup := (∅ : GoMap archetypeId lookupList).insert 7 l,
    compSliceStorage := ∅,
    dcr := newComponentRegistry,
    filterLists := [] }

/-- Lookup list after entities 1 and 2 were added, entity 1 was tagged and the holes were
cleaned up: entity 2 alone, moved to slot 0. -/
def compactedLookup : lookupList :=
  { index := (∅ : GoMap Id Int).insert 2 0, id := [2], holes := [] }

/-- The invariant of one archetype: its lookup list (the empty one when it has none yet)
satisfies the lookup-list invariant and its columns are in lockstep with `id`. -/
def ArchInv {V : Type} (InvalidEntity : Id) (e : archEngine V) (archId : archetypeId) : Prop :=
  ((e.lookup.lookup archId).getD emptyLookup).WF InvalidEntity ∧
  Lockstep e.compSliceStorage archId ((e.lookup.lookup archId).getD emptyLookup).id.length

/-- The engine invariant: every lookup list is well formed with its columns in lockstep,
and a column of an archetype without a lookup list has no row. -/
def EngineInv {V : Type} (InvalidEntity : Id) (e : archEngine V) : Prop :=
  (∀ p ∈ e.lookup.entries,
    p.2.WF InvalidEntity ∧ Lockstep e.compSliceStorage p.1 p.2.id.length) ∧
  (∀ q ∈ e.compSliceStorage.entries, ∀ r ∈ q.2.slice.entries,
    (e.lookup.lookup r.1).isSome ∨ r.2.comp.length = 0)

/-- The engine invariant is decidable. -/
instance EngineInv.dec {V : Type} (InvalidEntity : Id) (e : archEngine V) :
    Decidable (EngineInv InvalidEntity e) := by
  unfold EngineInv
  infer_instance

/-- The proviso on a write of `comps` for entity `id` into archetype `archId`: when the
entity is already in the archetype, only component types that have a column in it are
supplied; when it is not, every component type that has a column in the archetype is
supplied, and no other one unless the archetype has no slot yet. -/
def WriteOK {V : Type} (e : archEngine V) (archId : archetypeId) (id : Id)
    (comps : List (Component V)) : Prop :=
  ((((e.lookup.lookup archId).getD emptyLookup).index.lookup id).isSome →
    ∀ c ∈ comps, (column e.compSliceStorage c.id archId).isSome) ∧
  (((e.lookup.lookup archId).getD emptyLookup).index.lookup id = none →
    (∀ p ∈ e.compSliceStorage.entries, (p.2.slice.lookup archId).isSome →
      (supplied comps p.1).isSome) ∧
    (((e.lookup.lookup archId).getD emptyLookup).id ≠ [] →
      ∀ c ∈ comps, (column e.compSliceStorage c.id archId).isSome))

/-- The proviso on a write is decidable. -/
instance WriteOK.dec {V : Type} (e : archEngine V) (archId : archetypeId) (id : Id)
    (comps : List (Component V)) : Decidable (WriteOK e archId id comps) := by
  unfold WriteOK
  infer_instance

/-- The proviso of the column lockstep invariant as the specification words it: a write for
an entity not yet in the archetype supplies a value for every component type the archetype
has a column for, and a write for an entity already in it supplies only such component
types. -/
def StatedProviso {V : Type} (e : archEngine V) (archId : archetypeId) (id : Id)
    (comps : List (Component V)) : Prop :=
  (((e.lookup.lookup archId).getD emptyLookup).index.lookup id = none →
    ∀ p ∈ e.compSliceStorage.entries, (p.2.slice.lookup archId).isSome →
      (supplied comps p.1).isSome) ∧
  ((((e.lookup.lookup archId).getD emptyLookup).index.lookup id).isSome →
    ∀ c ∈ comps, (column e.compSliceStorage c.id archId).isSome)

instance StatedProviso.dec {V : Type} (e : archEngine V) (archId : archetypeId) (id : Id)
    (comps : List (Component V)) : Decidable (StatedProviso e archId id comps) := by
  unfold StatedProviso
  infer_instance

/-- The proviso `WriteOK` for the write that `rewriteArch(archId, id, comp...)` makes: the
write of `comp` into `archId` itself when the merged component set resolves to it, the
write of the merged component set into the resolved archetype otherwise. -/
def RewriteOK {V : Type}
    (getArchetypeId : componentRegistry → List componentId → archetypeId × componentRegistry)
    (e : archEngine V) (archId : archetypeId) (id : Id) (comp : List (Component V)) : Prop :=
  match e.ReadEntity archId id with
  | none => True
  | some ent =>
    if archId = (e.GetarchetypeId getArchetypeId (((ent.Add comp).Comps).map (fun c => c.id))).1
    then WriteOK e archId id comp
    else WriteOK e
      (e.GetarchetypeId getArchetypeId (((ent.Add comp).Comps).map (fun c => c.id))).1 id
      (ent.Add comp).Comps

instance RewriteOK.dec {V : Type}
    (getArchetypeId : componentRegistry → List componentId → archetypeId × componentRegistry)
    (e : archEngine V) (archId : archetypeId) (id : Id) (comp : List (Component V)) :
    Decidable (RewriteOK getArchetypeId e archId id comp) := by
  unfold RewriteOK
  split <;> infer_instance

/-- One engine operation that returns: a `write` for an entity other than the sentinel that
respects the proviso `WriteOK`, a `TagForDeletion`, a `CleanupHoles`, or a `rewriteArch`
whose write respects the proviso. -/
inductive engineStep {V : Type} (InvalidEntity : Id)
    (getArchetypeId : componentRegistry → List componentId → archetypeId × componentRegistry) :
    archEngine V → archEngine V → Prop
  | write {e e1 : archEngine V} {archId : archetypeId} {id : Id} {comp : List (Component V)} :
      id ≠ InvalidEntity → WriteOK e archId id comp →
      e.write InvalidEntity archId id comp = some e1 →
      engineStep InvalidEntity getArchetypeId e e1
  | tag {e e1 : archEngine V} {archId : archetypeId} {id : Id} :
      e.TagForDeletion InvalidEntity archId id = some e1 →
      engineStep InvalidEntity getArchetypeId e e1
  | cleanup {e e1 : archEngine V} {archId : archetypeId} :
      e.CleanupHoles InvalidEntity archId = some e1 →
      engineStep InvalidEntity getArchetypeId e e1
  | rewrite {e e1 : archEngine V} {archId newArchId : archetypeId} {id : Id}
      {comp : List (Component V)} :
      RewriteOK getArchetypeId e archId id comp →
      e.rewriteArch InvalidEntity getArchetypeId archId id comp = some (newArchId, e1) →
      engineStep InvalidEntity getArchetypeId e e1

/-- Scenario of the specification after its two writes: entities 1 and 2 with Position
`(0,0)` and `(1,1)` (component id 1) in archetype 7. -/
def scenarioBoth : archEngine (Int × Int) :=
  { lookup := (∅ : GoMap archetypeId lookupList).insert 7 twoEntitiesLookup,
    compSliceStorage := (∅ : GoMap componentId (componentSliceStorage (Int × Int))).insert 1
      { slice := (∅ : GoMap archetypeId (componentSlice (Int × Int))).insert 7
          { comp := [(0, 0), (1, 1)] } },
    dcr := newComponentRegistry,
    filterLists := [] }

/-- The invariant of one archetype is decidable. -/
instance ArchInv.dec {V : Type} (InvalidEntity : Id) (e : archEngine V) (archId : archetypeId) :
    Decidable (ArchInv InvalidEntity e archId) := by
  unfold ArchInv
  infer_instance

/-- The state of the component identity registry after `name` was called for the runtime
types `ts`, in this order, starting from the initial state. -/
def registerAll (ts : List reflectType) : nameRegistry :=
  ts.foldl (fun g t => (name g t).2) nameRegistry.init

/-- Method `archEngine.TagForDeletion` once more, keeping the engine state in which a panic
is raised: `Except.error s` is a panic raised in engine state `s`, `Except.ok s` a return
in engine state `s`.  The two explicit panics and the index check of
`lookup.id[index] = InvalidEntity` all come before the first assignment. -/
def archEngine.TagForDeletion.withState {V : Type} (InvalidEntity : Id) (e : archEngine V)
    (archId : archetypeId) (id : Id) : Except (archEngine V) (archEngine V) :=
  match e.lookup.lookup archId with
  | none => Except.error e
  | some lookup =>
    match lookup.index.lookup id with
    | none => Except.error e
    | some index =>
      match sliceSet lookup.id index InvalidEntity with
      | none => Except.error e
      | some ids =>
        let lookup1 : lookupList :=
          { index := lookup.index.erase id, id := ids, holes := lookup.holes ++ [index] }
        Except.ok { e with lookup := e.lookup.insert archId lookup1 }

/-- Method `archEngine.ReadEntity` once more, keeping the engine state: `Except.error s` is
a panic raised in engine state `s`, `Except.ok (ent, s)` a return of the snapshot `ent` in
engine state `s`.  No statement of the method assigns to the engine. -/
def archEngine.ReadEntity.withState {V : Type} (e : archEngine V) (archId : archetypeId)
    (id : Id) : Except (archEngine V) (Entity V × archEngine V) :=
  match e.lookup.lookup archId with
  | none => Except.error e
  | some lookup =>
    match lookup.index.lookup id with
    | none => Except.error e
    | some index =>
      match forRangeAccM e.compSliceStorage
          (fun ent n ss => (ss.ReadToEntity n ent archId index).map Prod.fst) NewEntity with
      | none => Except.error e
      | some ent => Except.ok (ent, e)

/-- Lookup list of an archetype whose only slot, 0, is a pending hole; the sentinel is 0. -/
def oneHoleLookup : lookupList :=
  { index := ∅, id := [0], holes := [0] }

/-- Archetype 7 holds entity 5 with `X = 1` and `Y = 2` (component ids 1 and 2).  Archetype 8
was written once, for entity 9, with four component values (ids 1 to 4: 91, 92, 90, 93), and
entity 9 was then tagged for deletion: slot 0 of archetype 8 is a pending hole and the rows
of entity 9 are still in its four columns. -/
def staleEngine : archEngine Nat :=
  { lookup := ((∅ : GoMap archetypeId lookupList).insert 7 xyLookup).insert 8 oneHoleLookup,
    compSliceStorage :=
      ((((∅ : GoMap componentId (componentSliceStorage Nat)).insert 1
        { slice := ((∅ : GoMap archetypeId (componentSlice Nat)).insert 7
            { comp := [1] }).insert 8 { comp := [91] } }).insert 2
        { slice := ((∅ : GoMap archetypeId (componentSlice Nat)).insert 7
            { comp := [2] }).insert 8 { comp := [92] } }).insert 3
        { slice := (∅ : GoMap archetypeId (componentSlice Nat)).insert 8
            { comp := [90] } }).insert 4
        { slice := (∅ : GoMap archetypeId (componentSlice Nat)).insert 8 { comp := [93] } },
    dcr := newComponentRegistry,
    filterLists := [] }

/-- Lookup list with the single entity 9 in slot 0. -/
def nineLookup : lookupList :=
  { index := (∅ : GoMap Id Int).insert 9 0, id := [9], holes := [] }

/-- Archetype 7 holds entity 5 with `X = 1` and `Y = 2` (component ids 1 and 2).  Archetype 8
was written once, for entity 9, with two component values (ids 1 and 2: 91 and 92); entity 9
is live in slot 0 and archetype 8 has no column for component id 3. -/
def partialEngine : archEngine Nat :=
  { lookup := ((∅ : GoMap archetypeId lookupList).insert 7 xyLookup).insert 8 nineLookup,
    compSliceStorage :=
      ((∅ : GoMap componentId (componentSliceStorage Nat)).insert 1
        { slice := ((∅ : GoMap archetypeId (componentSlice Nat)).insert 7
            { comp := [1] }).insert 8 { comp := [91] } }).insert 2
        { slice := ((∅ : GoMap archetypeId (componentSlice Nat)).insert 7
            { comp := [2] }).insert 8 { comp := [92] } },
    dcr := newComponentRegistry,
    filterLists := [] }

/-- Modelled from the spec: a registry whose `getArchetypeId` mints the archetype id 8 for
the component set it is asked about: the id is recorded in the inverted index of every
component id of the set and the generation counter is incremented. -/
def mintRegistry (r : componentRegistry) (comp : List componentId) :
    archetypeId × componentRegistry :=
  (8, { archSet := comp.foldl
          (fun s c => s.insert c (((s.lookup c).getD ∅).insert 8 true)) r.archSet,
        generation := r.generation + 1 })

/-- The new engine after the registry minted archetype 8 for the component set `{1}`: the
inverted index knows the archetype, no entity was written and no lookup list exists. -/
def mintedEngine : archEngine Nat :=
  { lookup := ∅,
    compSliceStorage := ∅,
    dcr :=
      { archSet := (∅ : GoMap componentId (GoMap archetypeId Bool)).insert 1
          ((∅ : GoMap archetypeId Bool).insert 8 true),
        generation := 1 },
    filterLists := [] }

/-! # Properties -/

section slices
variable {α : Type}

theorem sliceGet_natCast (s : List α) (n : Nat) : sliceGet s (n : Int) = s[n]? := by
  simp [sliceGet]

theorem sliceGet_eq_some {s : List α} {i : Int} {v : α} (h : sliceGet s i = some v) :
    ∃ n : Nat, i = (n : Int) ∧ s[n]? = some v := by
  unfold sliceGet at h
  split at h
  · rename_i h0
    exact ⟨i.toNat, (Int.toNat_of_nonneg h0).symm, h⟩
  · cases h

theorem sliceSet_natCast (s : List α) (n : Nat) (v : α) :
    sliceSet s (n : Int) v = if n < s.length then some (s.set n v) else none := by
  simp [sliceSet]

theorem sliceSet_eq_some {s t : List α} {i : Int} {v : α} (h : sliceSet s i v = some t) :
    ∃ n : Nat, i = (n : Int) ∧ n < s.length ∧ t = s.set n v := by
  unfold sliceSet at h
  split at h
  · rename_i h0
    refine ⟨i.toNat, (Int.toNat_of_nonneg h0.1).symm, ?_, ?_⟩
    · have := h0.2
      omega
    · exact (Option.some.inj h).symm
  · cases h

end slices

section stores
variable {V : Type}

theorem Delete_lookup_none {ss : componentSliceStorage V} {A : archetypeId} (i : Int)
    (h : ss.slice.lookup A = none) : ss.Delete A i = some ss := by
  simp [componentSliceStorage.Delete, h]

theorem Delete_lookup_some {ss : componentSliceStorage V} {A : archetypeId} {c : componentSlice V}
    (i : Nat) (h : ss.slice.lookup A = some c) (hi : i < c.comp.length) :
    ss.Delete A (i : Int) = some { slice := ss.slice.insert A { comp := swapRemove c.comp i } } := by
  have hlast : sliceGet c.comp ((c.comp.length : Int) - 1) = c.comp.getLast? := by
    have : ((c.comp.length : Int) - 1) = ((c.comp.length - 1 : Nat) : Int) := by omega
    rw [this, sliceGet_natCast, List.getLast?_eq_getElem?]
  obtain ⟨last, hl⟩ : ∃ last, c.comp.getLast? = some last := by
    cases hc : c.comp with
    | nil => simp [hc] at hi
    | cons a t => exact ⟨_, List.getLast?_eq_getLast _ (by simp)⟩
  simp [componentSliceStorage.Delete, h, hlast, hl, sliceSet_natCast, hi, swapRemove]

/-- A successful `Delete` leaves the columns of the other archetypes alone. -/
theorem Delete_lookup_ne {ss ss1 : componentSliceStorage V} {A B : archetypeId} {i : Int}
    (h : ss.Delete A i = some ss1) (hne : B ≠ A) : ss1.slice.lookup B = ss.slice.lookup B := by
  unfold componentSliceStorage.Delete at h
  split at h
  · cases h; rfl
  · split at h
    · cases h
    · split at h
      · cases h
      · cases h
        simp [AList.lookup_insert_ne hne]

/-- The effect of a `forRangeM` loop on the lookups of the map. -/
theorem foldlM_keys_lookup {K S : Type} [DecidableEq K] (f : S → Option S) :
    ∀ (ks : List K), ks.Nodup → ∀ (st st1 : GoMap K S),
    ks.foldlM (fun (st : GoMap K S) n =>
        match st.lookup n with
        | none => some st
        | some ss => (f ss).map (fun ss1 => st.insert n ss1)) st = some st1 →
    ∀ n, st1.lookup n = if n ∈ ks then (st.lookup n).bind f else st.lookup n := by
  intro ks
  induction ks with
  | nil =>
    intro _ st st1 h n
    simp at h
    simp [h]
  | cons k ks ih =>
    intro hnd st st1 h n
    have hk : k ∉ ks := (List.nodup_cons.1 hnd).1
    have hnd1 : ks.Nodup := (List.nodup_cons.1 hnd).2
    rw [List.foldlM_cons] at h
    cases hl : st.lookup k with
    | none =>
      simp only [hl] at h
      have := ih hnd1 st st1 h n
      rw [this]
      by_cases hn : n = k
      · subst hn; simp [hk, hl]
      · simp [hn]
    | some ss =>
      simp only [hl] at h
      cases hf : f ss with
      | none => simp [hf] at h
      | some ss1 =>
        simp only [hf, Option.map_some, Option.bind_eq_bind, Option.some_bind] at h
        have := ih hnd1 (st.insert k ss1) st1 h n
        rw [this]
        by_cases hn : n = k
        · subst hn; simp [hk, hl, hf]
        · simp [hn, AList.lookup_insert_ne hn]

/-- The loop succeeds when the body succeeds on every value of the map. -/
theorem foldlM_keys_isSome {K S : Type} [DecidableEq K] (f : S → Option S) :
    ∀ (ks : List K), ks.Nodup → ∀ (st : GoMap K S),
    (∀ n ∈ ks, ∀ ss, st.lookup n = some ss → (f ss).isSome) →
    (ks.foldlM (fun (st : GoMap K S) n =>
        match st.lookup n with
        | none => some st
        | some ss => (f ss).map (fun ss1 => st.insert n ss1)) st).isSome := by
  intro ks
  induction ks with
  | nil => intro _ st _; simp
  | cons k ks ih =>
    intro hnd st hf
    have hk : k ∉ ks := (List.nodup_cons.1 hnd).1
    have hnd1 : ks.Nodup := (List.nodup_cons.1 hnd).2
    rw [List.foldlM_cons]
    cases hl : st.lookup k with
    | none =>
      simp only [Option.bind_eq_bind, Option.some_bind]
      exact ih hnd1 st (fun n hn => hf n (List.mem_cons_of_mem _ hn))
    | some ss =>
      have h1 := hf k (List.mem_cons_self _ _) ss hl
      obtain ⟨ss1, hs1⟩ := Option.isSome_iff_exists.1 h1
      simp only [hs1, Option.map_some, Option.bind_eq_bind, Option.some_bind]
      apply ih hnd1
      intro n hn ss2 hl2
      have hne : n ≠ k := fun h => hk (h ▸ hn)
      rw [AList.lookup_insert_ne hne] at hl2
      exact hf n (List.mem_cons_of_mem _ hn) ss2 hl2

/-- Lookups after a successful `forRangeM` loop: every value is the image of the old one. -/
theorem forRangeM_lookup {K S : Type} [DecidableEq K] {f : S → Option S} {m m1 : GoMap K S}
    (h : forRangeM m f = some m1) (n : K) : m1.lookup n = (m.lookup n).bind f := by
  have := foldlM_keys_lookup f m.keys m.keys_nodup m m1 h n
  rw [this]
  by_cases hn : n ∈ m.keys
  · simp [hn]
  · have hn1 : n ∉ m := hn
    simp [hn, AList.lookup_eq_none.2 hn1]

/-- A `forRangeM` loop whose body succeeds on every value of the map succeeds. -/
theorem forRangeM_isSome {K S : Type} [DecidableEq K] {f : S → Option S} {m : GoMap K S}
    (h : ∀ n ss, m.lookup n = some ss → (f ss).isSome) : (forRangeM m f).isSome :=
  foldlM_keys_isSome f m.keys m.keys_nodup m (fun n _ ss hl => h n ss hl)

end stores

section stores2
variable {V : Type}

/-- A successful loop has run its body successfully on every value of the map. -/
theorem foldlM_keys_body {K S : Type} [DecidableEq K] (f : S → Option S) :
    ∀ (ks : List K), ks.Nodup → ∀ (st st1 : GoMap K S),
    ks.foldlM (fun (st : GoMap K S) n =>
        match st.lookup n with
        | none => some st
        | some ss => (f ss).map (fun ss1 => st.insert n ss1)) st = some st1 →
    ∀ n ∈ ks, ∀ ss, st.lookup n = some ss → (f ss).isSome := by
  intro ks
  induction ks with
  | nil => intro _ st st1 _ n hn; simp at hn
  | cons k ks ih =>
    intro hnd st st1 h n hn ss hl
    have hk : k ∉ ks := (List.nodup_cons.1 hnd).1
    have hnd1 : ks.Nodup := (List.nodup_cons.1 hnd).2
    rw [List.foldlM_cons] at h
    cases hlk : st.lookup k with
    | none =>
      simp only [hlk] at h
      have hne : n ≠ k := by
        intro hnk
        rw [hnk, hlk] at hl
        cases hl
      have hn1 : n ∈ ks := (List.mem_cons.1 hn).resolve_left hne
      exact ih hnd1 st st1 h n hn1 ss hl
    | some sk =>
      simp only [hlk] at h
      cases hf : f sk with
      | none => simp [hf] at h
      | some ss1 =>
        simp only [hf, Option.map_some, Option.bind_eq_bind, Option.some_bind] at h
        by_cases hne : n = k
        · subst hne
          rw [hlk] at hl
          cases hl
          simp [hf]
        · have hn1 : n ∈ ks := (List.mem_cons.1 hn).resolve_left hne
          refine ih hnd1 (st.insert k ss1) st1 h n hn1 ss ?_
          rw [AList.lookup_insert_ne hne]
          exact hl

theorem forRangeM_body {K S : Type} [DecidableEq K] {f : S → Option S} {m m1 : GoMap K S}
    (h : forRangeM m f = some m1) {n : K} {ss : S} (hl : m.lookup n = some ss) :
    (f ss).isSome := by
  have hk : n ∈ m.keys := by
    have : n ∈ m := AList.lookup_isSome.1 (by simp [hl])
    exact this
  exact foldlM_keys_body f m.keys m.keys_nodup m m1 h n hk ss hl

theorem length_swapRemove {α : Type} (col : List α) (i : Nat) (hi : i < col.length) :
    (swapRemove col i).length = col.length - 1 := by
  unfold swapRemove
  cases h : col.getLast? with
  | none =>
    rw [List.getLast?_eq_none_iff] at h
    subst h
    simp at hi
  | some last => simp

theorem getElem?_swapRemove {α : Type} (col : List α) (i j : Nat) (hi : i < col.length)
    (hj : j < col.length - 1) :
    (swapRemove col i)[j]? = if j = i then col[col.length - 1]? else col[j]? := by
  unfold swapRemove
  cases h : col.getLast? with
  | none =>
    rw [List.getLast?_eq_none_iff] at h
    subst h
    simp at hi
  | some last =>
    simp only
    rw [List.dropLast_eq_take, List.getElem?_take]
    simp only [List.length_set]
    rw [if_pos hj]
    rw [List.getElem?_set]
    by_cases hji : j = i
    · subst hji
      simp [hi, ← h, List.getLast?_eq_getElem?]
    · have : ¬ i = j := fun h => hji h.symm
      simp [hji, this]

theorem column_eq_some {st : GoMap componentId (componentSliceStorage V)} {n : componentId}
    {A : archetypeId} {col : List V} :
    column st n A = some col ↔
      ∃ ss c, st.lookup n = some ss ∧ ss.slice.lookup A = some c ∧ c.comp = col := by
  unfold column
  cases h : st.lookup n with
  | none => simp
  | some ss =>
    cases h2 : ss.slice.lookup A with
    | none => simp [h2]
    | some c => simp [h2]

theorem deleteAll_lookup {st st1 : GoMap componentId (componentSliceStorage V)} {A : archetypeId}
    {i : Int} (h : deleteAll st A i = some st1) (n : componentId) :
    st1.lookup n = (st.lookup n).bind (fun ss => ss.Delete A i) :=
  forRangeM_lookup h n

/-- A successful `deleteAll` keeps the set of column stores. -/
theorem deleteAll_lookup_isSome {st st1 : GoMap componentId (componentSliceStorage V)}
    {A : archetypeId} {i : Int} (h : deleteAll st A i = some st1) (n : componentId) :
    (st1.lookup n).isSome = (st.lookup n).isSome := by
  rw [deleteAll_lookup h n]
  cases hl : st.lookup n with
  | none => simp
  | some ss =>
    have := forRangeM_body h hl
    simpa using this

/-- A successful `deleteAll` leaves the columns of the other archetypes alone. -/
theorem deleteAll_column_ne {st st1 : GoMap componentId (componentSliceStorage V)}
    {A B : archetypeId} {i : Int} (h : deleteAll st A i = some st1) (hne : B ≠ A)
    (n : componentId) : column st1 n B = column st n B := by
  have h1 := deleteAll_lookup h n
  unfold column
  rw [h1]
  cases hl : st.lookup n with
  | none => simp
  | some ss =>
    obtain ⟨ss1, hd⟩ := Option.isSome_iff_exists.1 (forRangeM_body h hl)
    simp only [Option.some_bind, hd]
    rw [Delete_lookup_ne hd hne]

/-- The loop `deleteAll` at an index inside every column of the archetype: it succeeds and
swap-removes the row from each column of the archetype. -/
theorem deleteAll_spec (st : GoMap componentId (componentSliceStorage V)) (A : archetypeId)
    (i : Nat) (hlen : ∀ n col, column st n A = some col → i < col.length) :
    ∃ st1, deleteAll st A (i : Int) = some st1 ∧
      ∀ n, column st1 n A = (column st n A).map (fun col => swapRemove col i) := by
  have hsome : (deleteAll st A (i : Int)).isSome := by
    apply forRangeM_isSome
    intro n ss hl
    cases hc : ss.slice.lookup A with
    | none => rw [Delete_lookup_none _ hc]; rfl
    | some c =>
      have hi : i < c.comp.length := hlen n c.comp (column_eq_some.2 ⟨ss, c, hl, hc, rfl⟩)
      rw [Delete_lookup_some i hc hi]; rfl
  obtain ⟨st1, h⟩ := Option.isSome_iff_exists.1 hsome
  refine ⟨st1, h, fun n => ?_⟩
  have h1 := deleteAll_lookup h n
  unfold column
  rw [h1]
  cases hl : st.lookup n with
  | none => simp
  | some ss =>
    simp only [Option.some_bind]
    cases hc : ss.slice.lookup A with
    | none => rw [Delete_lookup_none _ hc]; simp [hc]
    | some c =>
      have hi : i < c.comp.length := hlen n c.comp (column_eq_some.2 ⟨ss, c, hl, hc, rfl⟩)
      rw [Delete_lookup_some i hc hi]
      simp

end stores2

section compaction
variable {V : Type}

theorem readArch_eq_readRow (e : archEngine V) (A : archetypeId) (id : Id) (n : componentId) :
    readArch e A id n =
      match e.lookup.lookup A with
      | none => some none
      | some l => readRow l e.compSliceStorage A id n := by
  unfold readArch readRow column
  cases e.lookup.lookup A with
  | none => rfl
  | some l =>
    simp only
    cases l.index.lookup id with
    | none => rfl
    | some i =>
      simp only
      cases e.compSliceStorage.lookup n with
      | none => rfl
      | some ss =>
        simp only
        cases ss.slice.lookup A with
        | none => rfl
        | some c => rfl

theorem lockstep_iff {st : GoMap componentId (componentSliceStorage V)} {A : archetypeId}
    {len : Nat} :
    Lockstep st A len ↔ ∀ n col, column st n A = some col → col.length = len := by
  unfold Lockstep
  constructor
  · intro h n col hc
    obtain ⟨ss, c, h1, h2, h3⟩ := column_eq_some.1 hc
    have hmem : (⟨n, ss⟩ : Sigma fun _ : componentId => componentSliceStorage V) ∈ st.entries :=
      AList.mem_lookup_iff.1 h1
    have := h ⟨n, ss⟩ hmem c h2
    rw [← h3]; exact this
  · intro h p hp c hc
    have h1 : st.lookup p.1 = some p.2 := AList.mem_lookup_iff.2 hp
    exact h p.1 c.comp (column_eq_some.2 ⟨p.2, c, h1, hc, rfl⟩)

theorem Preserved.refl (A : archetypeId) (l : lookupList)
    (st : GoMap componentId (componentSliceStorage V)) : Preserved A l st l st :=
  ⟨fun _ => rfl, fun _ _ => rfl, fun _ => rfl, fun _ _ _ => rfl, fun _ => rfl⟩

theorem Preserved.trans {A : archetypeId} {l l1 l2 : lookupList}
    {st st1 st2 : GoMap componentId (componentSliceStorage V)}
    (h1 : Preserved A l st l1 st1) (h2 : Preserved A l1 st1 l2 st2) :
    Preserved A l st l2 st2 :=
  ⟨fun id => (h2.keys id).trans (h1.keys id),
   fun id n => (h2.rows id n).trans (h1.rows id n),
   fun n => (h2.cols n).trans (h1.cols n),
   fun n B hB => (h2.others n B hB).trans (h1.others n B hB),
   fun n => (h2.stores n).trans (h1.stores n)⟩

/-- Removing a trailing hole: the row is dropped from every column, nothing else moves. -/
theorem trim_one {inv : Id} {A : archetypeId} {l : lookupList}
    {st : GoMap componentId (componentSliceStorage V)} {hs : List Int}
    (hinv : CleanupInv inv A l st hs) (k : Nat) (hk : l.id.length = k + 1)
    (hlast : l.id[k]? = some inv) :
    ∃ st1, deleteAll st A (k : Int) = some st1 ∧
      CleanupInv inv A { l with id := l.id.take k } st1 hs ∧
      Preserved A l st { l with id := l.id.take k } st1 := by
  obtain ⟨st1, hd, hcol⟩ := deleteAll_spec st A k
    (fun n col hc => by rw [hinv.lock n col hc, hk]; omega)
  have htake : ∀ (i : Nat) (e : Id), (l.id.take k)[i]? = some e → l.id[i]? = some e := by
    intro i e h
    rw [List.getElem?_take] at h
    split at h
    · exact h
    · cases h
  have hback : ∀ (e : Id) (j : Int), l.index.lookup e = some j →
      ∃ m : Nat, j = (m : Int) ∧ m < k ∧ l.id[m]? = some e ∧ e ≠ inv := by
    intro e j h
    obtain ⟨he, hg⟩ := hinv.back e j h
    obtain ⟨m, hj, hm⟩ := sliceGet_eq_some hg
    refine ⟨m, hj, ?_, hm, he⟩
    have hlt : m < l.id.length := (List.getElem?_eq_some_iff.1 hm).1
    have hne : m ≠ k := by
      intro hmk
      rw [hmk, hlast] at hm
      exact he (Option.some.inj hm).symm
    omega
  refine ⟨st1, hd, ?_, ?_⟩
  · constructor
    · intro i e h he
      exact hinv.live i e (htake i e h) he
    · intro i h
      exact hinv.hole i (htake i inv h)
    · intro e j h
      obtain ⟨m, hj, hmk, hm, he⟩ := hback e j h
      refine ⟨he, ?_⟩
      show sliceGet (l.id.take k) j = some e
      rw [hj, sliceGet_natCast, List.getElem?_take, if_pos hmk]
      exact hm
    · exact hinv.nodup
    · intro h hh
      obtain ⟨m, hm, hp⟩ := hinv.pending h hh
      refine ⟨m, hm, ?_⟩
      intro hlt
      show (l.id.take k)[m]? = some inv
      have hlt1 : m < (l.id.take k).length := hlt
      rw [List.length_take] at hlt1
      have hmk : m < k := by omega
      rw [List.getElem?_take, if_pos hmk]
      exact hp (by omega)
    · intro n col hc
      rw [hcol n] at hc
      cases hc0 : column st n A with
      | none => rw [hc0] at hc; cases hc
      | some col0 =>
        rw [hc0] at hc
        simp only [Option.map_some', Option.some.injEq] at hc
        have hl0 := hinv.lock n col0 hc0
        show col.length = (l.id.take k).length
        rw [← hc, length_swapRemove col0 k (by omega), List.length_take]
        omega
  · constructor
    · intro id; rfl
    · intro id n
      unfold readRow
      show (match l.index.lookup id with
        | none => some none
        | some index =>
          match column st1 n A with
          | none => some none
          | some col =>
            match sliceGet col index with
            | none => none
            | some v => some (some v)) = _
      cases hi : l.index.lookup id with
      | none => rfl
      | some j =>
        simp only
        obtain ⟨m, hj, hmk, hm, he⟩ := hback id j hi
        rw [hcol n]
        cases hc0 : column st n A with
        | none => rfl
        | some col0 =>
          simp only [Option.map_some']
          have hl0 := hinv.lock n col0 hc0
          have : sliceGet (swapRemove col0 k) j = sliceGet col0 j := by
            rw [hj, sliceGet_natCast, sliceGet_natCast,
              getElem?_swapRemove col0 k m (by omega) (by omega)]
            have : m ≠ k := by omega
            simp [this]
          rw [this]
    · intro n
      rw [hcol n]
      simp
    · intro n B hB
      exact deleteAll_column_ne hd hB n
    · intro n
      exact deleteAll_lookup_isSome hd n

end compaction

section compaction2
variable {V : Type}

theorem getElem?_set_take (ids : List Id) (m k : Nat) (x : Id) (hm : m < k) (hk : k ≤ ids.length)
    (i : Nat) :
    ((ids.set m x).take k)[i]? = if i < k then (if i = m then some x else ids[i]?) else none := by
  rw [List.getElem?_take]
  by_cases hi : i < k
  · rw [if_pos hi, if_pos hi, List.getElem?_set]
    by_cases him : i = m
    · subst him
      have : i < ids.length := by omega
      simp [this]
    · have : ¬ m = i := fun h => him h.symm
      simp [him, this]
  · rw [if_neg hi, if_neg hi]

/-- Plugging a hole with the last (live) slot: the entity moves to the hole together with
its row in every column. -/
theorem swap_one {inv : Id} {A : archetypeId} {l : lookupList}
    {st : GoMap componentId (componentSliceStorage V)} {h : Int} {hs : List Int}
    (hinv : CleanupInv inv A l st (h :: hs)) (k : Nat) (hk : l.id.length = k + 1)
    (lastId : Id) (hlast : l.id[k]? = some lastId) (hne : lastId ≠ inv)
    (m : Nat) (hm : h = (m : Int)) (hlt : m < k + 1) :
    m < k ∧ ∃ st1, deleteAll st A (m : Int) = some st1 ∧
      CleanupInv inv A
        { index := l.index.insert lastId (m : Int), id := (l.id.set m lastId).take k,
          holes := l.holes } st1 hs ∧
      Preserved A l st
        { index := l.index.insert lastId (m : Int), id := (l.id.set m lastId).take k,
          holes := l.holes } st1 := by
  have hmh : l.id[m]? = some inv := by
    obtain ⟨m1, hm1, hp⟩ := hinv.pending h (List.mem_cons_self _ _)
    have : m1 = m := by omega
    subst this
    exact hp (by omega)
  have hmk : m < k := by
    have : m ≠ k := by
      intro hmk
      rw [hmk, hlast] at hmh
      exact hne (Option.some.inj hmh)
    omega
  have hlastIdx : l.index.lookup lastId = some (k : Int) := hinv.live k lastId hlast hne
  have hget := fun i => getElem?_set_take l.id m k lastId hmk (by omega) i
  have hback : ∀ (e : Id) (j : Int), e ≠ lastId → l.index.lookup e = some j →
      ∃ j1 : Nat, j = (j1 : Int) ∧ j1 < k ∧ j1 ≠ m ∧ l.id[j1]? = some e ∧ e ≠ inv := by
    intro e j hel hj
    obtain ⟨he, hg⟩ := hinv.back e j hj
    obtain ⟨j1, hj1, hg1⟩ := sliceGet_eq_some hg
    have hlt1 : j1 < l.id.length := (List.getElem?_eq_some_iff.1 hg1).1
    have h1 : j1 ≠ k := by
      intro hjk
      rw [hjk, hlast] at hg1
      exact hel (Option.some.inj hg1).symm
    have h2 : j1 ≠ m := by
      intro hjm
      rw [hjm, hmh] at hg1
      exact he (Option.some.inj hg1).symm
    exact ⟨j1, hj1, by omega, h2, hg1, he⟩
  obtain ⟨st1, hd, hcol⟩ := deleteAll_spec st A m
    (fun n col hc => by rw [hinv.lock n col hc, hk]; omega)
  refine ⟨hmk, st1, hd, ?_, ?_⟩
  · constructor
    · intro i e hi he
      show (l.index.insert lastId (m : Int)).lookup e = some (i : Int)
      have hi1 : ((l.id.set m lastId).take k)[i]? = some e := hi
      rw [hget i] at hi1
      by_cases hik : i < k
      · rw [if_pos hik] at hi1
        by_cases him : i = m
        · rw [if_pos him] at hi1
          cases hi1
          rw [him]
          exact AList.lookup_insert _
        · rw [if_neg him] at hi1
          have hl := hinv.live i e hi1 he
          have hel : e ≠ lastId := by
            intro hel
            rw [hel, hlastIdx] at hl
            have := Option.some.inj hl
            omega
          rw [AList.lookup_insert_ne hel]
          exact hl
      · rw [if_neg hik] at hi1
        cases hi1
    · intro i hi
      have hi1 : ((l.id.set m lastId).take k)[i]? = some inv := hi
      rw [hget i] at hi1
      by_cases hik : i < k
      · rw [if_pos hik] at hi1
        by_cases him : i = m
        · rw [if_pos him] at hi1
          exact absurd (Option.some.inj hi1) hne
        · rw [if_neg him] at hi1
          have := hinv.hole i hi1
          rcases List.mem_cons.1 this with h1 | h1
          · exfalso
            rw [hm] at h1
            exact him (by exact_mod_cast h1)
          · exact h1
      · rw [if_neg hik] at hi1
        cases hi1
    · intro e j hj
      have hj1 : (l.index.insert lastId (m : Int)).lookup e = some j := hj
      show e ≠ inv ∧ sliceGet ((l.id.set m lastId).take k) j = some e
      by_cases hel : e = lastId
      · subst hel
        rw [AList.lookup_insert] at hj1
        cases hj1
        refine ⟨hne, ?_⟩
        rw [sliceGet_natCast, hget m, if_pos hmk, if_pos rfl]
      · rw [AList.lookup_insert_ne hel] at hj1
        obtain ⟨j1, hjj, hjk, hjm, hg, he⟩ := hback e j hel hj1
        refine ⟨he, ?_⟩
        rw [hjj, sliceGet_natCast, hget j1, if_pos hjk, if_neg hjm]
        exact hg
    · exact (List.nodup_cons.1 hinv.nodup).2
    · intro h1 hh1
      obtain ⟨k1, hk1, hp⟩ := hinv.pending h1 (List.mem_cons_of_mem _ hh1)
      refine ⟨k1, hk1, ?_⟩
      intro hlt1
      have hlt2 : k1 < ((l.id.set m lastId).take k).length := hlt1
      rw [List.length_take, List.length_set] at hlt2
      have hk1k : k1 < k := by omega
      have hk1m : k1 ≠ m := by
        intro hkm
        have : h1 = h := by rw [hk1, hm, hkm]
        rw [this] at hh1
        exact (List.nodup_cons.1 hinv.nodup).1 hh1
      show ((l.id.set m lastId).take k)[k1]? = some inv
      rw [hget k1, if_pos hk1k, if_neg hk1m]
      exact hp (by omega)
    · intro n col hc
      rw [hcol n] at hc
      cases hc0 : column st n A with
      | none => rw [hc0] at hc; cases hc
      | some col0 =>
        rw [hc0] at hc
        simp only [Option.map_some', Option.some.injEq] at hc
        have hl0 := hinv.lock n col0 hc0
        show col.length = ((l.id.set m lastId).take k).length
        rw [← hc, length_swapRemove col0 m (by omega), List.length_take, List.length_set]
        omega
  · constructor
    · intro id
      show ((l.index.insert lastId (m : Int)).lookup id).isSome = _
      by_cases hel : id = lastId
      · subst hel
        rw [AList.lookup_insert, hlastIdx]
        rfl
      · rw [AList.lookup_insert_ne hel]
    · intro id n
      unfold readRow
      show (match (l.index.insert lastId (m : Int)).lookup id with
        | none => some none
        | some index =>
          match column st1 n A with
          | none => some none
          | some col =>
            match sliceGet col index with
            | none => none
            | some v => some (some v)) = _
      rw [hcol n]
      by_cases hel : id = lastId
      · subst hel
        rw [AList.lookup_insert, hlastIdx]
        simp only
        cases hc0 : column st n A with
        | none => rfl
        | some col0 =>
          simp only [Option.map_some']
          have hl0 := hinv.lock n col0 hc0
          have : sliceGet (swapRemove col0 m) (m : Int) = sliceGet col0 (k : Int) := by
            rw [sliceGet_natCast, sliceGet_natCast,
              getElem?_swapRemove col0 m m (by omega) (by omega), if_pos rfl]
            have : col0.length - 1 = k := by omega
            rw [this]
          rw [this]
      · rw [AList.lookup_insert_ne hel]
        cases hi : l.index.lookup id with
        | none => rfl
        | some j =>
          simp only
          obtain ⟨j1, hjj, hjk, hjm, hg, he⟩ := hback id j hel hi
          cases hc0 : column st n A with
          | none => rfl
          | some col0 =>
            simp only [Option.map_some']
            have hl0 := hinv.lock n col0 hc0
            have : sliceGet (swapRemove col0 m) j = sliceGet col0 j := by
              rw [hjj, sliceGet_natCast, sliceGet_natCast,
                getElem?_swapRemove col0 m j1 (by omega) (by omega), if_neg hjm]
            rw [this]
    · intro n
      rw [hcol n]
      simp
    · intro n B hB
      exact deleteAll_column_ne hd hB n
    · intro n
      exact deleteAll_lookup_isSome hd n

end compaction2

section compaction3
variable {V : Type}

/-- The trimming loop terminates within its fuel, keeps the loop invariant and the stored
data, and leaves a reverse array that is empty or ends in a live slot. -/
theorem trim_spec (inv : Id) (A : archetypeId) (hs : List Int) :
    ∀ (fuel : Nat) (l : lookupList) (st : GoMap componentId (componentSliceStorage V)),
    l.id.length < fuel → CleanupInv inv A l st hs →
    ∃ ids1 st1, CleanupHoles.trim inv A fuel l.id st = some (ids1, st1) ∧
      CleanupInv inv A { l with id := ids1 } st1 hs ∧
      Preserved A l st { l with id := ids1 } st1 ∧
      (∀ k, ids1.length = k + 1 → ids1[k]? ≠ some inv) := by
  intro fuel
  induction fuel with
  | zero => intro l st h; omega
  | succ fuel ih =>
    intro l st hfuel hinv
    unfold CleanupHoles.trim
    cases hlen : l.id.length with
    | zero =>
      have hnil : l.id = [] := List.length_eq_zero.1 hlen
      refine ⟨l.id, st, by simp, hinv, Preserved.refl A l st, ?_⟩
      intro k hk
      omega
    | succ k =>
      have hidx : ((k + 1 : Nat) : Int) - 1 = (k : Int) := by omega
      have hnneg : ¬ ((k : Int) < 0) := by omega
      simp only [hidx, hnneg, if_false, sliceGet_natCast, Int.toNat_ofNat]
      have hklt : k < l.id.length := by omega
      obtain ⟨lastId, hlast⟩ : ∃ x, l.id[k]? = some x :=
        ⟨l.id[k], List.getElem?_eq_getElem hklt⟩
      rw [hlast]
      simp only
      by_cases hl : lastId = inv
      · rw [if_pos hl]
        rw [hl] at hlast
        obtain ⟨st1, hd, hinv1, hpres1⟩ := trim_one hinv k hlen hlast
        rw [hd]
        simp only
        have hlen1 : ({ l with id := l.id.take k } : lookupList).id.length < fuel := by
          show (l.id.take k).length < fuel
          rw [List.length_take]
          omega
        obtain ⟨ids2, st2, ht, hinv2, hpres2, hlast2⟩ :=
          ih { l with id := l.id.take k } st1 hlen1 hinv1
        exact ⟨ids2, st2, ht, hinv2, hpres1.trans hpres2, hlast2⟩
      · rw [if_neg hl]
        refine ⟨l.id, st, rfl, hinv, Preserved.refl A l st, ?_⟩
        intro k1 hk1
        have : k1 = k := by omega
        rw [this, hlast]
        intro h
        exact hl (Option.some.inj h)

end compaction3

section compaction4
variable {V : Type}

/-- One iteration of the outer loop of `CleanupHoles` succeeds, consumes the hole it was
run for and keeps the stored data. -/
theorem step_spec {inv : Id} {A : archetypeId} {l : lookupList}
    {st : GoMap componentId (componentSliceStorage V)} {h : Int} {hs : List Int}
    (hinv : CleanupInv inv A l st (h :: hs)) :
    ∃ l1 st1, CleanupHoles.step inv A (l, st) h = some (l1, st1) ∧
      CleanupInv inv A l1 st1 hs ∧ Preserved A l st l1 st1 := by
  obtain ⟨ids1, st1, ht, hinv1, hpres1, hlast1⟩ :=
    trim_spec inv A (h :: hs) (l.id.length + 1) l st (by omega) hinv
  obtain ⟨m, hm, hp⟩ := hinv1.pending h (List.mem_cons_self _ _)
  unfold CleanupHoles.step
  simp only [ht]
  by_cases hge : h ≥ (ids1.length : Int)
  · rw [if_pos hge]
    refine ⟨{ l with id := ids1 }, st1, rfl, ?_, hpres1⟩
    constructor
    · exact hinv1.live
    · intro i hi
      have := hinv1.hole i hi
      rcases List.mem_cons.1 this with h1 | h1
      · exfalso
        have hlt : i < ids1.length := (List.getElem?_eq_some_iff.1 hi).1
        omega
      · exact h1
    · exact hinv1.back
    · exact (List.nodup_cons.1 hinv1.nodup).2
    · intro h1 hh1
      exact hinv1.pending h1 (List.mem_cons_of_mem _ hh1)
    · exact hinv1.lock
  · rw [if_neg hge]
    have hmlt : m < ids1.length := by omega
    obtain ⟨k, hk⟩ : ∃ k, ids1.length = k + 1 := ⟨ids1.length - 1, by omega⟩
    have hidx : (ids1.length : Int) - 1 = (k : Int) := by omega
    obtain ⟨lastId, hlast⟩ : ∃ x, ids1[k]? = some x :=
      ⟨ids1[k], List.getElem?_eq_getElem (by omega)⟩
    have hne : lastId ≠ inv := by
      intro hl
      rw [hl] at hlast
      exact hlast1 k hk hlast
    obtain ⟨hmk, st2, hd, hinv2, hpres2⟩ :=
      swap_one hinv1 k hk lastId hlast hne m hm (by omega)
    simp only [hidx, sliceGet_natCast, hlast, if_neg hne, hm, sliceSet_natCast, hmlt, if_true,
      hd, Int.toNat_ofNat]
    exact ⟨_, st2, rfl, hinv2, hpres1.trans hpres2⟩

/-- The outer loop of `CleanupHoles` over the recorded holes. -/
theorem loop_spec {inv : Id} {A : archetypeId} :
    ∀ (hs : List Int) (l : lookupList) (st : GoMap componentId (componentSliceStorage V)),
    CleanupInv inv A l st hs →
    ∃ l1 st1, hs.foldlM (CleanupHoles.step inv A) (l, st) = some (l1, st1) ∧
      CleanupInv inv A l1 st1 [] ∧ Preserved A l st l1 st1 := by
  intro hs
  induction hs with
  | nil =>
    intro l st hinv
    exact ⟨l, st, rfl, hinv, Preserved.refl A l st⟩
  | cons h hs ih =>
    intro l st hinv
    obtain ⟨l1, st1, hstep, hinv1, hpres1⟩ := step_spec hinv
    obtain ⟨l2, st2, hfold, hinv2, hpres2⟩ := ih l1 st1 hinv1
    refine ⟨l2, st2, ?_, hinv2, hpres1.trans hpres2⟩
    rw [List.foldlM_cons, hstep]
    exact hfold

end compaction4

section wf
variable {V : Type}

/-- The lookup-list invariant, spelled out with optional indexing. -/
theorem WF_iff {inv : Id} {l : lookupList} :
    l.WF inv ↔
      (∀ (i : Nat) (e : Id), l.id[i]? = some e → e ≠ inv → l.index.lookup e = some (i : Int)) ∧
      (∀ (i : Nat), l.id[i]? = some inv → (i : Int) ∈ l.holes) ∧
      (∀ (e : Id) (j : Int), l.index.lookup e = some j → e ≠ inv ∧ sliceGet l.id j = some e) ∧
      l.holes.Nodup ∧
      (∀ h ∈ l.holes, sliceGet l.id h = some inv) := by
  unfold lookupList.WF
  constructor
  · rintro ⟨h1, h2, h3⟩
    refine ⟨?_, ?_, ?_, ?_, h3⟩
    · intro i e hi he
      obtain ⟨hlt, hget⟩ := List.getElem?_eq_some_iff.1 hi
      rcases h1 i hlt with ⟨ha, _⟩ | ⟨_, hb⟩
      · rw [hget] at ha
        exact absurd ha he
      · rw [hget] at hb
        exact hb
    · intro i hi
      obtain ⟨hlt, hget⟩ := List.getElem?_eq_some_iff.1 hi
      rcases h1 i hlt with ⟨_, hc⟩ | ⟨hb, _⟩
      · exact List.count_pos_iff.1 (by omega)
      · exact absurd hget hb
    · intro e j hj
      have hmem : (⟨e, j⟩ : Sigma fun _ : Id => Int) ∈ l.index.entries :=
        AList.mem_lookup_iff.1 hj
      exact h2 ⟨e, j⟩ hmem
    · rw [List.nodup_iff_count_le_one]
      intro a
      by_cases ha : a ∈ l.holes
      · obtain ⟨k, hk, hg⟩ := sliceGet_eq_some (h3 a ha)
        obtain ⟨hlt, hget⟩ := List.getElem?_eq_some_iff.1 hg
        rcases h1 k hlt with ⟨_, hc⟩ | ⟨hb, _⟩
        · rw [hk, hc]
        · exact absurd hget hb
      · rw [List.count_eq_zero_of_not_mem ha]
        omega
  · rintro ⟨h1, h2, h3, h4, h5⟩
    refine ⟨?_, ?_, h5⟩
    · intro i hlt
      have hget : l.id[i]? = some l.id[i] := List.getElem?_eq_getElem hlt
      by_cases he : l.id[i] = inv
      · left
        refine ⟨he, ?_⟩
        rw [he] at hget
        exact List.count_eq_one_of_mem h4 (h2 i hget)
      · right
        exact ⟨he, h1 i _ hget he⟩
    · intro p hp
      have : l.index.lookup p.1 = some p.2 := AList.mem_lookup_iff.2 hp
      exact h3 p.1 p.2 this

/-- A well-formed lookup list with columns in lockstep satisfies the loop invariant of
`CleanupHoles` for its recorded holes. -/
theorem CleanupInv.of_WF {inv : Id} {A : archetypeId} {l : lookupList}
    {st : GoMap componentId (componentSliceStorage V)}
    (hwf : l.WF inv) (hlock : Lockstep st A l.id.length) : CleanupInv inv A l st l.holes := by
  obtain ⟨h1, h2, h3, h4, h5⟩ := WF_iff.1 hwf
  refine ⟨h1, h2, h3, h4, ?_, lockstep_iff.1 hlock⟩
  intro h hh
  obtain ⟨k, hk, hg⟩ := sliceGet_eq_some (h5 h hh)
  exact ⟨k, hk, fun _ => hg⟩

/-- When no hole is pending, the loop invariant is the lookup-list invariant. -/
theorem CleanupInv.to_WF {inv : Id} {A : archetypeId} {l : lookupList}
    {st : GoMap componentId (componentSliceStorage V)}
    (hinv : CleanupInv inv A l st []) (hholes : l.holes = []) :
    l.WF inv ∧ Lockstep st A l.id.length ∧ inv ∉ l.id := by
  refine ⟨WF_iff.2 ⟨hinv.live, ?_, hinv.back, ?_, ?_⟩, lockstep_iff.2 hinv.lock, ?_⟩
  · intro i hi
    exact absurd (hinv.hole i hi) (List.not_mem_nil _)
  · rw [hholes]; exact List.nodup_nil
  · rw [hholes]; intro h hh; exact absurd hh (List.not_mem_nil _)
  · intro hmem
    obtain ⟨i, hi⟩ := List.mem_iff_getElem?.1 hmem
    exact absurd (hinv.hole i hi) (List.not_mem_nil _)

/-- In a well-formed lookup list without sentinel slots, the slots are in bijection with
the forward mappings. -/
theorem length_id_eq_keys {inv : Id} {l : lookupList} (hwf : l.WF inv) (hno : inv ∉ l.id) :
    l.id.length = l.index.keys.length := by
  obtain ⟨h1, _, h3, _, _⟩ := WF_iff.1 hwf
  have hnd : l.id.Nodup := by
    rw [List.nodup_iff_getElem?_ne_getElem?]
    intro i j hij hj heq
    have hi : i < l.id.length := by omega
    have hgi : l.id[i]? = some l.id[i] := List.getElem?_eq_getElem hi
    have hgj : l.id[j]? = some l.id[i] := by rw [← heq]; exact hgi
    have hne : l.id[i] ≠ inv := fun h => hno (h ▸ List.getElem_mem _)
    have e1 := h1 i _ hgi hne
    have e2 := h1 j _ hgj hne
    rw [e1] at e2
    have := Option.some.inj e2
    omega
  have hperm : l.id.Perm l.index.keys := by
    rw [List.perm_ext_iff_of_nodup hnd l.index.keys_nodup]
    intro a
    constructor
    · intro ha
      obtain ⟨i, hi⟩ := List.mem_iff_getElem?.1 ha
      have hne : a ≠ inv := fun h => hno (h ▸ ha)
      have := h1 i a hi hne
      have hmem : a ∈ l.index := AList.lookup_isSome.1 (by simp [this])
      exact hmem
    · intro ha
      have hmem : a ∈ l.index := ha
      obtain ⟨j, hj⟩ := Option.isSome_iff_exists.1 (AList.lookup_isSome.2 hmem)
      obtain ⟨_, hg⟩ := h3 a j hj
      obtain ⟨k, _, hk⟩ := sliceGet_eq_some hg
      exact List.mem_iff_getElem?.2 ⟨k, hk⟩
  exact hperm.length_eq

end wf

section main
variable {V : Type}

/-- Compaction of a well-formed archetype succeeds; the resulting lookup list and column
stores satisfy the loop invariant with no hole pending, and the stored data is kept. -/
theorem CleanupHoles_spec {inv : Id} {e : archEngine V} {A : archetypeId} {l : lookupList}
    (hl : e.lookup.lookup A = some l) (hwf : l.WF inv)
    (hlock : Lockstep e.compSliceStorage A l.id.length) :
    ∃ l1 st1,
      e.CleanupHoles inv A =
        some { e with lookup := e.lookup.insert A l1, compSliceStorage := st1 } ∧
      l1.holes = [] ∧ CleanupInv inv A l1 st1 [] ∧ Preserved A l e.compSliceStorage l1 st1 := by
  obtain ⟨l1, st1, hfold, hinv, hpres⟩ :=
    loop_spec l.holes l e.compSliceStorage (CleanupInv.of_WF hwf hlock)
  refine ⟨{ l1 with holes := l1.holes.take 0 }, st1, ?_, by simp, ?_, ?_⟩
  · unfold archEngine.CleanupHoles
    simp only [hl, hfold]
  · exact ⟨hinv.live, hinv.hole, hinv.back, hinv.nodup, hinv.pending, hinv.lock⟩
  · exact ⟨hpres.keys, hpres.rows, hpres.cols, hpres.others, hpres.stores⟩

/-- C1: for every archetype whose lookup list is well formed and whose columns each have
`len(id)` rows, `CleanupHoles(archId)` returns, and afterwards no slot of `id` holds
`InvalidEntity`, `holes` is empty, and every column that exists for `archId` has length
`len(id)`, which equals the number of live entities (keys of `index`). -/
theorem CleanupHoles_postcondition (InvalidEntity : Id) (e : archEngine V) (archId : archetypeId)
    (l : lookupList) (hl : e.lookup.lookup archId = some l) (hwf : l.WF InvalidEntity)
    (hlock : Lockstep e.compSliceStorage archId l.id.length) :
    ∃ e1 l1, e.CleanupHoles InvalidEntity archId = some e1 ∧
      e1.lookup.lookup archId = some l1 ∧
      InvalidEntity ∉ l1.id ∧ l1.holes = [] ∧
      Lockstep e1.compSliceStorage archId l1.id.length ∧
      l1.id.length = l1.index.keys.length := by
  obtain ⟨l1, st1, hc, hholes, hinv, _⟩ := CleanupHoles_spec hl hwf hlock
  obtain ⟨hwf1, hlock1, hno⟩ := hinv.to_WF hholes
  exact ⟨_, l1, hc, AList.lookup_insert _, hno, hholes, hlock1, length_id_eq_keys hwf1 hno⟩

/-- Witness for C1 on the scenario of the specification. -/
theorem CleanupHoles_postcondition_witness :
    scenarioTagged.lookup.lookup 7 = some scenarioLookup ∧
      lookupList.WF 0 scenarioLookup ∧
      Lockstep scenarioTagged.compSliceStorage 7 scenarioLookup.id.length ∧
      ∃ e1 l1, scenarioTagged.CleanupHoles 0 7 = some e1 ∧
        e1.lookup.lookup 7 = some l1 ∧
        0 ∉ l1.id ∧ l1.holes = [] ∧
        Lockstep e1.compSliceStorage 7 l1.id.length ∧
        l1.id.length = l1.index.keys.length :=
  ⟨by decide, by decide, by decide,
    CleanupHoles_postcondition 0 scenarioTagged 7 scenarioLookup
      (by decide) (by decide) (by decide)⟩

end main

section main2
variable {V : Type}

/-- C2: `CleanupHoles` preserves live data.  For an archetype in a well-formed state
(lookup invariant, columns in lockstep with `id`), compaction returns; every entity has a
forward mapping afterwards exactly when it had one before (live entities stay reachable,
entities tagged for deletion stay absent), and `readArch` returns the same result after
compaction as before, for every entity and every component type. -/
theorem CleanupHoles_preserves_live_data (InvalidEntity : Id) (e : archEngine V)
    (archId : archetypeId) (l : lookupList) (hl : e.lookup.lookup archId = some l)
    (hwf : l.WF InvalidEntity) (hlock : Lockstep e.compSliceStorage archId l.id.length) :
    ∃ e1 l1, e.CleanupHoles InvalidEntity archId = some e1 ∧
      e1.lookup.lookup archId = some l1 ∧
      (∀ id, (l1.index.lookup id).isSome = (l.index.lookup id).isSome) ∧
      (∀ id n, readArch e1 archId id n = readArch e archId id n) := by
  obtain ⟨l1, st1, hc, _, _, hpres⟩ := CleanupHoles_spec hl hwf hlock
  refine ⟨_, l1, hc, AList.lookup_insert _, hpres.keys, ?_⟩
  intro id n
  rw [readArch_eq_readRow, readArch_eq_readRow, hl]
  simp only [AList.lookup_insert]
  exact hpres.rows id n

/-- Witness for C2, the concrete scenario of the specification: entities 1 and 2 are
written with Position `(0,0)` and `(1,1)`, entity 1 is tagged, compaction is run; entity
2 still reads `(1,1)`, entity 1 is absent and one row remains. -/
theorem CleanupHoles_preserves_live_data_witness :
    (((newArchEngine.write 0 7 1 [C 1 ((0, 0) : Int × Int)]).bind
        (fun e => e.write 0 7 2 [C 1 (1, 1)])).bind
        (fun e => e.TagForDeletion 0 7 1) = some scenarioTagged) ∧
      (scenarioTagged.lookup.lookup 7 = some scenarioLookup ∧
        lookupList.WF 0 scenarioLookup ∧
        Lockstep scenarioTagged.compSliceStorage 7 scenarioLookup.id.length) ∧
      (∃ e1 l1, scenarioTagged.CleanupHoles 0 7 = some e1 ∧
        e1.lookup.lookup 7 = some l1 ∧
        (∀ id, (l1.index.lookup id).isSome = (scenarioLookup.index.lookup id).isSome) ∧
        (∀ id n, readArch e1 7 id n = readArch scenarioTagged 7 id n)) ∧
      (scenarioTagged.CleanupHoles 0 7).bind (fun e1 => readArch e1 7 2 1) =
        some (some (1, 1)) ∧
      (scenarioTagged.CleanupHoles 0 7).bind (fun e1 => readArch e1 7 1 1) = some none ∧
      (scenarioTagged.CleanupHoles 0 7).bind (fun e1 => column e1.compSliceStorage 1 7) =
        some [(1, 1)] ∧
      (scenarioTagged.CleanupHoles 0 7).bind
        (fun e1 => (e1.lookup.lookup 7).map (fun l1 => l1.id)) = some [2] :=
  ⟨by decide, ⟨by decide, by decide, by decide⟩,
    CleanupHoles_preserves_live_data 0 scenarioTagged 7 scenarioLookup
      (by decide) (by decide) (by decide),
    by decide, by decide, by decide, by decide⟩

end main2

section writes
variable {V : Type}

/-- The effect of `componentSlice.Write` when it returns: the index is inside the column
or one past its end, the written row holds the value and every other row is unchanged. -/
theorem Write_spec {s s1 : componentSlice V} {index : Int} {v : V}
    (h : s.Write index v = some s1) :
    ∃ i : Nat, index = (i : Int) ∧ i ≤ s.comp.length ∧
      s1.comp.length = max s.comp.length (i + 1) ∧
      s1.comp[i]? = some v ∧ ∀ j : Nat, j ≠ i → s1.comp[j]? = s.comp[j]? := by
  unfold componentSlice.Write at h
  split at h
  · rename_i heq
    cases h
    refine ⟨s.comp.length, heq, le_refl _, by simp, by simp, ?_⟩
    intro j hj
    by_cases hlt : j < s.comp.length
    · simp [List.getElem?_append_left hlt]
    · have h1 : s.comp[j]? = none := List.getElem?_eq_none (by omega)
      rw [h1]
      apply List.getElem?_eq_none
      simp
      omega
  · cases hs : sliceSet s.comp index v with
    | none => rw [hs] at h; cases h
    | some c =>
      rw [hs] at h
      simp only [Option.map_some', Option.some.injEq] at h
      obtain ⟨i, hi, hlt, hc⟩ := sliceSet_eq_some hs
      subst h
      subst hc
      refine ⟨i, hi, by omega, ?_, ?_, ?_⟩
      · simp only [List.length_set]
        omega
      · simp [hlt]
      · intro j hj
        have : ¬ i = j := fun h => hj h.symm
        simp [List.getElem?_set, this]

/-- A write succeeds at every natural index up to the length of the column. -/
theorem Write_isSome (s : componentSlice V) (i : Nat) (v : V) (hi : i ≤ s.comp.length) :
    (s.Write (i : Int) v).isSome := by
  unfold componentSlice.Write
  by_cases h : (i : Int) = (s.comp.length : Int)
  · rw [if_pos h]; rfl
  · rw [if_neg h, sliceSet_natCast]
    have : i < s.comp.length := by omega
    simp [this]

end writes

section writes2
variable {V : Type}

theorem column_insert_self (st : GoMap componentId (componentSliceStorage V)) (n : componentId)
    (ss : componentSliceStorage V) (A : archetypeId) :
    column (st.insert n ss) n A = (ss.slice.lookup A).map (fun c => c.comp) := by
  unfold column
  rw [AList.lookup_insert]

theorem column_insert_ne (st : GoMap componentId (componentSliceStorage V)) {n m : componentId}
    (ss : componentSliceStorage V) (A : archetypeId) (h : m ≠ n) :
    column (st.insert n ss) m A = column st m A := by
  unfold column
  rw [AList.lookup_insert_ne h]

/-- The column a component value is written into: the existing column of its component id
for the archetype, or a fresh empty one. -/
theorem Component_write_spec {c : Component V} {e e1 : archEngine V} {A : archetypeId}
    {index : Int} (h : c.write e A index = some e1) :
    e1.lookup = e.lookup ∧ e1.dcr = e.dcr ∧ e1.filterLists = e.filterLists ∧
    (∃ s1, componentSlice.Write { comp := (column e.compSliceStorage c.id A).getD [] } index
        c.Comp = some s1 ∧ column e1.compSliceStorage c.id A = some s1.comp) ∧
    (∀ m B, (m ≠ c.id ∨ B ≠ A) →
      column e1.compSliceStorage m B = column e.compSliceStorage m B) ∧
    (∀ m, m ≠ c.id → e1.compSliceStorage.lookup m = e.compSliceStorage.lookup m) ∧
    (e1.compSliceStorage.lookup c.id).isSome := by
  unfold Component.write getStorageByCompId writeArch at h
  cases hl : e.compSliceStorage.lookup c.id with
  | none =>
    simp only [hl] at h
    have hcol : column e.compSliceStorage c.id A = none := by unfold column; rw [hl]
    have hempty : (∅ : GoMap archetypeId (componentSlice V)).lookup A = none :=
      AList.lookup_empty _
    simp only [hempty] at h
    cases hw : componentSlice.Write ({ comp := [] } : componentSlice V) index c.Comp with
    | none => rw [hw] at h; cases h
    | some s1 =>
      rw [hw] at h
      simp only [Option.some.injEq] at h
      subst h
      refine ⟨rfl, rfl, rfl, ⟨s1, ?_, ?_⟩, ?_, ?_, ?_⟩
      · rw [hcol]; exact hw
      · show column (AList.insert c.id _ (AList.insert c.id _ e.compSliceStorage)) c.id A = _
        rw [column_insert_self, AList.lookup_insert]
        rfl
      · intro m B hmB
        show column (AList.insert c.id _ (AList.insert c.id _ e.compSliceStorage)) m B = _
        by_cases hm : m = c.id
        · subst hm
          have hB : B ≠ A := hmB.resolve_left (fun h => h rfl)
          rw [column_insert_self, AList.lookup_insert_ne hB]
          unfold column
          rw [hl]
          simp
        · rw [column_insert_ne _ _ _ hm, column_insert_ne _ _ _ hm]
      · intro m hm
        show (AList.insert c.id _ (AList.insert c.id _ e.compSliceStorage)).lookup m = _
        rw [AList.lookup_insert_ne hm, AList.lookup_insert_ne hm]
      · show ((AList.insert c.id _ (AList.insert c.id _ e.compSliceStorage)).lookup c.id).isSome
        rw [AList.lookup_insert]
        rfl
  | some ss =>
    simp only [hl] at h
    have hcol : column e.compSliceStorage c.id A = (ss.slice.lookup A).map (fun c => c.comp) := by
      unfold column; rw [hl]
    have hsl : (match ss.slice.lookup A with
        | some c => c
        | none => ({ comp := [] } : componentSlice V)) =
        { comp := (column e.compSliceStorage c.id A).getD [] } := by
      rw [hcol]
      cases ss.slice.lookup A with
      | none => rfl
      | some c0 => rfl
    rw [hsl] at h
    cases hw : componentSlice.Write
        ({ comp := (column e.compSliceStorage c.id A).getD [] } : componentSlice V) index
        c.Comp with
    | none => rw [hw] at h; cases h
    | some s1 =>
      rw [hw] at h
      simp only [Option.some.injEq] at h
      subst h
      refine ⟨rfl, rfl, rfl, ⟨s1, rfl, ?_⟩, ?_, ?_, ?_⟩
      · show column (AList.insert c.id _ e.compSliceStorage) c.id A = _
        rw [column_insert_self, AList.lookup_insert]
        rfl
      · intro m B hmB
        show column (AList.insert c.id _ e.compSliceStorage) m B = _
        by_cases hm : m = c.id
        · subst hm
          have hB : B ≠ A := hmB.resolve_left (fun h => h rfl)
          rw [column_insert_self, AList.lookup_insert_ne hB]
          unfold column
          rw [hl]
        · rw [column_insert_ne _ _ _ hm]
      · intro m hm
        show (AList.insert c.id _ e.compSliceStorage).lookup m = _
        rw [AList.lookup_insert_ne hm]
      · show ((AList.insert c.id _ e.compSliceStorage).lookup c.id).isSome
        rw [AList.lookup_insert]
        rfl

/-- Writing a component value succeeds exactly when the write into its column does. -/
theorem Component_write_isSome {c : Component V} {e : archEngine V} {A : archetypeId}
    {index : Int}
    (h : (componentSlice.Write { comp := (column e.compSliceStorage c.id A).getD [] } index
        c.Comp).isSome) : (c.write e A index).isSome := by
  unfold Component.write getStorageByCompId writeArch
  cases hl : e.compSliceStorage.lookup c.id with
  | none =>
    have hcol : column e.compSliceStorage c.id A = none := by unfold column; rw [hl]
    rw [hcol] at h
    have hempty : (∅ : GoMap archetypeId (componentSlice V)).lookup A = none :=
      AList.lookup_empty _
    simp only [hempty]
    obtain ⟨s1, hs1⟩ := Option.isSome_iff_exists.1 h
    simp only [Option.getD_none] at hs1
    rw [hs1]
    rfl
  | some ss =>
    have hcol : column e.compSliceStorage c.id A = (ss.slice.lookup A).map (fun c => c.comp) := by
      unfold column; rw [hl]
    have hsl : (match ss.slice.lookup A with
        | some c => c
        | none => ({ comp := [] } : componentSlice V)) =
        { comp := (column e.compSliceStorage c.id A).getD [] } := by
      rw [hcol]
      cases ss.slice.lookup A with
      | none => rfl
      | some c0 => rfl
    simp only
    rw [hsl]
    obtain ⟨s1, hs1⟩ := Option.isSome_iff_exists.1 h
    rw [hs1]
    rfl

end writes2

section writes3
variable {V : Type}

theorem Add_append (ent : Entity V) (cs : List (Component V)) (c : Component V) :
    (ent.Add (cs ++ [c])).comp = (ent.Add cs).comp.insert c.id c.Comp := by
  unfold Entity.Add
  rw [List.foldl_append]
  rfl

theorem supplied_nil (m : componentId) : supplied ([] : List (Component V)) m = none := by
  unfold supplied Entity.Add NewEntity
  exact AList.lookup_empty _

theorem supplied_append (cs : List (Component V)) (c : Component V) (m : componentId) :
    supplied (cs ++ [c]) m = if m = c.id then some c.Comp else supplied cs m := by
  unfold supplied
  rw [Add_append]
  by_cases h : m = c.id
  · rw [if_pos h, h, AList.lookup_insert]
  · rw [if_neg h, AList.lookup_insert_ne h]

/-- Lookups in a snapshot after `Add`: supplied values override, the rest is kept. -/
theorem Add_lookup (ent : Entity V) (cs : List (Component V)) (m : componentId) :
    (ent.Add cs).comp.lookup m =
      match supplied cs m with
      | some v => some v
      | none => ent.comp.lookup m := by
  induction cs using List.reverseRecOn with
  | nil => rw [supplied_nil]; rfl
  | append_singleton cs c ih =>
    rw [Add_append, supplied_append]
    by_cases h : m = c.id
    · rw [if_pos h, h, AList.lookup_insert]
    · rw [if_neg h, AList.lookup_insert_ne h, ih]

/-- The loop of `write` over the supplied component values, when it returns. -/
theorem writeLoop_spec {A : archetypeId} {index : Int} :
    ∀ (comps : List (Component V)) (e e1 : archEngine V),
    comps.foldlM (fun e2 c => c.write e2 A index) e = some e1 →
    WriteEffect A index comps e e1 := by
  intro comps
  induction comps using List.reverseRecOn with
  | nil =>
    intro e e1 h
    simp only [List.foldlM_nil, Option.pure_def, Option.some.injEq] at h
    subst h
    refine ⟨rfl, rfl, rfl, fun _ _ _ => rfl, fun _ _ => ⟨rfl, rfl⟩, ?_⟩
    intro m v hs
    rw [supplied_nil] at hs
    cases hs
  | append_singleton cs c ih =>
    intro e e1 h
    rw [List.foldlM_append] at h
    cases hmid : cs.foldlM (fun e2 c => c.write e2 A index) e with
    | none => rw [hmid] at h; cases h
    | some e0 =>
      rw [hmid] at h
      simp only [Option.bind_eq_bind, Option.some_bind, List.foldlM_cons, List.foldlM_nil,
        Option.pure_def, Option.bind_some] at h
      have ih0 := ih e e0 hmid
      obtain ⟨hl, hd, hf, ⟨s1, hw, hcol⟩, hoth, hst, _⟩ := Component_write_spec h
      obtain ⟨i, hi, hile, hlen, hgi, hgj⟩ := Write_spec hw
      refine ⟨hl.trans ih0.lookup, hd.trans ih0.dcr, hf.trans ih0.filterLists, ?_, ?_, ?_⟩
      · intro m B hB
        rw [hoth m B (Or.inr hB)]
        exact ih0.others m B hB
      · intro m hs
        rw [supplied_append] at hs
        by_cases hm : m = c.id
        · rw [if_pos hm] at hs; cases hs
        · rw [if_neg hm] at hs
          rw [hoth m A (Or.inl hm), hst m hm]
          exact ih0.untouched m hs
      · intro m v hs
        rw [supplied_append] at hs
        by_cases hm : m = c.id
        · rw [if_pos hm] at hs
          cases hs
          subst hm
          cases hprev : supplied cs c.id with
          | none =>
            have hu := (ih0.untouched c.id hprev).1
            rw [hu] at hw hile hlen hgj
            exact ⟨s1.comp, i, hi, hile, hcol, hlen, hgi, hgj⟩
          | some v0 =>
            obtain ⟨col0, i0, hi0, hile0, hcol0, hlen0, _, hgj0⟩ := ih0.written c.id v0 hprev
            have hii : i0 = i := by omega
            subst hii
            rw [hcol0] at hw hile hlen hgj
            simp only [Option.getD_some] at hile hlen hgj
            refine ⟨s1.comp, i0, hi, hile0, hcol, ?_, hgi, ?_⟩
            · rw [hlen, hlen0]
              omega
            · intro j hj
              rw [hgj j hj, hgj0 j hj]
        · rw [if_neg hm] at hs
          rw [hoth m A (Or.inl hm)]
          exact ih0.written m v hs

end writes3

section reads
variable {V : Type}

theorem Add_singleton (ent : Entity V) (c : Component V) :
    (ent.Add [c]).comp = ent.comp.insert c.id c.Comp := rfl

/-- The probe `ReadToEntity` of the column store registered under `n`, in terms of the
column of `n` for the archetype. -/
theorem ReadToEntity_eq {st : GoMap componentId (componentSliceStorage V)} {n : componentId}
    {ss : componentSliceStorage V} (h : st.lookup n = some ss) (ent : Entity V)
    (A : archetypeId) (index : Int) :
    (ss.ReadToEntity n ent A index).map Prod.fst =
      match column st n A with
      | none => some ent
      | some col =>
        match sliceGet col index with
        | none => none
        | some v => some { comp := ent.comp.insert n v } := by
  unfold componentSliceStorage.ReadToEntity column
  rw [h]
  cases hsl : ss.slice.lookup A with
  | none => simp [hsl]
  | some c =>
    simp only [Option.map_some']
    cases hg : sliceGet c.comp index with
    | none => simp [hsl, hg]
    | some v =>
      simp only [hsl, hg, Option.map_some']
      rfl

/-- The probing loop of `ReadEntity` over a list of entries of the column-store map. -/
theorem readLoop_spec (st : GoMap componentId (componentSliceStorage V)) (A : archetypeId)
    (index : Int) :
    ∀ (ps : List (Sigma fun _ : componentId => componentSliceStorage V)),
    (∀ p ∈ ps, st.lookup p.1 = some p.2) →
    ∀ (ent ent1 : Entity V),
    ps.foldlM (fun (acc : Entity V) (p : Sigma fun _ : componentId => componentSliceStorage V) =>
      (p.2.ReadToEntity p.1 acc A index).map Prod.fst) ent = some ent1 →
    (∀ p ∈ ps, ∀ col, column st p.1 A = some col → (sliceGet col index).isSome) ∧
    (∀ m, ent1.comp.lookup m =
      if m ∈ ps.map (fun p => p.1) then
        match (column st m A).bind (fun col => sliceGet col index) with
        | some v => some v
        | none => ent.comp.lookup m
      else ent.comp.lookup m) := by
  intro ps
  induction ps with
  | nil =>
    intro _ ent ent1 h
    simp only [List.foldlM_nil, Option.pure_def, Option.some.injEq] at h
    subst h
    exact ⟨fun p hp => absurd hp (List.not_mem_nil _), fun m => by simp⟩
  | cons p ps ih =>
    intro hps ent ent1 h
    have hp := hps p (List.mem_cons_self _ _)
    have hps1 : ∀ q ∈ ps, st.lookup q.1 = some q.2 :=
      fun q hq => hps q (List.mem_cons_of_mem _ hq)
    rw [List.foldlM_cons, ReadToEntity_eq hp] at h
    cases hc : column st p.1 A with
    | none =>
      rw [hc] at h
      simp only [Option.bind_eq_bind, Option.some_bind] at h
      obtain ⟨h1, h2⟩ := ih hps1 ent ent1 h
      refine ⟨?_, ?_⟩
      · intro q hq col hcol
        rcases List.mem_cons.1 hq with hq1 | hq1
        · rw [hq1, hc] at hcol; cases hcol
        · exact h1 q hq1 col hcol
      · intro m
        rw [h2 m]
        by_cases hm : m = p.1
        · subst hm
          simp [hc]
        · simp only [List.map_cons, List.mem_cons, hm, false_or]
    | some col =>
      rw [hc] at h
      simp only at h
      cases hg : sliceGet col index with
      | none => rw [hg] at h; simp at h
      | some v =>
        rw [hg] at h
        simp only [Option.bind_eq_bind, Option.some_bind] at h
        obtain ⟨h1, h2⟩ := ih hps1 _ ent1 h
        refine ⟨?_, ?_⟩
        · intro q hq col1 hcol
          rcases List.mem_cons.1 hq with hq1 | hq1
          · rw [hq1, hc] at hcol
            cases hcol
            rw [hg]; rfl
          · exact h1 q hq1 col1 hcol
        · intro m
          rw [h2 m]
          by_cases hm : m = p.1
          · subst hm
            simp [hc, hg]
          · simp only [List.map_cons, List.mem_cons, hm, false_or, AList.lookup_insert_ne hm]

/-- The probing loop succeeds when every column of the archetype has a row at `index`. -/
theorem readLoop_isSome (st : GoMap componentId (componentSliceStorage V)) (A : archetypeId)
    (index : Int)
    (hrow : ∀ n col, column st n A = some col → (sliceGet col index).isSome) :
    ∀ (ps : List (Sigma fun _ : componentId => componentSliceStorage V)),
    (∀ p ∈ ps, st.lookup p.1 = some p.2) →
    ∀ (ent : Entity V),
    (ps.foldlM (fun (acc : Entity V) (p : Sigma fun _ : componentId => componentSliceStorage V) =>
      (p.2.ReadToEntity p.1 acc A index).map Prod.fst) ent).isSome := by
  intro ps
  induction ps with
  | nil => intro _ ent; rfl
  | cons p ps ih =>
    intro hps ent
    have hp := hps p (List.mem_cons_self _ _)
    have hps1 : ∀ q ∈ ps, st.lookup q.1 = some q.2 :=
      fun q hq => hps q (List.mem_cons_of_mem _ hq)
    rw [List.foldlM_cons, ReadToEntity_eq hp]
    cases hc : column st p.1 A with
    | none =>
      simp only [Option.bind_eq_bind, Option.some_bind]
      exact ih hps1 ent
    | some col =>
      obtain ⟨v, hv⟩ := Option.isSome_iff_exists.1 (hrow p.1 col hc)
      simp only [hv, Option.bind_eq_bind, Option.some_bind]
      exact ih hps1 _

/-- The snapshot `ReadEntity` returns holds, under every component id, the row of the
entity in the column of that id; and every column of the archetype has such a row. -/
theorem ReadEntity_spec {e : archEngine V} {A : archetypeId} {id : Id} {ent : Entity V}
    (h : e.ReadEntity A id = some ent) :
    ∃ l index, e.lookup.lookup A = some l ∧ l.index.lookup id = some index ∧
      (∀ n col, column e.compSliceStorage n A = some col → (sliceGet col index).isSome) ∧
      (∀ m, ent.comp.lookup m =
        (column e.compSliceStorage m A).bind (fun col => sliceGet col index)) := by
  unfold archEngine.ReadEntity at h
  cases hl : e.lookup.lookup A with
  | none => rw [hl] at h; cases h
  | some l =>
    rw [hl] at h
    simp only at h
    cases hi : l.index.lookup id with
    | none => rw [hi] at h; cases h
    | some index =>
      rw [hi] at h
      simp only at h
      unfold forRangeAccM at h
      have hps : ∀ p ∈ e.compSliceStorage.entries, e.compSliceStorage.lookup p.1 = some p.2 :=
        fun p hp => AList.mem_lookup_iff.2 hp
      obtain ⟨h1, h2⟩ := readLoop_spec e.compSliceStorage A index _ hps _ _ h
      refine ⟨l, index, rfl, hi, ?_, ?_⟩
      · intro n col hcol
        obtain ⟨ss, c, hs, _, _⟩ := column_eq_some.1 hcol
        exact h1 ⟨n, ss⟩ (AList.mem_lookup_iff.1 hs) col hcol
      · intro m
        rw [h2 m]
        have hnew : (NewEntity : Entity V).comp.lookup m = none := AList.lookup_empty _
        rw [hnew]
        by_cases hm : m ∈ e.compSliceStorage.entries.map (fun p => p.1)
        · rw [if_pos hm]
          cases (column e.compSliceStorage m A).bind (fun col => sliceGet col index) with
          | none => rfl
          | some v => rfl
        · rw [if_neg hm]
          have hm1 : m ∉ e.compSliceStorage := by
            intro hmem
            exact hm (by simpa [AList.mem_keys, AList.keys, List.keys] using hmem)
          have : column e.compSliceStorage m A = none := by
            unfold column
            rw [AList.lookup_eq_none.2 hm1]
          rw [this]
          rfl

/-- The call `ReadEntity` returns when the entity has a slot and every column of the
archetype has a row at that slot. -/
theorem ReadEntity_isSome {e : archEngine V} {A : archetypeId} {id : Id} {l : lookupList}
    {index : Int} (hl : e.lookup.lookup A = some l) (hi : l.index.lookup id = some index)
    (hrow : ∀ n col, column e.compSliceStorage n A = some col → (sliceGet col index).isSome) :
    (e.ReadEntity A id).isSome := by
  unfold archEngine.ReadEntity
  rw [hl]
  simp only
  rw [hi]
  simp only
  unfold forRangeAccM
  exact readLoop_isSome e.compSliceStorage A index hrow _
    (fun p hp => AList.mem_lookup_iff.2 hp) _

end reads

section slots
variable {V : Type}

/-- The three parts of `getOrAddLookupIndex`: create the lookup list, compact when 1024 or
more holes are pending, resolve the slot. -/
theorem getOrAddLookupIndex_eq (inv : Id) (e : archEngine V) (A : archetypeId) (id : Id) :
    e.getOrAddLookupIndex inv A id =
      match (ensureLookup e A).lookup.lookup A with
      | none => none
      | some lookup =>
        match (if (lookup.holes.length : Int) ≥ 1024 then (ensureLookup e A).CleanupHoles inv A
               else some (ensureLookup e A)) with
        | none => none
        | some e2 => resolveSlot e2 A id := by
  unfold archEngine.getOrAddLookupIndex ensureLookup resolveSlot
  rfl

theorem ensureLookup_lookup (e : archEngine V) (A : archetypeId) :
    (ensureLookup e A).lookup.lookup A =
      some ((e.lookup.lookup A).getD { index := ∅, id := [], holes := [] }) := by
  unfold ensureLookup
  cases h : e.lookup.lookup A with
  | none => simp
  | some l => simp [h]

theorem ensureLookup_lookup_ne (e : archEngine V) {A B : archetypeId} (h : B ≠ A) :
    (ensureLookup e A).lookup.lookup B = e.lookup.lookup B := by
  unfold ensureLookup
  cases e.lookup.lookup A with
  | none => simp [AList.lookup_insert_ne h]
  | some l => rfl

theorem ensureLookup_storage (e : archEngine V) (A : archetypeId) :
    (ensureLookup e A).compSliceStorage = e.compSliceStorage ∧
    (ensureLookup e A).dcr = e.dcr ∧ (ensureLookup e A).filterLists = e.filterLists := by
  unfold ensureLookup
  cases e.lookup.lookup A with
  | none => exact ⟨rfl, rfl, rfl⟩
  | some l => exact ⟨rfl, rfl, rfl⟩

/-- What `resolveSlot` returns: the entity is mapped to the returned slot afterwards; the
lookup lists of the other archetypes, the column stores and the registry are untouched;
the lookup list of the archetype is unchanged when the entity was present and is the
result of `addToEasiestHole` otherwise. -/
theorem resolveSlot_spec {e e1 : archEngine V} {A : archetypeId} {id : Id} {index : Int}
    (h : resolveSlot e A id = some (index, e1)) :
    ∃ l l1, e.lookup.lookup A = some l ∧ e1.lookup.lookup A = some l1 ∧
      l1.index.lookup id = some index ∧
      (∀ B, B ≠ A → e1.lookup.lookup B = e.lookup.lookup B) ∧
      e1.compSliceStorage = e.compSliceStorage ∧ e1.dcr = e.dcr ∧
      e1.filterLists = e.filterLists ∧
      ((l.index.lookup id = some index ∧ l1 = l ∧ e1 = e) ∨
       (l.index.lookup id = none ∧ l.addToEasiestHole id = some (index, l1))) := by
  unfold resolveSlot at h
  cases hl : e.lookup.lookup A with
  | none => rw [hl] at h; cases h
  | some l =>
    rw [hl] at h
    simp only at h
    cases hi : l.index.lookup id with
    | some i =>
      rw [hi] at h
      simp only [Option.some.injEq, Prod.mk.injEq] at h
      obtain ⟨h1, h2⟩ := h
      subst h1 h2
      exact ⟨l, l, rfl, hl, hi, fun _ _ => rfl, rfl, rfl, rfl, Or.inl ⟨hi, rfl, rfl⟩⟩
    | none =>
      rw [hi] at h
      simp only at h
      cases ha : l.addToEasiestHole id with
      | none => rw [ha] at h; cases h
      | some r =>
        obtain ⟨i, l1⟩ := r
        rw [ha] at h
        simp only [Option.some.injEq, Prod.mk.injEq] at h
        obtain ⟨h1, h2⟩ := h
        subst h1 h2
        refine ⟨l, l1, rfl, AList.lookup_insert _, ?_, ?_, rfl, rfl, rfl, Or.inr ⟨hi, ha⟩⟩
        · unfold lookupList.addToEasiestHole at ha
          split at ha
          · simp only at ha
            split at ha
            · cases ha
            · split at ha
              · cases ha
              · simp only [Option.some.injEq, Prod.mk.injEq] at ha
                obtain ⟨h1, h2⟩ := ha
                subst h1 h2
                exact AList.lookup_insert _
          · simp only [Option.some.injEq, Prod.mk.injEq] at ha
            obtain ⟨h1, h2⟩ := ha
            subst h1 h2
            exact AList.lookup_insert _
        · intro B hB
          exact AList.lookup_insert_ne hB

end slots

section roundtrip
variable {V : Type}

/-- After `getOrAddLookupIndex` returns, the entity is mapped to the returned slot. -/
theorem getOrAddLookupIndex_slot {inv : Id} {e e1 : archEngine V} {A : archetypeId} {id : Id}
    {index : Int} (h : e.getOrAddLookupIndex inv A id = some (index, e1)) :
    ∃ l1, e1.lookup.lookup A = some l1 ∧ l1.index.lookup id = some index := by
  rw [getOrAddLookupIndex_eq] at h
  cases h1 : (ensureLookup e A).lookup.lookup A with
  | none => rw [h1] at h; cases h
  | some l =>
    rw [h1] at h
    simp only at h
    split at h
    · cases h
    · rename_i e2 _
      obtain ⟨_, l1, _, hl1, hi, _⟩ := resolveSlot_spec h
      exact ⟨l1, hl1, hi⟩

theorem twoColumns_reachable :
    (newArchEngine : archEngine Nat).write 0 7 1 [C 1 10, C 2 20] = some twoColumns := by
  decide

/-- C3, as stated, fails: in an archetype with two columns, a write of a single component
value for a new entity succeeds, and `ReadEntity` for that entity then panics (the column
that was not supplied has no row at the new slot) instead of returning a snapshot that
contains the value. -/
theorem write_then_ReadEntity_counterexample :
    ¬ (∀ (e : archEngine Nat) (A : archetypeId) (id : Id) (n : componentId) (v : Nat)
        (e1 : archEngine Nat), e.write 0 A id [C n v] = some e1 →
        readArch e1 A id n = some (some v) ∧
        ∃ ent, e1.ReadEntity A id = some ent ∧ ent.comp.lookup n = some v) := by
  intro h
  have hs : (twoColumns.write 0 7 2 [C 1 11]).isSome = true := by decide
  obtain ⟨e1, he1⟩ := Option.isSome_iff_exists.1 hs
  obtain ⟨_, ent, hent, _⟩ := h twoColumns 7 2 1 11 e1 he1
  have hr : (twoColumns.write 0 7 2 [C 1 11]).bind (fun e2 => e2.ReadEntity 7 2) = none := by
    decide
  rw [he1] at hr
  simp only [Option.some_bind] at hr
  rw [hr] at hent
  cases hent

/-- C3, amended: after `write(A, e, C(v))` succeeds, the entity has a slot in `A`,
`readArch[T](A, e)` returns `(v, true)`, `ReadEntity(A, e)` returns exactly when every
column that exists for `A` has a row at that slot, and every snapshot it returns
contains `v` under the component id of `T`.  No assumption on the state: the entity may
have been in `A` already, may have been appended or may have taken a reused hole. -/
theorem write_then_read (InvalidEntity : Id) (e : archEngine V) (archId : archetypeId)
    (id : Id) (n : componentId) (v : V) (e1 : archEngine V)
    (h : e.write InvalidEntity archId id [C n v] = some e1) :
    ∃ l1 index, e1.lookup.lookup archId = some l1 ∧ l1.index.lookup id = some index ∧
      readArch e1 archId id n = some (some v) ∧
      ((∃ ent, e1.ReadEntity archId id = some ent) ↔
        ∀ m col, column e1.compSliceStorage m archId = some col →
          (sliceGet col index).isSome) ∧
      (∀ ent, e1.ReadEntity archId id = some ent → ent.comp.lookup n = some v) := by
  unfold archEngine.write at h
  cases hg : e.getOrAddLookupIndex InvalidEntity archId id with
  | none => rw [hg] at h; cases h
  | some r =>
    obtain ⟨index, e0⟩ := r
    rw [hg] at h
    simp only at h
    obtain ⟨l1, hl1, hi⟩ := getOrAddLookupIndex_slot hg
    have heff := writeLoop_spec _ _ _ h
    have hsup : supplied [C n v] n = some v := by
      have := supplied_append ([] : List (Component V)) (C n v) n
      simpa [C, Component.id] using this
    obtain ⟨col, i, hidx, _, hcol, _, hget, _⟩ := heff.written n v hsup
    have hl1b : e1.lookup.lookup archId = some l1 := by rw [heff.lookup]; exact hl1
    have hrow : sliceGet col index = some v := by rw [hidx, sliceGet_natCast]; exact hget
    have hread : readArch e1 archId id n = some (some v) := by
      rw [readArch_eq_readRow, hl1b]
      simp only [readRow, hi, hcol, hrow]
    refine ⟨l1, index, hl1b, hi, hread, ⟨?_, ?_⟩, ?_⟩
    · rintro ⟨ent, hent⟩
      obtain ⟨l2, index2, hl2, hi2, hrows, _⟩ := ReadEntity_spec hent
      rw [hl1b] at hl2
      cases hl2
      rw [hi] at hi2
      cases hi2
      exact hrows
    · intro hrows
      exact Option.isSome_iff_exists.1 (ReadEntity_isSome hl1b hi hrows)
    · intro ent hent
      obtain ⟨l2, index2, hl2, hi2, _, hlook⟩ := ReadEntity_spec hent
      rw [hl1b] at hl2
      cases hl2
      rw [hi] at hi2
      cases hi2
      rw [hlook n, hcol]
      exact hrow

/-- Witness for C3 (amended): the first write of the scenario of the specification. -/
theorem write_then_read_witness :
    (newArchEngine : archEngine (Int × Int)).write 0 7 1 [C 1 (0, 0)] = some scenarioOne ∧
    ∃ l1 index, scenarioOne.lookup.lookup 7 = some l1 ∧ l1.index.lookup 1 = some index ∧
      readArch scenarioOne 7 1 1 = some (some (0, 0)) ∧
      ((∃ ent, scenarioOne.ReadEntity 7 1 = some ent) ↔
        ∀ m col, column scenarioOne.compSliceStorage m 7 = some col →
          (sliceGet col index).isSome) ∧
      (∀ ent, scenarioOne.ReadEntity 7 1 = some ent → ent.comp.lookup 1 = some (0, 0)) :=
  ⟨by decide, write_then_read 0 newArchEngine 7 1 1 (0, 0) scenarioOne (by decide)⟩

end roundtrip

section frames
variable {V : Type}

/-- The two ways `addToEasiestHole` returns: it reuses the last recorded hole, or, when no
hole is recorded, appends a slot. -/
theorem addToEasiestHole_spec {l l1 : lookupList} {id : Id} {index : Int}
    (h : l.addToEasiestHole id = some (index, l1)) :
    (∃ (hs : List Int) (i : Nat), l.holes = hs ++ [index] ∧ index = (i : Int) ∧
        i < l.id.length ∧
        l1 = { index := l.index.insert id index, id := l.id.set i id, holes := hs }) ∨
    (l.holes = [] ∧ index = (l.id.length : Int) ∧
        l1 = { index := l.index.insert id index, id := l.id ++ [id], holes := [] }) := by
  unfold lookupList.addToEasiestHole at h
  split at h
  · rename_i hpos
    left
    simp only at h
    cases hh : l.holes[l.holes.length - 1]? with
    | none => rw [hh] at h; cases h
    | some x =>
      rw [hh] at h
      simp only at h
      cases hs : sliceSet l.id x id with
      | none => rw [hs] at h; cases h
      | some ids =>
        rw [hs] at h
        simp only [Option.some.injEq, Prod.mk.injEq] at h
        obtain ⟨h1, h2⟩ := h
        subst h1
        obtain ⟨i, hi, hlt, hids⟩ := sliceSet_eq_some hs
        refine ⟨l.holes.take (l.holes.length - 1), i, ?_, hi, hlt, ?_⟩
        · have hlast : l.holes.getLast? = some x := by
            rw [List.getLast?_eq_getElem?]; exact hh
          have hne : l.holes ≠ [] := by
            intro hn; rw [hn] at hpos; simp at hpos
          have := List.dropLast_append_getLast? x hlast
          rw [← List.dropLast_eq_take]
          exact this.symm
        · rw [← h2, hids]
  · rename_i hpos
    right
    have hnil : l.holes = [] := by
      cases hl : l.holes with
      | nil => rfl
      | cons a t => rw [hl] at hpos; simp at hpos
    simp only [Option.some.injEq, Prod.mk.injEq] at h
    obtain ⟨h1, h2⟩ := h
    refine ⟨hnil, ?_, ?_⟩
    · rw [← h1]
      simp
    · rw [← h2, ← h1, hnil]

/-- A successful trimming loop leaves the columns of the other archetypes and the set of
column stores alone. -/
theorem trim_frame {inv : Id} {B : archetypeId} :
    ∀ (fuel : Nat) (ids ids1 : List Id) (st st1 : GoMap componentId (componentSliceStorage V)),
    CleanupHoles.trim inv B fuel ids st = some (ids1, st1) →
    (∀ m A, A ≠ B → column st1 m A = column st m A) ∧
    (∀ m, (st1.lookup m).isSome = (st.lookup m).isSome) := by
  intro fuel
  induction fuel with
  | zero => intro ids ids1 st st1 h; unfold CleanupHoles.trim at h; cases h
  | succ fuel ih =>
    intro ids ids1 st st1 h
    unfold CleanupHoles.trim at h
    simp only at h
    split at h
    · simp only [Option.some.injEq, Prod.mk.injEq] at h
      obtain ⟨_, h2⟩ := h
      subst h2
      exact ⟨fun _ _ _ => rfl, fun _ => rfl⟩
    · split at h
      · cases h
      · split at h
        · split at h
          · cases h
          · rename_i st2 hd
            obtain ⟨h1, h2⟩ := ih _ _ _ _ h
            refine ⟨?_, ?_⟩
            · intro m A hA
              rw [h1 m A hA]
              exact deleteAll_column_ne hd hA m
            · intro m
              rw [h2 m]
              exact deleteAll_lookup_isSome hd m
        · simp only [Option.some.injEq, Prod.mk.injEq] at h
          obtain ⟨_, h2⟩ := h
          subst h2
          exact ⟨fun _ _ _ => rfl, fun _ => rfl⟩

/-- A successful iteration of the outer loop leaves the columns of the other archetypes
and the set of column stores alone. -/
theorem step_frame {inv : Id} {B : archetypeId} {l l1 : lookupList}
    {st st1 : GoMap componentId (componentSliceStorage V)} {h : Int}
    (hs : CleanupHoles.step inv B (l, st) h = some (l1, st1)) :
    (∀ m A, A ≠ B → column st1 m A = column st m A) ∧
    (∀ m, (st1.lookup m).isSome = (st.lookup m).isSome) := by
  unfold CleanupHoles.step at hs
  simp only at hs
  split at hs
  · cases hs
  · rename_i ids2 st2 ht
    obtain ⟨t1, t2⟩ := trim_frame _ _ _ _ _ ht
    split at hs
    · simp only [Option.some.injEq, Prod.mk.injEq] at hs
      obtain ⟨_, h2⟩ := hs
      subst h2
      exact ⟨t1, t2⟩
    · split at hs
      · cases hs
      · split at hs
        · cases hs
        · split at hs
          · cases hs
          · split at hs
            · cases hs
            · rename_i st3 hd
              simp only [Option.some.injEq, Prod.mk.injEq] at hs
              obtain ⟨_, h2⟩ := hs
              subst h2
              refine ⟨?_, ?_⟩
              · intro m A hA
                rw [deleteAll_column_ne hd hA m]
                exact t1 m A hA
              · intro m
                rw [deleteAll_lookup_isSome hd m]
                exact t2 m

/-- A successful outer loop leaves the columns of the other archetypes and the set of
column stores alone. -/
theorem loop_frame {inv : Id} {B : archetypeId} :
    ∀ (hs : List Int) (l l1 : lookupList)
      (st st1 : GoMap componentId (componentSliceStorage V)),
    hs.foldlM (CleanupHoles.step inv B) (l, st) = some (l1, st1) →
    (∀ m A, A ≠ B → column st1 m A = column st m A) ∧
    (∀ m, (st1.lookup m).isSome = (st.lookup m).isSome) := by
  intro hs
  induction hs with
  | nil =>
    intro l l1 st st1 h
    simp only [List.foldlM_nil, Option.pure_def, Option.some.injEq, Prod.mk.injEq] at h
    obtain ⟨_, h2⟩ := h
    subst h2
    exact ⟨fun _ _ _ => rfl, fun _ => rfl⟩
  | cons x hs ih =>
    intro l l1 st st1 h
    rw [List.foldlM_cons] at h
    cases hstep : CleanupHoles.step inv B (l, st) x with
    | none => rw [hstep] at h; cases h
    | some r =>
      obtain ⟨l2, st2⟩ := r
      rw [hstep] at h
      simp only [Option.bind_eq_bind, Option.some_bind] at h
      obtain ⟨s1, s2⟩ := step_frame hstep
      obtain ⟨f1, f2⟩ := ih _ _ _ _ h
      exact ⟨fun m A hA => (f1 m A hA).trans (s1 m A hA), fun m => (f2 m).trans (s2 m)⟩

/-- Frame of `CleanupHoles`: whenever it returns, the lookup lists and the columns of the
other archetypes, the set of column stores and the registry are unchanged. -/
theorem CleanupHoles_frame {inv : Id} {e e1 : archEngine V} {B : archetypeId}
    (h : e.CleanupHoles inv B = some e1) :
    (∀ A, A ≠ B → e1.lookup.lookup A = e.lookup.lookup A) ∧
    (∀ m A, A ≠ B → column e1.compSliceStorage m A = column e.compSliceStorage m A) ∧
    (∀ m, (e1.compSliceStorage.lookup m).isSome = (e.compSliceStorage.lookup m).isSome) ∧
    e1.dcr = e.dcr ∧ e1.filterLists = e.filterLists := by
  unfold archEngine.CleanupHoles at h
  split at h
  · cases h
  · rename_i l hl
    split at h
    · cases h
    · rename_i l1 st1 hfold
      simp only [Option.some.injEq] at h
      subst h
      obtain ⟨f1, f2⟩ := loop_frame _ _ _ _ _ hfold
      exact ⟨fun A hA => AList.lookup_insert_ne hA, f1, f2, rfl, rfl⟩

end frames

section slots2
variable {V : Type}

/-- The call `getOrAddLookupIndex` on a well-formed archetype, when it returns: after the
optional compaction (lookup list `l2`, column stores `st2`) the state is still well formed
and in lockstep and stores the same data; the slot is then the existing one or the one
`addToEasiestHole` allocates in `l2`. -/
theorem getOrAddLookupIndex_spec {inv : Id} {e e1 : archEngine V} {A : archetypeId} {id : Id}
    {index : Int} {l : lookupList}
    (hl : (ensureLookup e A).lookup.lookup A = some l) (hwf : l.WF inv)
    (hlock : Lockstep e.compSliceStorage A l.id.length)
    (h : e.getOrAddLookupIndex inv A id = some (index, e1)) :
    ∃ l2 l1 st2, l2.WF inv ∧ Lockstep st2 A l2.id.length ∧
      Preserved A l e.compSliceStorage l2 st2 ∧
      (l.holes.length < 1024 → l2 = l ∧ st2 = e.compSliceStorage) ∧
      (1024 ≤ l.holes.length → l2.holes = []) ∧
      e1.lookup.lookup A = some l1 ∧ e1.compSliceStorage = st2 ∧
      (∀ B, B ≠ A → e1.lookup.lookup B = e.lookup.lookup B) ∧
      e1.dcr = e.dcr ∧ e1.filterLists = e.filterLists ∧
      l1.index.lookup id = some index ∧
      ((l2.index.lookup id = some index ∧ l1 = l2) ∨
       (l2.index.lookup id = none ∧ l2.addToEasiestHole id = some (index, l1))) := by
  rw [getOrAddLookupIndex_eq, hl] at h
  simp only at h
  obtain ⟨hst0, hdcr0, hfl0⟩ := ensureLookup_storage e A
  by_cases hge : (l.holes.length : Int) ≥ 1024
  · rw [if_pos hge] at h
    have hlock0 : Lockstep (ensureLookup e A).compSliceStorage A l.id.length := by
      rw [hst0]; exact hlock
    obtain ⟨l2, st2, hc, hholes, hinv, hpres⟩ := CleanupHoles_spec hl hwf hlock0
    rw [hc] at h
    simp only at h
    obtain ⟨hwf2, hlock2, _⟩ := hinv.to_WF hholes
    obtain ⟨l3, l1, hl3, hl1, hi, hoth, hst, hdcr, hfl, hcase⟩ := resolveSlot_spec h
    have hl3b : l3 = l2 := by
      have : (AList.insert A l2 (ensureLookup e A).lookup).lookup A = some l3 := hl3
      rw [AList.lookup_insert] at this
      exact (Option.some.inj this).symm
    subst hl3b
    rw [hst0] at hpres
    refine ⟨l3, l1, st2, hwf2, hlock2, hpres, ?_, fun _ => hholes, hl1, hst, ?_,
      hdcr.trans hdcr0, hfl.trans hfl0, hi, ?_⟩
    · intro hlt
      omega
    · intro B hB
      rw [hoth B hB]
      show (AList.insert A l3 (ensureLookup e A).lookup).lookup B = _
      rw [AList.lookup_insert_ne hB]
      exact ensureLookup_lookup_ne e hB
    · rcases hcase with ⟨h1, h2, _⟩ | ⟨h1, h2⟩
      · exact Or.inl ⟨h1, h2⟩
      · exact Or.inr ⟨h1, h2⟩
  · rw [if_neg hge] at h
    simp only at h
    obtain ⟨l3, l1, hl3, hl1, hi, hoth, hst, hdcr, hfl, hcase⟩ := resolveSlot_spec h
    have hl3b : l3 = l := by
      rw [hl] at hl3
      exact (Option.some.inj hl3).symm
    subst hl3b
    refine ⟨l3, l1, e.compSliceStorage, hwf, hlock, Preserved.refl A l3 _, fun _ => ⟨rfl, rfl⟩,
      ?_, hl1, hst.trans hst0, ?_, hdcr.trans hdcr0, hfl.trans hfl0, hi, ?_⟩
    · intro hge2
      exfalso
      apply hge
      omega
    · intro B hB
      rw [hoth B hB]
      exact ensureLookup_lookup_ne e hB
    · rcases hcase with ⟨h1, h2, _⟩ | ⟨h1, h2⟩
      · exact Or.inl ⟨h1, h2⟩
      · exact Or.inr ⟨h1, h2⟩

/-- Frame of `getOrAddLookupIndex`: whenever it returns, the lookup lists and the columns
of the other archetypes and the registry are unchanged. -/
theorem getOrAddLookupIndex_frame {inv : Id} {e e1 : archEngine V} {B : archetypeId} {id : Id}
    {index : Int} (h : e.getOrAddLookupIndex inv B id = some (index, e1)) :
    (∀ A, A ≠ B → e1.lookup.lookup A = e.lookup.lookup A) ∧
    (∀ m A, A ≠ B → column e1.compSliceStorage m A = column e.compSliceStorage m A) ∧
    e1.dcr = e.dcr ∧ e1.filterLists = e.filterLists := by
  rw [getOrAddLookupIndex_eq] at h
  obtain ⟨hst0, hdcr0, hfl0⟩ := ensureLookup_storage e B
  cases hl : (ensureLookup e B).lookup.lookup B with
  | none => rw [hl] at h; cases h
  | some l =>
    rw [hl] at h
    simp only at h
    split at h
    · cases h
    · rename_i e2 he2
      obtain ⟨_, _, _, _, _, hoth, hst, hdcr, hfl, _⟩ := resolveSlot_spec h
      split at he2
      · obtain ⟨f1, f2, _, f4, f5⟩ := CleanupHoles_frame he2
        refine ⟨?_, ?_, ?_, ?_⟩
        · intro A hA
          rw [hoth A hA, f1 A hA]
          exact ensureLookup_lookup_ne e hA
        · intro m A hA
          rw [hst, f2 m A hA, hst0]
        · rw [hdcr, f4, hdcr0]
        · rw [hfl, f5, hfl0]
      · simp only [Option.some.injEq] at he2
        subst he2
        refine ⟨?_, ?_, ?_, ?_⟩
        · intro A hA
          rw [hoth A hA]
          exact ensureLookup_lookup_ne e hA
        · intro m A hA
          rw [hst, hst0]
        · rw [hdcr, hdcr0]
        · rw [hfl, hfl0]

/-- Frame of `write`: whenever it returns, the lookup lists and the columns of the other
archetypes and the registry are unchanged. -/
theorem write_frame {inv : Id} {e e1 : archEngine V} {B : archetypeId} {id : Id}
    {comps : List (Component V)} (h : e.write inv B id comps = some e1) :
    (∀ A, A ≠ B → e1.lookup.lookup A = e.lookup.lookup A) ∧
    (∀ m A, A ≠ B → column e1.compSliceStorage m A = column e.compSliceStorage m A) ∧
    e1.dcr = e.dcr ∧ e1.filterLists = e.filterLists := by
  unfold archEngine.write at h
  cases hg : e.getOrAddLookupIndex inv B id with
  | none => rw [hg] at h; cases h
  | some r =>
    obtain ⟨index, e0⟩ := r
    rw [hg] at h
    simp only at h
    obtain ⟨g1, g2, g3, g4⟩ := getOrAddLookupIndex_frame hg
    have heff := writeLoop_spec _ _ _ h
    refine ⟨?_, ?_, heff.dcr.trans g3, heff.filterLists.trans g4⟩
    · intro A hA
      rw [heff.lookup]
      exact g1 A hA
    · intro m A hA
      rw [heff.others m A hA]
      exact g2 m A hA

/-- What `TagForDeletion` does when it returns. -/
theorem TagForDeletion_spec {inv : Id} {e e1 : archEngine V} {B : archetypeId} {id : Id}
    (h : e.TagForDeletion inv B id = some e1) :
    ∃ (l : lookupList) (i : Nat), e.lookup.lookup B = some l ∧
      l.index.lookup id = some (i : Int) ∧ i < l.id.length ∧
      e1 = { e with lookup := e.lookup.insert B (lookupList.mk (l.index.erase id)
        (l.id.set i inv) (l.holes ++ [(i : Int)])) } := by
  unfold archEngine.TagForDeletion at h
  cases hl : e.lookup.lookup B with
  | none => rw [hl] at h; cases h
  | some l =>
    rw [hl] at h
    simp only at h
    cases hi : l.index.lookup id with
    | none => rw [hi] at h; cases h
    | some j =>
      rw [hi] at h
      simp only at h
      cases hs : sliceSet l.id j inv with
      | none => rw [hs] at h; cases h
      | some ids =>
        rw [hs] at h
        simp only [Option.some.injEq] at h
        obtain ⟨i, hj, hlt, hids⟩ := sliceSet_eq_some hs
        subst hj hids
        exact ⟨l, i, rfl, hi, hlt, h.symm⟩

end slots2

section frame4
variable {V : Type}

theorem supplied_some_mem {comps : List (Component V)} {m : componentId} {v : V}
    (h : supplied comps m = some v) : ∃ c ∈ comps, c.id = m := by
  induction comps using List.reverseRecOn with
  | nil => rw [supplied_nil] at h; cases h
  | append_singleton cs c ih =>
    rw [supplied_append] at h
    by_cases hm : m = c.id
    · exact ⟨c, by simp, hm.symm⟩
    · rw [if_neg hm] at h
      obtain ⟨c1, hc1, hid⟩ := ih h
      exact ⟨c1, List.mem_append_left _ hc1, hid⟩

theorem supplied_eq_none {comps : List (Component V)} {m : componentId}
    (h : ∀ c ∈ comps, c.id ≠ m) : supplied comps m = none := by
  cases hs : supplied comps m with
  | none => rfl
  | some v =>
    obtain ⟨c, hc, hid⟩ := supplied_some_mem hs
    exact absurd hid (h c hc)

theorem twoEntities_reachable :
    ((newArchEngine : archEngine Nat).write 0 7 1 [C 1 10]).bind
      (fun e => e.write 0 7 2 [C 1 20]) = some twoEntities := by
  decide

/-- C4, as stated, fails: in a well-formed archetype with one column, a write for entity 1
that supplies a component type the archetype has no column for creates a one-row column,
and `readArch` of that type for entity 2 (slot 1) changes from "not found" to a panic. -/
theorem write_other_entity_counterexample :
    ¬ (∀ (e : archEngine Nat) (A : archetypeId) (l : lookupList) (ent : Id) (i : Int),
        e.lookup.lookup A = some l → l.WF 0 → Lockstep e.compSliceStorage A l.id.length →
        l.index.lookup ent = some i →
        ∀ (ent1 : Id), ent1 ≠ ent → ∀ (B : archetypeId) (comps : List (Component Nat))
          (e1 : archEngine Nat), e.write 0 B ent1 comps = some e1 →
          ∀ n, readArch e1 A ent n = readArch e A ent n) := by
  intro h
  have hs : (twoEntities.write 0 7 1 [C 2 99]).isSome = true := by decide
  obtain ⟨e1, he1⟩ := Option.isSome_iff_exists.1 hs
  have h1 := h twoEntities 7 twoEntitiesLookup 2 1 (by decide) (by decide) (by decide) (by decide)
    1 (by decide) 7 [C 2 99] e1 he1 2
  have hr : (twoEntities.write 0 7 1 [C 2 99]).bind (fun e2 => readArch e2 7 2 2) = none := by
    decide
  rw [he1] at hr
  simp only [Option.some_bind] at hr
  rw [hr] at h1
  have hb : readArch twoEntities 7 2 2 = some none := by decide
  rw [hb] at h1
  cases h1

end frame4

section frame5
variable {V : Type}

/-- In a well-formed lookup list the slot `addToEasiestHole` or an existing mapping gives
to another entity differs from the slot of a live entity. -/
theorem slot_ne_of_WF {inv : Id} {l2 l1 : lookupList} {ent ent1 : Id} {i j : Int}
    (hwf : l2.WF inv) (hi : l2.index.lookup ent = some i) (hne : ent1 ≠ ent)
    (hcase : (l2.index.lookup ent1 = some j ∧ l1 = l2) ∨
      (l2.index.lookup ent1 = none ∧ l2.addToEasiestHole ent1 = some (j, l1))) :
    j ≠ i ∧ l1.index.lookup ent = some i := by
  obtain ⟨_, _, h3, _, h5⟩ := WF_iff.1 hwf
  obtain ⟨hent, hgi⟩ := h3 ent i hi
  obtain ⟨k, hik, hgk⟩ := sliceGet_eq_some hgi
  rcases hcase with ⟨hj, hl1⟩ | ⟨_, hadd⟩
  · refine ⟨?_, by rw [hl1]; exact hi⟩
    intro hji
    rw [hji] at hj
    obtain ⟨_, hg1⟩ := h3 ent1 i hj
    rw [hgi] at hg1
    exact hne (Option.some.inj hg1).symm
  · rcases addToEasiestHole_spec hadd with ⟨hs, m, hholes, hjm, hlt, hl1⟩ | ⟨_, hj, hl1⟩
    · refine ⟨?_, ?_⟩
      · intro hji
        have hmem : j ∈ l2.holes := by rw [hholes]; simp
        have := h5 j hmem
        rw [hji, hgi] at this
        exact hent (Option.some.inj this)
      · rw [hl1]
        show (l2.index.insert ent1 j).lookup ent = some i
        rw [AList.lookup_insert_ne (fun h => hne h.symm)]
        exact hi
    · refine ⟨?_, ?_⟩
      · have hlt : k < l2.id.length := (List.getElem?_eq_some_iff.1 hgk).1
        omega
      · rw [hl1]
        show (l2.index.insert ent1 j).lookup ent = some i
        rw [AList.lookup_insert_ne (fun h => hne h.symm)]
        exact hi

/-- A write for another entity into a well-formed archetype, supplying only component
types that have a column in the archetype, keeps what `readArch` returns for a live
entity of the archetype. -/
theorem write_same_frame {inv : Id} {e e1 : archEngine V} {A : archetypeId} {l : lookupList}
    {ent ent1 : Id} {i : Int} {comps : List (Component V)}
    (hl : e.lookup.lookup A = some l) (hwf : l.WF inv)
    (hlock : Lockstep e.compSliceStorage A l.id.length)
    (hi : l.index.lookup ent = some i) (hne : ent1 ≠ ent)
    (hcols : ∀ c ∈ comps, (column e.compSliceStorage c.id A).isSome)
    (h : e.write inv A ent1 comps = some e1) (n : componentId) :
    readArch e1 A ent n = readArch e A ent n := by
  unfold archEngine.write at h
  cases hg : e.getOrAddLookupIndex inv A ent1 with
  | none => rw [hg] at h; cases h
  | some r =>
    obtain ⟨j, e0⟩ := r
    rw [hg] at h
    simp only at h
    have hl0 : (ensureLookup e A).lookup.lookup A = some l := by
      rw [ensureLookup_lookup, hl]; rfl
    obtain ⟨l2, l1, st2, hwf2, _, hpres, _, _, hl1, hst, _, _, _, _, hcase⟩ :=
      getOrAddLookupIndex_spec hl0 hwf hlock hg
    have heff := writeLoop_spec _ _ _ h
    have hl1b : e1.lookup.lookup A = some l1 := by rw [heff.lookup]; exact hl1
    rw [readArch_eq_readRow, readArch_eq_readRow, hl1b, hl]
    simp only
    rw [← hpres.rows ent n]
    -- the slot of the live entity after the optional compaction
    obtain ⟨i2, hi2⟩ : ∃ i2, l2.index.lookup ent = some i2 := by
      apply Option.isSome_iff_exists.1
      rw [hpres.keys ent, hi]
      rfl
    obtain ⟨hji, hi1⟩ := slot_ne_of_WF hwf2 hi2 hne hcase
    unfold readRow
    rw [hi1, hi2]
    simp only
    cases hsup : supplied comps n with
    | none =>
      rw [(heff.untouched n hsup).1, hst]
    | some v =>
      obtain ⟨col, k, hjk, _, hcol, _, _, hrest⟩ := heff.written n v hsup
      obtain ⟨c, hc, hcid⟩ := supplied_some_mem hsup
      have hex : (column st2 n A).isSome := by
        rw [hpres.cols n, ← hcid]
        exact hcols c hc
      obtain ⟨old, hold⟩ := Option.isSome_iff_exists.1 hex
      rw [hst, hold] at hrest
      simp only [Option.getD_some] at hrest
      rw [hcol, hold]
      simp only
      have hrow : sliceGet col i2 = sliceGet old i2 := by
        unfold sliceGet
        by_cases h0 : 0 ≤ i2
        · rw [if_pos h0, if_pos h0]
          apply hrest
          intro hk
          apply hji
          rw [hjk, ← hk]
          exact Int.toNat_of_nonneg h0
        · rw [if_neg h0, if_neg h0]
      rw [hrow]

/-- Tagging another entity for deletion keeps what `readArch` returns for an entity. -/
theorem TagForDeletion_frame {inv : Id} {e e1 : archEngine V} {A B : archetypeId}
    {ent ent1 : Id} (hne : ent1 ≠ ent) (h : e.TagForDeletion inv B ent1 = some e1)
    (n : componentId) : readArch e1 A ent n = readArch e A ent n := by
  obtain ⟨l, i, hl, _, _, he1⟩ := TagForDeletion_spec h
  subst he1
  rw [readArch_eq_readRow, readArch_eq_readRow]
  by_cases hAB : A = B
  · subst hAB
    simp only [AList.lookup_insert, hl]
    unfold readRow
    simp only [AList.lookup_erase_ne (fun h => hne h.symm)]
  · simp only [AList.lookup_insert_ne hAB]

/-- C4, amended: in a well-formed state (lookup invariant and column lockstep for `A`) and
for a live entity `ent` of `A`, the result of `readArch(A, ent)` is the same, for every
component type, after a write for a different entity to another archetype, after a write
for a different entity to `A` that supplies only component types that have a column in
`A` (also when the write triggers the automatic compaction), and after a `TagForDeletion`
of a different entity. -/
theorem other_entities_frame (InvalidEntity : Id) (e : archEngine V) (archId : archetypeId)
    (l : lookupList) (ent : Id) (i : Int) (ent1 : Id)
    (hl : e.lookup.lookup archId = some l) (hwf : l.WF InvalidEntity)
    (hlock : Lockstep e.compSliceStorage archId l.id.length)
    (hi : l.index.lookup ent = some i) (hne : ent1 ≠ ent) :
    (∀ (B : archetypeId) (comps : List (Component V)) (e1 : archEngine V),
      (B = archId → ∀ c ∈ comps, (column e.compSliceStorage c.id archId).isSome) →
      e.write InvalidEntity B ent1 comps = some e1 →
      ∀ n, readArch e1 archId ent n = readArch e archId ent n) ∧
    (∀ (B : archetypeId) (e1 : archEngine V),
      e.TagForDeletion InvalidEntity B ent1 = some e1 →
      ∀ n, readArch e1 archId ent n = readArch e archId ent n) := by
  refine ⟨?_, ?_⟩
  · intro B comps e1 hcols hw n
    by_cases hB : B = archId
    · subst hB
      exact write_same_frame hl hwf hlock hi hne (hcols rfl) hw n
    · obtain ⟨f1, f2, _, _⟩ := write_frame hw
      have hA : archId ≠ B := fun h => hB h.symm
      rw [readArch_eq_readRow, readArch_eq_readRow, f1 archId hA]
      cases e.lookup.lookup archId with
      | none => rfl
      | some l0 =>
        simp only
        unfold readRow
        rw [f2 n archId hA]
  · intro B e1 ht n
    exact TagForDeletion_frame hne ht n

end frame5

/-- Witness for C4 (amended): in the two-entity archetype, entity 2 reads the same value
after an in-place write for entity 1, after a write of a new entity 3, after a write to
another archetype and after entity 1 is tagged for deletion. -/
theorem other_entities_frame_witness :
    (twoEntities.lookup.lookup 7 = some twoEntitiesLookup ∧ twoEntitiesLookup.WF 0 ∧
      Lockstep twoEntities.compSliceStorage 7 twoEntitiesLookup.id.length ∧
      twoEntitiesLookup.index.lookup 2 = some 1 ∧ (1 : Id) ≠ 2) ∧
    ((∀ (B : archetypeId) (comps : List (Component Nat)) (e1 : archEngine Nat),
        (B = 7 → ∀ c ∈ comps, (column twoEntities.compSliceStorage c.id 7).isSome) →
        twoEntities.write 0 B 1 comps = some e1 →
        ∀ n, readArch e1 7 2 n = readArch twoEntities 7 2 n) ∧
      (∀ (B : archetypeId) (e1 : archEngine Nat),
        twoEntities.TagForDeletion 0 B 1 = some e1 →
        ∀ n, readArch e1 7 2 n = readArch twoEntities 7 2 n)) ∧
    (twoEntities.write 0 7 1 [C 1 11]).bind (fun e1 => readArch e1 7 2 1) = some (some 20) ∧
    (twoEntities.write 0 7 3 [C 1 30]).bind (fun e1 => readArch e1 7 2 1) = some (some 20) ∧
    (twoEntities.write 0 8 1 [C 2 99]).bind (fun e1 => readArch e1 7 2 1) = some (some 20) ∧
    (twoEntities.TagForDeletion 0 7 1).bind (fun e1 => readArch e1 7 2 1) = some (some 20) :=
  ⟨⟨by decide, by decide, by decide, by decide, by decide⟩,
    other_entities_frame 0 twoEntities 7 twoEntitiesLookup 2 1 1
      (by decide) (by decide) (by decide) (by decide) (by decide),
    by decide, by decide, by decide, by decide⟩

section success
variable {V : Type}

/-- The loop of `write` succeeds when the slot is a natural number not beyond the end of
any of the columns written. -/
theorem writeLoop_isSome {A : archetypeId} (i : Nat) :
    ∀ (comps : List (Component V)) (e : archEngine V),
    (∀ c ∈ comps, i ≤ ((column e.compSliceStorage c.id A).getD []).length) →
    (comps.foldlM (fun (e2 : archEngine V) (c : Component V) => c.write e2 A (i : Int)) e).isSome := by
  intro comps
  induction comps using List.reverseRecOn with
  | nil => intro e _; rfl
  | append_singleton cs c ih =>
    intro e hlen
    rw [List.foldlM_append]
    have h1 := ih e (fun c1 hc1 => hlen c1 (List.mem_append_left _ hc1))
    obtain ⟨e0, he0⟩ := Option.isSome_iff_exists.1 h1
    rw [he0]
    simp only [Option.bind_eq_bind, Option.some_bind, List.foldlM_cons, List.foldlM_nil,
      Option.pure_def, Option.bind_some]
    apply Component_write_isSome
    apply Write_isSome
    have heff := writeLoop_spec _ _ _ he0
    have hc := hlen c (by simp)
    show i ≤ ((column e0.compSliceStorage c.id A).getD []).length
    cases hs : supplied cs c.id with
    | none => rw [(heff.untouched c.id hs).1]; exact hc
    | some v =>
      obtain ⟨col, k, _, _, hcol, hl, _, _⟩ := heff.written c.id v hs
      rw [hcol]
      simp only [Option.getD_some]
      rw [hl]
      omega

/-- In a well-formed lookup list `addToEasiestHole` succeeds. -/
theorem addToEasiestHole_isSome {inv : Id} {l : lookupList} (hwf : l.WF inv) (id : Id) :
    (l.addToEasiestHole id).isSome := by
  obtain ⟨_, _, _, _, h5⟩ := WF_iff.1 hwf
  unfold lookupList.addToEasiestHole
  split
  · rename_i hpos
    have hlt : l.holes.length - 1 < l.holes.length := by omega
    have hget : l.holes[l.holes.length - 1]? = some l.holes[l.holes.length - 1] :=
      List.getElem?_eq_getElem hlt
    simp only [hget]
    have hmem : l.holes[l.holes.length - 1] ∈ l.holes := List.getElem_mem _
    obtain ⟨k, hk, hg⟩ := sliceGet_eq_some (h5 _ hmem)
    have hklt : k < l.id.length := (List.getElem?_eq_some_iff.1 hg).1
    rw [hk, sliceSet_natCast, if_pos hklt]
    rfl
  · rfl

/-- The slot `addToEasiestHole` returns in a well-formed lookup list is a natural number
inside the new reverse array; the array keeps its length or grows by one. -/
theorem addToEasiestHole_bound {l l1 : lookupList} {id : Id} {index : Int}
    (h : l.addToEasiestHole id = some (index, l1)) :
    ∃ k : Nat, index = (k : Int) ∧ k ≤ l.id.length ∧ k < l1.id.length ∧
      (l1.id.length = l.id.length ∨ (l1.id.length = l.id.length + 1 ∧ k = l.id.length)) := by
  rcases addToEasiestHole_spec h with ⟨hs, m, _, hjm, hlt, hl1⟩ | ⟨_, hj, hl1⟩
  · refine ⟨m, hjm, by omega, ?_, Or.inl ?_⟩
    · rw [hl1]; simp only [List.length_set]; exact hlt
    · rw [hl1]; simp only [List.length_set]
  · refine ⟨l.id.length, hj, le_refl _, ?_, Or.inr ⟨?_, rfl⟩⟩
    · rw [hl1]; simp
    · rw [hl1]; simp

/-- The call `addToEasiestHole` keeps the lookup-list invariant, for an entity other than
the sentinel that has no slot yet. -/
theorem addToEasiestHole_WF {inv : Id} {l l1 : lookupList} {id : Id} {index : Int}
    (hwf : l.WF inv) (hid : id ≠ inv) (hnew : l.index.lookup id = none)
    (h : l.addToEasiestHole id = some (index, l1)) : l1.WF inv := by
  obtain ⟨h1, h2, h3, h4, h5⟩ := WF_iff.1 hwf
  rcases addToEasiestHole_spec h with ⟨hs, m, hholes, hjm, hlt, hl1⟩ | ⟨hnil, hj, hl1⟩
  · have hmem : index ∈ l.holes := by rw [hholes]; simp
    have hmh : l.id[m]? = some inv := by
      have := h5 index hmem
      rw [hjm, sliceGet_natCast] at this
      exact this
    have hnd : (hs ++ [index]).Nodup := hholes ▸ h4
    have hnot : index ∉ hs := by
      intro hin
      have := List.nodup_append.1 hnd
      exact this.2.2 hin (by simp)
    have hset : ∀ i : Nat, (l.id.set m id)[i]? =
        if i = m then some id else l.id[i]? := by
      intro i
      rw [List.getElem?_set]
      by_cases him : i = m
      · subst him; simp [hlt]
      · have : ¬ m = i := fun h => him h.symm
        simp [him, this]
    rw [hl1]
    apply WF_iff.2
    refine ⟨?_, ?_, ?_, ?_, ?_⟩
    · intro i e hi he
      show (l.index.insert id index).lookup e = some (i : Int)
      have hi1 : (l.id.set m id)[i]? = some e := hi
      rw [hset i] at hi1
      by_cases him : i = m
      · rw [if_pos him] at hi1
        cases hi1
        rw [him, hjm]
        exact AList.lookup_insert _
      · rw [if_neg him] at hi1
        have hl := h1 i e hi1 he
        have hne : e ≠ id := by
          intro heq
          rw [heq, hnew] at hl
          cases hl
        rw [AList.lookup_insert_ne hne]
        exact hl
    · intro i hi
      show (i : Int) ∈ hs
      have hi1 : (l.id.set m id)[i]? = some inv := hi
      rw [hset i] at hi1
      by_cases him : i = m
      · rw [if_pos him] at hi1
        exact absurd (Option.some.inj hi1) hid
      · rw [if_neg him] at hi1
        have := h2 i hi1
        rw [hholes] at this
        rcases List.mem_append.1 this with hh | hh
        · exact hh
        · exfalso
          simp only [List.mem_singleton] at hh
          rw [hjm] at hh
          exact him (by exact_mod_cast hh)
    · intro e j hj
      have hj1 : (l.index.insert id index).lookup e = some j := hj
      show e ≠ inv ∧ sliceGet (l.id.set m id) j = some e
      by_cases hne : e = id
      · subst hne
        rw [AList.lookup_insert] at hj1
        cases hj1
        refine ⟨hid, ?_⟩
        rw [hjm, sliceGet_natCast, hset m, if_pos rfl]
      · rw [AList.lookup_insert_ne hne] at hj1
        obtain ⟨he, hg⟩ := h3 e j hj1
        refine ⟨he, ?_⟩
        obtain ⟨k, hk, hgk⟩ := sliceGet_eq_some hg
        have hkm : k ≠ m := by
          intro hkm
          rw [hkm, hmh] at hgk
          exact he (Option.some.inj hgk).symm
        rw [hk, sliceGet_natCast, hset k, if_neg hkm]
        exact hgk
    · exact (List.nodup_append.1 hnd).1
    · intro x hx
      show sliceGet (l.id.set m id) x = some inv
      have hx1 : x ∈ l.holes := by rw [hholes]; exact List.mem_append_left _ hx
      have hg := h5 x hx1
      obtain ⟨k, hk, hgk⟩ := sliceGet_eq_some hg
      have hkm : k ≠ m := by
        intro hkm
        apply hnot
        rw [hjm, ← hkm, ← hk]
        exact hx
      rw [hk, sliceGet_natCast, hset k, if_neg hkm]
      exact hgk
  · have happ : ∀ i : Nat, (l.id ++ [id])[i]? =
        if i < l.id.length then l.id[i]? else if i = l.id.length then some id else none := by
      intro i
      by_cases hi : i < l.id.length
      · rw [if_pos hi, List.getElem?_append_left hi]
      · rw [if_neg hi]
        by_cases hi2 : i = l.id.length
        · rw [if_pos hi2, hi2]
          simp
        · rw [if_neg hi2]
          apply List.getElem?_eq_none
          simp
          omega
    rw [hl1]
    apply WF_iff.2
    refine ⟨?_, ?_, ?_, List.nodup_nil, ?_⟩
    · intro i e hi he
      show (l.index.insert id index).lookup e = some (i : Int)
      have hi1 : (l.id ++ [id])[i]? = some e := hi
      rw [happ i] at hi1
      by_cases hlt : i < l.id.length
      · rw [if_pos hlt] at hi1
        have hl := h1 i e hi1 he
        have hne : e ≠ id := by
          intro heq
          rw [heq, hnew] at hl
          cases hl
        rw [AList.lookup_insert_ne hne]
        exact hl
      · rw [if_neg hlt] at hi1
        by_cases hi2 : i = l.id.length
        · rw [if_pos hi2] at hi1
          cases hi1
          rw [hi2, hj]
          exact AList.lookup_insert _
        · rw [if_neg hi2] at hi1
          cases hi1
    · intro i hi
      exfalso
      have hi1 : (l.id ++ [id])[i]? = some inv := hi
      rw [happ i] at hi1
      by_cases hlt : i < l.id.length
      · rw [if_pos hlt] at hi1
        have := h2 i hi1
        rw [hnil] at this
        exact List.not_mem_nil _ this
      · rw [if_neg hlt] at hi1
        by_cases hi2 : i = l.id.length
        · rw [if_pos hi2] at hi1
          exact hid (Option.some.inj hi1)
        · rw [if_neg hi2] at hi1
          cases hi1
    · intro e j hj1
      have hj2 : (l.index.insert id index).lookup e = some j := hj1
      show e ≠ inv ∧ sliceGet (l.id ++ [id]) j = some e
      by_cases hne : e = id
      · subst hne
        rw [AList.lookup_insert] at hj2
        cases hj2
        refine ⟨hid, ?_⟩
        rw [hj, sliceGet_natCast, happ, if_neg (lt_irrefl _), if_pos rfl]
      · rw [AList.lookup_insert_ne hne] at hj2
        obtain ⟨he, hg⟩ := h3 e j hj2
        refine ⟨he, ?_⟩
        obtain ⟨k, hk, hgk⟩ := sliceGet_eq_some hg
        have hklt : k < l.id.length := (List.getElem?_eq_some_iff.1 hgk).1
        rw [hk, sliceGet_natCast, happ k, if_pos hklt]
        exact hgk
    · intro x hx
      exact absurd hx (List.not_mem_nil _)

end success

section writes4
variable {V : Type}

theorem resolveSlot_isSome {inv : Id} {e : archEngine V} {A : archetypeId} {l : lookupList}
    (hl : e.lookup.lookup A = some l) (hwf : l.WF inv) (id : Id) :
    (resolveSlot e A id).isSome := by
  unfold resolveSlot
  rw [hl]
  simp only
  cases hi : l.index.lookup id with
  | some i => rfl
  | none =>
    simp only
    obtain ⟨r, hr⟩ := Option.isSome_iff_exists.1 (addToEasiestHole_isSome hwf id)
    rw [hr]
    rfl

/-- On a well-formed archetype with columns in lockstep, `getOrAddLookupIndex` returns. -/
theorem getOrAddLookupIndex_isSome {inv : Id} {e : archEngine V} {A : archetypeId}
    {l : lookupList} (hl : (ensureLookup e A).lookup.lookup A = some l) (hwf : l.WF inv)
    (hlock : Lockstep e.compSliceStorage A l.id.length) (id : Id) :
    (e.getOrAddLookupIndex inv A id).isSome := by
  rw [getOrAddLookupIndex_eq, hl]
  simp only
  obtain ⟨hst0, _, _⟩ := ensureLookup_storage e A
  by_cases hge : (l.holes.length : Int) ≥ 1024
  · rw [if_pos hge]
    have hlock0 : Lockstep (ensureLookup e A).compSliceStorage A l.id.length := by
      rw [hst0]; exact hlock
    obtain ⟨l2, st2, hc, hholes, hinv, _⟩ := CleanupHoles_spec hl hwf hlock0
    rw [hc]
    simp only
    obtain ⟨hwf2, _, _⟩ := hinv.to_WF hholes
    exact resolveSlot_isSome (AList.lookup_insert _) hwf2 id
  · rw [if_neg hge]
    simp only
    exact resolveSlot_isSome hl hwf id

/-- A well-formed lookup list with an empty reverse array has no hole recorded. -/
theorem holes_nil_of_id_nil {inv : Id} {l : lookupList} (hwf : l.WF inv) (hid : l.id = []) :
    l.holes = [] := by
  obtain ⟨_, _, _, _, h5⟩ := WF_iff.1 hwf
  cases hh : l.holes with
  | nil => rfl
  | cons x t =>
    exfalso
    have := h5 x (by rw [hh]; simp)
    obtain ⟨k, _, hg⟩ := sliceGet_eq_some this
    rw [hid] at hg
    simp at hg

/-- The slot `getOrAddLookupIndex` resolves in a well-formed lookup list `l2`: a natural
number inside the resulting reverse array and not beyond the end of the old one. -/
theorem resolved_slot_bound {inv : Id} {l2 l1 : lookupList} {id : Id} {index : Int}
    (hwf : l2.WF inv)
    (hcase : (l2.index.lookup id = some index ∧ l1 = l2) ∨
      (l2.index.lookup id = none ∧ l2.addToEasiestHole id = some (index, l1))) :
    ∃ k : Nat, index = (k : Int) ∧ k ≤ l2.id.length ∧ k < l1.id.length ∧
      (l1.id.length = l2.id.length ∨ (l1.id.length = l2.id.length + 1 ∧ k = l2.id.length)) := by
  rcases hcase with ⟨hi, hl1⟩ | ⟨_, hadd⟩
  · obtain ⟨_, _, h3, _, _⟩ := WF_iff.1 hwf
    obtain ⟨_, hg⟩ := h3 id index hi
    obtain ⟨k, hk, hgk⟩ := sliceGet_eq_some hg
    have hklt : k < l2.id.length := (List.getElem?_eq_some_iff.1 hgk).1
    exact ⟨k, hk, by omega, by rw [hl1]; exact hklt, Or.inl (by rw [hl1])⟩
  · exact addToEasiestHole_bound hadd

/-- The call `write` on a well-formed archetype whose columns are in lockstep, supplying
only component types that have a column in the archetype (any component types when the
archetype has no slot yet): it returns, and its effect is that of `getOrAddLookupIndex`
followed by the column writes at the resolved slot. -/
theorem write_spec {inv : Id} {e : archEngine V} {A : archetypeId} {l : lookupList}
    (id : Id) (comps : List (Component V))
    (hl : (ensureLookup e A).lookup.lookup A = some l) (hwf : l.WF inv)
    (hlock : Lockstep e.compSliceStorage A l.id.length)
    (hcols : l.id ≠ [] → ∀ c ∈ comps, (column e.compSliceStorage c.id A).isSome) :
    ∃ (e1 e0 : archEngine V) (index : Int),
      e.write inv A id comps = some e1 ∧
      e.getOrAddLookupIndex inv A id = some (index, e0) ∧
      WriteEffect A index comps e0 e1 := by
  obtain ⟨r, hg⟩ := Option.isSome_iff_exists.1 (getOrAddLookupIndex_isSome hl hwf hlock id)
  obtain ⟨index, e0⟩ := r
  obtain ⟨l2, l1, st2, hwf2, hlock2, hpres, hsame, _, hl1, hst, _, _, _, _, hcase⟩ :=
    getOrAddLookupIndex_spec hl hwf hlock hg
  obtain ⟨k, hk, hkle, _, _⟩ := resolved_slot_bound hwf2 hcase
  have hloop : (comps.foldlM (fun (e2 : archEngine V) (c : Component V) =>
      c.write e2 A index) e0).isSome := by
    rw [hk]
    apply writeLoop_isSome
    intro c hc
    rw [hst]
    cases hcol : column st2 c.id A with
    | some col =>
      simp only [Option.getD_some]
      rw [lockstep_iff.1 hlock2 c.id col hcol]
      exact hkle
    | none =>
      simp only [Option.getD_none, List.length_nil]
      have hidnil : l.id = [] := by
        by_contra hne
        have h1 := hcols hne c hc
        rw [← hpres.cols c.id, hcol] at h1
        cases h1
      have hhole := holes_nil_of_id_nil hwf hidnil
      have hlt : l.holes.length < 1024 := by rw [hhole]; simp
      obtain ⟨h2, _⟩ := hsame hlt
      rw [h2, hidnil] at hkle
      simpa using hkle
  obtain ⟨e1, he1⟩ := Option.isSome_iff_exists.1 hloop
  refine ⟨e1, e0, index, ?_, hg, writeLoop_spec _ _ _ he1⟩
  unfold archEngine.write
  rw [hg]
  exact he1

end writes4

section moves
variable {V : Type}

/-- On a well-formed archetype in lockstep, `ReadEntity` returns for every live entity, and
the snapshot holds the row of the entity in every column of the archetype. -/
theorem ReadEntity_of_WF {inv : Id} {e : archEngine V} {A : archetypeId} {l : lookupList}
    {id : Id} {i : Int} (hl : e.lookup.lookup A = some l) (hwf : l.WF inv)
    (hlock : Lockstep e.compSliceStorage A l.id.length) (hi : l.index.lookup id = some i) :
    ∃ ent, e.ReadEntity A id = some ent ∧
      ∀ m, ent.comp.lookup m =
        (column e.compSliceStorage m A).bind (fun col => sliceGet col i) := by
  obtain ⟨_, _, h3, _, _⟩ := WF_iff.1 hwf
  obtain ⟨_, hg⟩ := h3 id i hi
  obtain ⟨k, hk, hgk⟩ := sliceGet_eq_some hg
  have hklt : k < l.id.length := (List.getElem?_eq_some_iff.1 hgk).1
  have hrows : ∀ n col, column e.compSliceStorage n A = some col →
      (sliceGet col i).isSome := by
    intro n col hcol
    have := lockstep_iff.1 hlock n col hcol
    rw [hk, sliceGet_natCast]
    have hlt : k < col.length := by omega
    rw [List.getElem?_eq_getElem hlt]
    rfl
  obtain ⟨ent, hent⟩ := Option.isSome_iff_exists.1 (ReadEntity_isSome hl hi hrows)
  refine ⟨ent, hent, ?_⟩
  obtain ⟨l2, i2, hl2, hi2, _, hlook⟩ := ReadEntity_spec hent
  rw [hl] at hl2
  cases hl2
  rw [hi] at hi2
  cases hi2
  exact hlook

/-- The components a snapshot enumerates supply exactly the values it holds. -/
theorem supplied_Comps (ent : Entity V) (m : componentId) :
    supplied ent.Comps m = ent.comp.lookup m := by
  unfold Entity.Comps
  have key : ∀ (ps : List (Sigma fun _ : componentId => V)), ps.NodupKeys →
      supplied (ps.map (fun p => C p.1 p.2)) m = List.dlookup m ps := by
    intro ps
    induction ps using List.reverseRecOn with
    | nil => intro _; rw [List.map_nil, supplied_nil]; rfl
    | append_singleton qs p ih =>
      intro hnd
      rw [List.map_append, List.map_singleton, supplied_append]
      have hnd0 : (qs.keys ++ [p.1]).Nodup := by
        have : (qs ++ [p]).keys.Nodup := hnd
        simpa [List.keys] using this
      have hnd1 : qs.NodupKeys := (List.nodup_append.1 hnd0).1
      have hdisj := (List.nodup_append.1 hnd0).2.2
      rw [List.dlookup_append]
      by_cases hm : m = p.1
      · have hid : (C p.1 p.2 : Component V).id = p.1 := rfl
        rw [hid, if_pos hm]
        have hnot : m ∉ qs.keys := by
          intro hin
          rw [hm] at hin
          exact hdisj hin (by simp)
        rw [List.dlookup_eq_none.2 hnot]
        subst hm
        obtain ⟨p1, p2⟩ := p
        simp [C, List.dlookup_cons_eq]
      · have hid : (C p.1 p.2 : Component V).id = p.1 := rfl
        rw [hid, if_neg hm, ih hnd1]
        have : List.dlookup m [p] = none := by
          apply List.dlookup_eq_none.2
          simp [List.keys]
          exact hm
        rw [this]
        simp
  exact key ent.comp.entries ent.comp.nodupKeys

/-- Tagging a live entity of a well-formed lookup list for deletion returns. -/
theorem TagForDeletion_of_WF {inv : Id} {e : archEngine V} {A : archetypeId} {l : lookupList}
    {id : Id} {i : Int} (hl : e.lookup.lookup A = some l) (hwf : l.WF inv)
    (hi : l.index.lookup id = some i) :
    ∃ k : Nat, i = (k : Int) ∧ k < l.id.length ∧
      e.TagForDeletion inv A id = some { e with lookup := e.lookup.insert A (lookupList.mk
        (l.index.erase id) (l.id.set k inv) (l.holes ++ [(k : Int)])) } := by
  obtain ⟨_, _, h3, _, _⟩ := WF_iff.1 hwf
  obtain ⟨_, hg⟩ := h3 id i hi
  obtain ⟨k, hk, hgk⟩ := sliceGet_eq_some hg
  have hklt : k < l.id.length := (List.getElem?_eq_some_iff.1 hgk).1
  refine ⟨k, hk, hklt, ?_⟩
  unfold archEngine.TagForDeletion
  rw [hl]
  simp only
  rw [hi]
  simp only
  rw [hk, sliceSet_natCast, if_pos hklt]

end moves

section moves2
variable {V : Type}

theorem mem_Comps {ent : Entity V} {c : Component V} (h : c ∈ ent.Comps) :
    ent.comp.lookup c.id = some c.Comp := by
  unfold Entity.Comps at h
  obtain ⟨p, hp, hc⟩ := List.mem_map.1 h
  have : ent.comp.lookup p.1 = some p.2 := AList.mem_lookup_iff.2 hp
  rw [← hc]
  exact this

/-- C5, amended: archetype move.  In a state where `archId` is well formed with columns in
lockstep and the entity is live in it at slot `i`, where the registry resolves the merged
component ids to an archetype `B` other than `archId`, and where `B` is well formed, in
lockstep and has columns for the merged component types only (all of them once it has a
slot):
`rewriteArch` returns `B`; afterwards the entity has no forward mapping in `archId` and
its old slot is a pending hole there; the entity is live in `B`, and `ReadEntity` in `B`
yields exactly the merged component set (supplied values override, the others are
carried over). -/
theorem rewriteArch_move (InvalidEntity : Id)
    (getArchetypeId : componentRegistry → List componentId → archetypeId × componentRegistry)
    (e : archEngine V) (archId B : archetypeId) (id : Id) (comps : List (Component V))
    (lA lB : lookupList) (i : Int)
    (hlA : e.lookup.lookup archId = some lA) (hwfA : lA.WF InvalidEntity)
    (hlockA : Lockstep e.compSliceStorage archId lA.id.length)
    (hi : lA.index.lookup id = some i)
    (hB : ∀ ent, e.ReadEntity archId id = some ent →
      (getArchetypeId e.dcr (((ent.Add comps).Comps).map Component.id)).1 = B)
    (hne : B ≠ archId)
    (hlB : (e.lookup.lookup B).getD { index := ∅, id := [], holes := [] } = lB)
    (hwfB : lB.WF InvalidEntity) (hlockB : Lockstep e.compSliceStorage B lB.id.length)
    (hcoh : ∀ m, (column e.compSliceStorage m B).isSome →
      (mergedRow e archId i comps m).isSome)
    (hfull : lB.id ≠ [] → ∀ m, (mergedRow e archId i comps m).isSome →
      (column e.compSliceStorage m B).isSome) :
    ∃ (e1 : archEngine V) (lA1 lB1 : lookupList) (j : Int) (entB : Entity V),
      e.rewriteArch InvalidEntity getArchetypeId archId id comps = some (B, e1) ∧
      e1.lookup.lookup archId = some lA1 ∧ lA1.index.lookup id = none ∧
      i ∈ lA1.holes ∧ sliceGet lA1.id i = some InvalidEntity ∧
      e1.lookup.lookup B = some lB1 ∧ lB1.index.lookup id = some j ∧
      e1.ReadEntity B id = some entB ∧
      ∀ m, entB.comp.lookup m = mergedRow e archId i comps m := by
  obtain ⟨ent, hent, hlook⟩ := ReadEntity_of_WF hlA hwfA hlockA hi
  have hmerged : ∀ m, (ent.Add comps).comp.lookup m = mergedRow e archId i comps m := by
    intro m
    rw [Add_lookup, hlook m]
    rfl
  have hBeq := hB ent hent
  -- the engine after the registry call
  obtain ⟨k, hik, hklt, htag⟩ :=
    TagForDeletion_of_WF (e := { e with dcr := (getArchetypeId e.dcr
      (((ent.Add comps).Comps).map Component.id)).2 }) hlA hwfA hi
  -- the write of the merged set into `B`
  have hl0 : (ensureLookup ({ e with
      lookup := e.lookup.insert archId (lookupList.mk (lA.index.erase id)
        (lA.id.set k InvalidEntity) (lA.holes ++ [(k : Int)])),
      dcr := (getArchetypeId e.dcr (((ent.Add comps).Comps).map Component.id)).2 } :
      archEngine V) B).lookup.lookup B = some lB := by
    rw [ensureLookup_lookup]
    show some (((e.lookup.insert archId _).lookup B).getD _) = some lB
    rw [AList.lookup_insert_ne hne, hlB]
  have hcols : lB.id ≠ [] → ∀ c ∈ (ent.Add comps).Comps,
      (column e.compSliceStorage c.id B).isSome := by
    intro hnil c hc
    apply hfull hnil
    rw [← hmerged, mem_Comps hc]
    rfl
  obtain ⟨e1, e0, index, hwrite, hg, heff⟩ :=
    write_spec id (ent.Add comps).Comps hl0 hwfB hlockB hcols
  obtain ⟨l2, l1, st2, _, hlock2, hpres, _, _, hl1, hst, hoth, _, _, hidx, hcase⟩ :=
    getOrAddLookupIndex_spec hl0 hwfB hlockB hg
  have hl1b : e1.lookup.lookup B = some l1 := by rw [heff.lookup]; exact hl1
  have hlAb : e1.lookup.lookup archId = some (lookupList.mk (lA.index.erase id)
      (lA.id.set k InvalidEntity) (lA.holes ++ [(k : Int)])) := by
    rw [heff.lookup, hoth archId (fun h => hne h.symm)]
    exact AList.lookup_insert _
  -- every column of `B` has a row at the new slot, holding the merged value
  have hcolB : ∀ m, (column e1.compSliceStorage m B).bind (fun col => sliceGet col index) =
      mergedRow e archId i comps m ∧
      ∀ col, column e1.compSliceStorage m B = some col → (sliceGet col index).isSome := by
    intro m
    cases hs : supplied (ent.Add comps).Comps m with
    | some v =>
      obtain ⟨col, k1, hk1, _, hcol, _, hget, _⟩ := heff.written m v hs
      have hrow : sliceGet col index = some v := by rw [hk1, sliceGet_natCast]; exact hget
      refine ⟨?_, ?_⟩
      · rw [hcol, ← hmerged, ← supplied_Comps, hs]
        exact hrow
      · intro col1 hcol1
        rw [hcol] at hcol1
        cases hcol1
        rw [hrow]; rfl
    | none =>
      have hnone : mergedRow e archId i comps m = none := by
        rw [← hmerged, ← supplied_Comps]; exact hs
      have hcolnone : column e1.compSliceStorage m B = none := by
        rw [(heff.untouched m hs).1, hst]
        cases hc : column st2 m B with
        | none => rfl
        | some col =>
          exfalso
          have h1 : (column e.compSliceStorage m B).isSome := by
            have := hpres.cols m
            rw [hc] at this
            exact this.symm
          have := hcoh m h1
          rw [hnone] at this
          cases this
      refine ⟨?_, ?_⟩
      · rw [hcolnone, hnone]; rfl
      · intro col hcol
        rw [hcolnone] at hcol
        cases hcol
  obtain ⟨entB, hentB⟩ := Option.isSome_iff_exists.1
    (ReadEntity_isSome hl1b hidx (fun n col hcol => (hcolB n).2 col hcol))
  refine ⟨e1, _, l1, index, entB, ?_, hlAb, ?_, ?_, ?_, hl1b, hidx, hentB, ?_⟩
  · unfold archEngine.rewriteArch archEngine.GetarchetypeId
    rw [hent]
    simp only [hBeq]
    rw [if_neg (fun h => hne h.symm), htag]
    simp only
    rw [hwrite]
  · exact AList.lookup_erase _ _
  · show i ∈ lA.holes ++ [(k : Int)]
    rw [hik]; simp
  · show sliceGet (lA.id.set k InvalidEntity) i = some InvalidEntity
    rw [hik, sliceGet_natCast]
    simp [hklt]
  · intro m
    obtain ⟨l3, i3, hl3, hi3, _, hlook3⟩ := ReadEntity_spec hentB
    rw [hl1b] at hl3
    cases hl3
    rw [hidx] at hi3
    cases hi3
    rw [hlook3 m]
    exact (hcolB m).1

end moves2

section moves3
variable {V : Type}

/-- A column exists exactly when an entry of the column-store map has one. -/
theorem column_isSome_of_entries {st : GoMap componentId (componentSliceStorage V)}
    {A : archetypeId} {P : componentId → Prop}
    (h : ∀ p ∈ st.entries, (p.2.slice.lookup A).isSome → P p.1) (m : componentId)
    (hm : (column st m A).isSome) : P m := by
  obtain ⟨col, hcol⟩ := Option.isSome_iff_exists.1 hm
  obtain ⟨ss, c, h1, h2, _⟩ := column_eq_some.1 hcol
  have hmem : (⟨m, ss⟩ : Sigma fun _ : componentId => componentSliceStorage V) ∈ st.entries :=
    AList.mem_lookup_iff.1 h1
  exact h ⟨m, ss⟩ hmem (by rw [h2]; rfl)

/-- Witness for C5, the scenario of the specification: entity 5 in archetype 7 with
`{X:1, Y:2}`, recomposed with `{Z:3}`, ends up in archetype 8 with `{X:1, Y:2, Z:3}` and is
no longer present in archetype 7. -/
theorem rewriteArch_move_witness :
    (xyEntity.lookup.lookup 7 = some xyLookup ∧ xyLookup.WF 0 ∧
      Lockstep xyEntity.compSliceStorage 7 xyLookup.id.length ∧
      xyLookup.index.lookup 5 = some 0) ∧
    (∃ (e1 : archEngine Nat) (lA1 lB1 : lookupList) (j : Int) (entB : Entity Nat),
      xyEntity.rewriteArch 0 xyzRegistry 7 5 [C 3 3] = some (8, e1) ∧
      e1.lookup.lookup 7 = some lA1 ∧ lA1.index.lookup 5 = none ∧
      (0 : Int) ∈ lA1.holes ∧ sliceGet lA1.id 0 = some 0 ∧
      e1.lookup.lookup 8 = some lB1 ∧ lB1.index.lookup 5 = some j ∧
      e1.ReadEntity 8 5 = some entB ∧
      ∀ m, entB.comp.lookup m = mergedRow xyEntity 7 0 [C 3 3] m) ∧
    (xyEntity.rewriteArch 0 xyzRegistry 7 5 [C 3 3]).map Prod.fst = some 8 ∧
    (xyEntity.rewriteArch 0 xyzRegistry 7 5 [C 3 3]).bind
      (fun r => (r.2.ReadEntity 8 5).map (fun ent =>
        (ent.comp.lookup 1, ent.comp.lookup 2, ent.comp.lookup 3, ent.comp.keys.length))) =
      some (some 1, some 2, some 3, 3) ∧
    (xyEntity.rewriteArch 0 xyzRegistry 7 5 [C 3 3]).bind (fun r => readArch r.2 7 5 1) =
      some none :=
  ⟨⟨by decide, by decide, by decide, by decide⟩,
    rewriteArch_move 0 xyzRegistry xyEntity 7 8 5 [C 3 3] xyLookup
      { index := ∅, id := [], holes := [] } 0
      (by decide) (by decide) (by decide) (by decide)
      (fun ent h =>
        (by decide : ∀ ent ∈ xyEntity.ReadEntity 7 5,
          (xyzRegistry xyEntity.dcr (((ent.Add [C 3 3]).Comps).map Component.id)).1 = 8) ent h)
      (by decide) (by decide) (by decide) (by decide)
      (column_isSome_of_entries (by decide))
      (fun h => absurd rfl h),
    by decide, by decide, by decide⟩

end moves3

section inplace
variable {V : Type}

/-- C6, amended: in-place recompose.  For an entity live at slot `i` of a well-formed
archetype with columns in lockstep and fewer than 1024 pending holes, when the merged
component-id set still resolves to the archetype and every supplied component type has a
column in it, `rewriteArch` returns the same archetype; the lookup lists are unchanged
(the entity keeps slot `i`, no hole is created); the column of every supplied component
type keeps its length, holds the (last) supplied value at slot `i` and is unchanged at
every other row; every other column is unchanged. -/
theorem rewriteArch_in_place (InvalidEntity : Id)
    (getArchetypeId : componentRegistry → List componentId → archetypeId × componentRegistry)
    (e : archEngine V) (archId : archetypeId) (id : Id) (comps : List (Component V))
    (l : lookupList) (i : Int)
    (hl : e.lookup.lookup archId = some l) (hwf : l.WF InvalidEntity)
    (hlock : Lockstep e.compSliceStorage archId l.id.length)
    (hi : l.index.lookup id = some i)
    (hres : ∀ ent, e.ReadEntity archId id = some ent →
      (getArchetypeId e.dcr (((ent.Add comps).Comps).map Component.id)).1 = archId)
    (hsub : ∀ c ∈ comps, (column e.compSliceStorage c.id archId).isSome)
    (hholes : l.holes.length < 1024) :
    ∃ e1 : archEngine V,
      e.rewriteArch InvalidEntity getArchetypeId archId id comps = some (archId, e1) ∧
      e1.lookup = e.lookup ∧
      (∀ m v, supplied comps m = some v →
        ∃ col old, column e1.compSliceStorage m archId = some col ∧
          column e.compSliceStorage m archId = some old ∧ col.length = old.length ∧
          sliceGet col i = some v ∧ ∀ j : Int, j ≠ i → sliceGet col j = sliceGet old j) ∧
      (∀ m, supplied comps m = none →
        column e1.compSliceStorage m archId = column e.compSliceStorage m archId) ∧
      (∀ m B, B ≠ archId →
        column e1.compSliceStorage m B = column e.compSliceStorage m B) := by
  obtain ⟨ent, hent, _⟩ := ReadEntity_of_WF hl hwf hlock hi
  have hreq := hres ent hent
  have hl0 : (ensureLookup ({ e with dcr := (getArchetypeId e.dcr
      (((ent.Add comps).Comps).map Component.id)).2 } : archEngine V) archId).lookup.lookup
      archId = some l := by
    rw [ensureLookup_lookup]
    show some ((e.lookup.lookup archId).getD _) = some l
    rw [hl]; rfl
  obtain ⟨e1, e0, index, hwrite, hg, heff⟩ :=
    write_spec id comps hl0 hwf hlock (fun _ => hsub)
  obtain ⟨l2, l1, st2, _, _, _, hsame, _, _, hst, _, _, _, _, hcase⟩ :=
    getOrAddLookupIndex_spec hl0 hwf hlock hg
  obtain ⟨hl2, hst2⟩ := hsame hholes
  subst hl2
  have hidx : index = i := by
    rcases hcase with ⟨h1, _⟩ | ⟨h1, _⟩
    · rw [hi] at h1
      exact (Option.some.inj h1).symm
    · rw [hi] at h1
      cases h1
  subst hidx
  have he0 : e0.lookup = e.lookup := by
    rw [getOrAddLookupIndex_eq, hl0] at hg
    simp only at hg
    have hnot : ¬ ((l2.holes.length : Int) ≥ 1024) := by omega
    rw [if_neg hnot] at hg
    simp only at hg
    obtain ⟨la, _, hla, _, _, _, _, _, _, hc2⟩ := resolveSlot_spec hg
    rw [hl0] at hla
    cases hla
    rcases hc2 with ⟨_, _, h3⟩ | ⟨h1, _⟩
    · rw [h3]
      unfold ensureLookup
      show (match e.lookup.lookup archId with
        | some _ => _
        | none => _ : archEngine V).lookup = e.lookup
      rw [hl]
    · rw [hi] at h1
      cases h1
  obtain ⟨_, _, h3, _, _⟩ := WF_iff.1 hwf
  obtain ⟨_, hgi⟩ := h3 id index hi
  obtain ⟨k, hk, hgk⟩ := sliceGet_eq_some hgi
  have hklt : k < l2.id.length := (List.getElem?_eq_some_iff.1 hgk).1
  refine ⟨e1, ?_, heff.lookup.trans he0, ?_, ?_, ?_⟩
  · unfold archEngine.rewriteArch archEngine.GetarchetypeId
    rw [hent]
    simp only [hreq, ↓reduceIte, hwrite]
  · intro m v hs
    obtain ⟨col, k1, hk1, _, hcol, hlen, hget, hrest⟩ := heff.written m v hs
    obtain ⟨c, hc, hcid⟩ := supplied_some_mem hs
    have hex : (column e.compSliceStorage m archId).isSome := by rw [← hcid]; exact hsub c hc
    obtain ⟨old, hold⟩ := Option.isSome_iff_exists.1 hex
    have hk1k : k1 = k := by omega
    subst hk1k
    have holdlen : old.length = l2.id.length := lockstep_iff.1 hlock m old hold
    rw [hst, hst2, hold] at hlen hrest
    simp only [Option.getD_some] at hlen hrest
    refine ⟨col, old, hcol, hold, by omega, ?_, ?_⟩
    · rw [hk, sliceGet_natCast]; exact hget
    · intro j hj
      unfold sliceGet
      by_cases h0 : 0 ≤ j
      · rw [if_pos h0, if_pos h0]
        apply hrest
        intro hjk
        apply hj
        rw [hk, ← hjk]
        exact (Int.toNat_of_nonneg h0).symm
      · rw [if_neg h0, if_neg h0]
  · intro m hs
    rw [(heff.untouched m hs).1, hst, hst2]
  · intro m B hB
    rw [heff.others m B hB, hst, hst2]

end inplace

section counting

/-- In a well-formed lookup list the slots split into the pending holes and the live
entities: `len(id) = len(holes) + number of keys of index`. -/
theorem length_id_eq_holes_add_keys {inv : Id} {l : lookupList} (hwf : l.WF inv) :
    l.id.length = l.holes.length + l.index.keys.length := by
  obtain ⟨h1, h2, h3, h4, h5⟩ := WF_iff.1 hwf
  let p : Nat → Bool := fun i => decide (l.id[i]? = some inv)
  have hsplit : (List.range l.id.length).length =
      ((List.range l.id.length).filter p).length +
      ((List.range l.id.length).filter (fun i => !p i)).length := by
    have := (List.filter_append_perm p (List.range l.id.length)).length_eq
    rw [List.length_append] at this
    exact this.symm
  rw [List.length_range] at hsplit
  -- the holes are the sentinel slots
  have hholes : l.holes.length = ((List.range l.id.length).filter p).length := by
    have hnd : (((List.range l.id.length).filter p).map (fun k : Nat => (k : Int))).Nodup := by
      apply List.Nodup.map
      · intro a b hab
        exact Int.ofNat.inj hab
      · exact (List.nodup_range _).filter _
    have hperm : l.holes.Perm (((List.range l.id.length).filter p).map
        (fun k : Nat => (k : Int))) := by
      rw [List.perm_ext_iff_of_nodup h4 hnd]
      intro a
      constructor
      · intro ha
        obtain ⟨k, hk, hg⟩ := sliceGet_eq_some (h5 a ha)
        have hklt : k < l.id.length := (List.getElem?_eq_some_iff.1 hg).1
        rw [List.mem_map]
        refine ⟨k, ?_, hk.symm⟩
        rw [List.mem_filter]
        exact ⟨List.mem_range.2 hklt, by simp [p, hg]⟩
      · intro ha
        obtain ⟨k, hk, hka⟩ := List.mem_map.1 ha
        rw [List.mem_filter] at hk
        have : l.id[k]? = some inv := by simpa [p] using hk.2
        rw [← hka]
        exact h2 k this
    rw [hperm.length_eq, List.length_map]
  -- the keys are the entities in the other slots
  have hkeys : l.index.keys.length =
      ((List.range l.id.length).filter (fun i => !p i)).length := by
    have hnd : (((List.range l.id.length).filter (fun i => !p i)).map
        (fun k : Nat => l.id.getD k inv)).Nodup := by
      apply List.Nodup.map_on
      · intro x hx y hy hxy
        rw [List.mem_filter] at hx hy
        have hxlt := List.mem_range.1 hx.1
        have hylt := List.mem_range.1 hy.1
        have hxg : l.id[x]? = some (l.id.getD x inv) := by
          rw [List.getD_eq_getElem?_getD, List.getElem?_eq_getElem hxlt]; rfl
        have hyg : l.id[y]? = some (l.id.getD y inv) := by
          rw [List.getD_eq_getElem?_getD, List.getElem?_eq_getElem hylt]; rfl
        have hxne : l.id.getD x inv ≠ inv := by
          intro h
          rw [h] at hxg
          simp [p, hxg] at hx
        have e1 := h1 x _ hxg hxne
        rw [hxy] at e1 hxne
        have e2 := h1 y _ hyg hxne
        rw [e1] at e2
        have := Option.some.inj e2
        omega
      · exact (List.nodup_range _).filter _
    have hperm : l.index.keys.Perm (((List.range l.id.length).filter (fun i => !p i)).map
        (fun k : Nat => l.id.getD k inv)) := by
      rw [List.perm_ext_iff_of_nodup l.index.keys_nodup hnd]
      intro a
      constructor
      · intro ha
        have hmem : a ∈ l.index := ha
        obtain ⟨j, hj⟩ := Option.isSome_iff_exists.1 (AList.lookup_isSome.2 hmem)
        obtain ⟨hane, hg⟩ := h3 a j hj
        obtain ⟨k, _, hgk⟩ := sliceGet_eq_some hg
        have hklt : k < l.id.length := (List.getElem?_eq_some_iff.1 hgk).1
        rw [List.mem_map]
        refine ⟨k, ?_, ?_⟩
        · rw [List.mem_filter]
          refine ⟨List.mem_range.2 hklt, ?_⟩
          simp only [p, hgk, Option.some.injEq, Bool.not_eq_eq_eq_not, Bool.not_true,
            decide_eq_false_iff_not]
          exact hane
        · rw [List.getD_eq_getElem?_getD, hgk]; rfl
      · intro ha
        obtain ⟨k, hk, hka⟩ := List.mem_map.1 ha
        rw [List.mem_filter] at hk
        have hklt := List.mem_range.1 hk.1
        have hg : l.id[k]? = some a := by
          rw [← hka, List.getD_eq_getElem?_getD, List.getElem?_eq_getElem hklt]; rfl
        have hane : a ≠ inv := by
          intro h
          rw [h] at hg
          simp [p, hg] at hk
        have := h1 k a hg hane
        have hmem : a ∈ l.index := AList.lookup_isSome.1 (by simp [this])
        exact hmem
    rw [hperm.length_eq, List.length_map]
  omega

/-- Two association lists with the same set of keys have the same number of keys. -/
theorem keys_length_eq_of_isSome {K A B : Type} [DecidableEq K] {m1 : GoMap K A}
    {m2 : GoMap K B} (h : ∀ k, (m1.lookup k).isSome = (m2.lookup k).isSome) :
    m1.keys.length = m2.keys.length := by
  have hperm : m1.keys.Perm m2.keys := by
    rw [List.perm_ext_iff_of_nodup m1.keys_nodup m2.keys_nodup]
    intro a
    have e1 : a ∈ m1.keys ↔ (m1.lookup a).isSome := by
      rw [AList.lookup_isSome]; rfl
    have e2 : a ∈ m2.keys ↔ (m2.lookup a).isSome := by
      rw [AList.lookup_isSome]; rfl
    rw [e1, e2, h a]
  exact hperm.length_eq

end counting

section manyholes
variable {V : Type}

theorem holesLookup_id (n i : Nat) :
    (holesLookup n).id[i]? =
      if i < n then some 0 else if i = n then some 5 else none := by
  show (List.replicate n 0 ++ [5])[i]? = _
  by_cases h : i < n
  · rw [if_pos h, List.getElem?_append_left (by simpa using h), List.getElem?_replicate,
      if_pos h]
  · rw [if_neg h, List.getElem?_append_right (by simpa using h)]
    simp only [List.length_replicate]
    by_cases h2 : i = n
    · rw [if_pos h2, h2]; simp
    · rw [if_neg h2]
      apply List.getElem?_eq_none
      simp
      omega

theorem holesLookup_WF (n : Nat) : (holesLookup n).WF 0 := by
  apply WF_iff.2
  refine ⟨?_, ?_, ?_, ?_, ?_⟩
  · intro i e hi he
    rw [holesLookup_id] at hi
    by_cases h : i < n
    · rw [if_pos h] at hi
      exact absurd (Option.some.inj hi).symm he
    · rw [if_neg h] at hi
      by_cases h2 : i = n
      · rw [if_pos h2] at hi
        cases hi
        rw [h2]
        exact AList.lookup_insert _
      · rw [if_neg h2] at hi
        cases hi
  · intro i hi
    rw [holesLookup_id] at hi
    by_cases h : i < n
    · show (i : Int) ∈ (List.range n).map (fun k : Nat => (k : Int))
      exact List.mem_map.2 ⟨i, List.mem_range.2 h, rfl⟩
    · rw [if_neg h] at hi
      by_cases h2 : i = n
      · rw [if_pos h2] at hi
        cases hi
      · rw [if_neg h2] at hi
        cases hi
  · intro e j hj
    have hj1 : ((∅ : GoMap Id Int).insert 5 (n : Int)).lookup e = some j := hj
    by_cases he : e = 5
    · subst he
      rw [AList.lookup_insert] at hj1
      cases hj1
      refine ⟨by decide, ?_⟩
      rw [sliceGet_natCast, holesLookup_id, if_neg (lt_irrefl _), if_pos rfl]
    · rw [AList.lookup_insert_ne he, AList.lookup_empty] at hj1
      cases hj1
  · show ((List.range n).map (fun k : Nat => (k : Int))).Nodup
    apply List.Nodup.map
    · intro a b hab
      exact Int.ofNat.inj hab
    · exact List.nodup_range _
  · intro h hh
    have hh1 : h ∈ (List.range n).map (fun k : Nat => (k : Int)) := hh
    obtain ⟨k, hk, hkh⟩ := List.mem_map.1 hh1
    rw [← hkh, sliceGet_natCast, holesLookup_id, if_pos (List.mem_range.1 hk)]

theorem holesLookup_holes_length (n : Nat) : (holesLookup n).holes.length = n := by
  show ((List.range n).map (fun k : Nat => (k : Int))).length = n
  simp

theorem holesLookup_keys_length (n : Nat) : (holesLookup n).index.keys.length = 1 := rfl

theorem holesEngine_Lockstep (n : Nat) :
    Lockstep (holesEngine n).compSliceStorage 7 (holesLookup n).id.length := by
  apply lockstep_iff.2
  intro m col hcol
  have hlen : (holesLookup n).id.length = n + 1 := by
    show (List.replicate n 0 ++ [5]).length = n + 1
    simp
  rw [hlen]
  by_cases hm : m = 1
  · subst hm
    have h1 : column (holesEngine n).compSliceStorage 1 7 =
        some (List.replicate n 0 ++ [42]) := by
      show column (AList.insert 1 _ _) 1 7 = _
      rw [column_insert_self, AList.lookup_insert]
      rfl
    rw [h1] at hcol
    cases hcol
    simp
  · have h1 : column (holesEngine n).compSliceStorage m 7 = none := by
      show column (AList.insert 1 _ _) m 7 = _
      rw [column_insert_ne _ _ _ hm]
      unfold column
      rw [AList.lookup_empty]
    rw [h1] at hcol
    cases hcol

/-- The call `rewriteArch` on a live entity of a well-formed archetype whose merged
component set still resolves to the archetype and whose supplied component types all have
a column: it returns the archetype; the lookup list afterwards is the possibly compacted
one, which is well formed, has the same entities as before, and has no pending hole when
1024 or more holes were pending. -/
theorem rewriteArch_same_spec {inv : Id}
    {getArchetypeId : componentRegistry → List componentId → archetypeId × componentRegistry}
    {e : archEngine V} {A : archetypeId} {id : Id} {comps : List (Component V)}
    {l : lookupList} {i : Int}
    (hl : e.lookup.lookup A = some l) (hwf : l.WF inv)
    (hlock : Lockstep e.compSliceStorage A l.id.length)
    (hi : l.index.lookup id = some i)
    (hres : ∀ ent, e.ReadEntity A id = some ent →
      (getArchetypeId e.dcr (((ent.Add comps).Comps).map Component.id)).1 = A)
    (hsub : ∀ c ∈ comps, (column e.compSliceStorage c.id A).isSome) :
    ∃ (e1 : archEngine V) (l2 : lookupList) (index : Int),
      e.rewriteArch inv getArchetypeId A id comps = some (A, e1) ∧
      e1.lookup.lookup A = some l2 ∧ l2.WF inv ∧
      (1024 ≤ l.holes.length → l2.holes = []) ∧
      (∀ x, (l2.index.lookup x).isSome = (l.index.lookup x).isSome) ∧
      l2.index.lookup id = some index := by
  obtain ⟨ent, hent, _⟩ := ReadEntity_of_WF hl hwf hlock hi
  have hreq := hres ent hent
  have hl0 : (ensureLookup ({ e with dcr := (getArchetypeId e.dcr
      (((ent.Add comps).Comps).map Component.id)).2 } : archEngine V) A).lookup.lookup
      A = some l := by
    rw [ensureLookup_lookup]
    show some ((e.lookup.lookup A).getD _) = some l
    rw [hl]; rfl
  obtain ⟨e1, e0, index, hwrite, hg, heff⟩ :=
    write_spec id comps hl0 hwf hlock (fun _ => hsub)
  obtain ⟨l2, l1, st2, hwf2, _, hpres, _, hcompact, hl1, _, _, _, _, _, hcase⟩ :=
    getOrAddLookupIndex_spec hl0 hwf hlock hg
  have hsome : (l2.index.lookup id).isSome := by rw [hpres.keys id, hi]; rfl
  have hex : l2.index.lookup id = some index ∧ l1 = l2 := by
    rcases hcase with h1 | ⟨h1, _⟩
    · exact h1
    · rw [h1] at hsome
      cases hsome
  obtain ⟨hidx, hl12⟩ := hex
  subst hl12
  refine ⟨e1, l1, index, ?_, by rw [heff.lookup]; exact hl1, hwf2, hcompact, hpres.keys, hidx⟩
  unfold archEngine.rewriteArch archEngine.GetarchetypeId
  rw [hent]
  simp only [hreq, ↓reduceIte, hwrite]

/-- C6, as stated, fails: with 1024 pending holes in the archetype, the write inside
`rewriteArch` first compacts it, and the entity that was live in slot 1024 does not keep
its slot index. -/
theorem rewriteArch_in_place_counterexample :
    ¬ (∀ (e : archEngine Nat) (A : archetypeId) (id : Id) (comps : List (Component Nat))
        (l : lookupList) (i : Int),
        e.lookup.lookup A = some l → l.WF 0 → Lockstep e.compSliceStorage A l.id.length →
        l.index.lookup id = some i →
        (∀ ent, e.ReadEntity A id = some ent →
          (constRegistry A e.dcr (((ent.Add comps).Comps).map Component.id)).1 = A) →
        (∀ c ∈ comps, (column e.compSliceStorage c.id A).isSome) →
        ∃ e1 l1, e.rewriteArch 0 (constRegistry A) A id comps = some (A, e1) ∧
          e1.lookup.lookup A = some l1 ∧ l1.index.lookup id = some i) := by
  intro h
  have hl : (holesEngine 1024).lookup.lookup 7 = some (holesLookup 1024) := AList.lookup_insert _
  have hi : (holesLookup 1024).index.lookup 5 = some ((1024 : Nat) : Int) :=
    AList.lookup_insert _
  have hsub : ∀ c ∈ [C 1 (43 : Nat)],
      (column (holesEngine 1024).compSliceStorage c.id 7).isSome := by
    intro c hc
    rw [List.mem_singleton] at hc
    subst hc
    show (column (AList.insert 1 _ _) 1 7).isSome
    rw [column_insert_self, AList.lookup_insert]
    rfl
  obtain ⟨e1, l1, hrw, hl1, hslot⟩ := h (holesEngine 1024) 7 5 [C 1 43] (holesLookup 1024)
    ((1024 : Nat) : Int) hl (holesLookup_WF 1024) (holesEngine_Lockstep 1024) hi
    (fun _ _ => rfl) hsub
  obtain ⟨e2, l2, index, hrw2, hl2, hwf2, hcompact, hkeys, _⟩ :=
    rewriteArch_same_spec hl (holesLookup_WF 1024)
      (holesEngine_Lockstep 1024) hi
      (fun _ _ => (rfl : (constRegistry 7 _ _).1 = 7)) hsub
  rw [hrw] at hrw2
  simp only [Option.some.injEq, Prod.mk.injEq, true_and] at hrw2
  subst hrw2
  rw [hl1] at hl2
  cases hl2
  have hholes : l1.holes = [] := by
    apply hcompact
    rw [holesLookup_holes_length]
  have hcount := length_id_eq_holes_add_keys hwf2
  rw [hholes, keys_length_eq_of_isSome hkeys, holesLookup_keys_length] at hcount
  obtain ⟨_, _, h3, _, _⟩ := WF_iff.1 hwf2
  obtain ⟨_, hg⟩ := h3 5 _ hslot
  obtain ⟨k, hk, hgk⟩ := sliceGet_eq_some hg
  have hklt : k < l1.id.length := (List.getElem?_eq_some_iff.1 hgk).1
  simp only [List.length_nil] at hcount
  omega

end manyholes

/-- Witness for C6 (amended): entity 5 of archetype 7 `{X:1, Y:2}` recomposed with `X = 9`
stays in archetype 7 in slot 0; column X holds 9 there and column Y is unchanged. -/
theorem rewriteArch_in_place_witness :
    (xyEntity.lookup.lookup 7 = some xyLookup ∧ xyLookup.WF 0 ∧
      Lockstep xyEntity.compSliceStorage 7 xyLookup.id.length ∧
      xyLookup.index.lookup 5 = some 0 ∧ xyLookup.holes.length < 1024) ∧
    (∃ e1 : archEngine Nat,
      xyEntity.rewriteArch 0 xyzRegistry 7 5 [C 1 9] = some (7, e1) ∧
      e1.lookup = xyEntity.lookup ∧
      (∀ m v, supplied [C 1 (9 : Nat)] m = some v →
        ∃ col old, column e1.compSliceStorage m 7 = some col ∧
          column xyEntity.compSliceStorage m 7 = some old ∧ col.length = old.length ∧
          sliceGet col 0 = some v ∧ ∀ j : Int, j ≠ 0 → sliceGet col j = sliceGet old j) ∧
      (∀ m, supplied [C 1 (9 : Nat)] m = none →
        column e1.compSliceStorage m 7 = column xyEntity.compSliceStorage m 7) ∧
      (∀ m B, B ≠ 7 →
        column e1.compSliceStorage m B = column xyEntity.compSliceStorage m B)) ∧
    (xyEntity.rewriteArch 0 xyzRegistry 7 5 [C 1 9]).map
      (fun r => (r.1, column r.2.compSliceStorage 1 7, column r.2.compSliceStorage 2 7)) =
      some (7, some [9], some [2]) :=
  ⟨⟨by decide, by decide, by decide, by decide, by decide⟩,
    rewriteArch_in_place 0 xyzRegistry xyEntity 7 5 [C 1 9] xyLookup 0
      (by decide) (by decide) (by decide) (by decide)
      (fun ent h =>
        (by decide : ∀ ent ∈ xyEntity.ReadEntity 7 5,
          (xyzRegistry xyEntity.dcr (((ent.Add [C 1 9]).Comps).map Component.id)).1 = 7) ent h)
      (by decide) (by decide),
    by decide⟩

section filter
variable {V : Type}

theorem foldl_append_singleton {α β : Type} (f : α → β) (xs : List α) (init : List β) :
    xs.foldl (fun acc x => acc ++ [f x]) init = init ++ xs.map f := by
  induction xs generalizing init with
  | nil => simp
  | cons x xs ih => simp [ih]

theorem foldl_cond_append {α : Type} (p : α → Bool) (xs : List α) (init : List α) :
    xs.foldl (fun acc x => if p x then acc ++ [x] else acc) init = init ++ xs.filter p := by
  induction xs generalizing init with
  | nil => simp
  | cons x xs ih =>
    simp only [List.foldl_cons, List.filter_cons]
    by_cases hp : p x = true
    · simp [hp, ih]
    · simp [hp, ih]

/-- What `FilterList` returns for a non-empty query: only the scratch buffer of the engine
changes, and the result lists, without duplicates, the archetype ids that occur in the
inverted-index set of every queried component id. -/
theorem FilterList_spec (e : archEngine V) (archIds : List archetypeId)
    (comp : List componentId) (hne : comp ≠ []) :
    ∃ res e1, e.FilterList archIds comp = some (res, e1) ∧
      e1.lookup = e.lookup ∧ e1.compSliceStorage = e.compSliceStorage ∧ e1.dcr = e.dcr ∧
      res.Nodup ∧
      (∀ a, a ∈ res ↔ referenceIntersection e.dcr.archSet comp a) ∧
      (∀ components : archetypeId → List componentId,
        (∀ c a, a ∈ ((e.dcr.archSet.lookup c).getD ∅).keys ↔ c ∈ components a) →
        ∀ a, a ∈ res ↔ referenceSuperset components comp a) := by
  obtain ⟨c0, cs, hcomp⟩ : ∃ c0 cs, comp = c0 :: cs := by
    cases comp with
    | nil => exact absurd rfl hne
    | cons c0 cs => exact ⟨c0, cs, rfl⟩
  have hfl : comp.foldl
      (fun fl compId => fl ++ [(e.dcr.archSet.lookup compId).getD ∅]) (e.filterLists.take 0) =
      comp.map (fun compId => (e.dcr.archSet.lookup compId).getD ∅) := by
    rw [foldl_append_singleton (fun compId => (e.dcr.archSet.lookup compId).getD ∅)]
    simp
  have hmem : ∀ a, a ∈ ((e.dcr.archSet.lookup c0).getD ∅).keys.filter
      (fun archId => !(comp.map (fun compId => (e.dcr.archSet.lookup compId).getD ∅)).any
        (fun fl => (fl.lookup archId).isNone)) ↔
      referenceIntersection e.dcr.archSet comp a := by
    intro a
    unfold referenceIntersection
    rw [List.mem_filter]
    simp only [Bool.not_eq_eq_eq_not, Bool.not_true, List.any_eq_false, List.mem_map,
      Option.isNone_iff_eq_none, forall_exists_index, and_imp, forall_apply_eq_imp_iff₂]
    constructor
    · rintro ⟨_, h2⟩ c hc
      have := h2 c hc
      have hsome : (((e.dcr.archSet.lookup c).getD ∅).lookup a).isSome := by
        cases hl : ((e.dcr.archSet.lookup c).getD ∅).lookup a with
        | none => exact absurd hl this
        | some b => rfl
      exact AList.lookup_isSome.1 hsome
    · intro h
      refine ⟨h c0 (by rw [hcomp]; simp), ?_⟩
      intro c hc hnone
      have hin : a ∈ ((e.dcr.archSet.lookup c).getD ∅) := h c hc
      have := AList.lookup_isSome.2 hin
      rw [hnone] at this
      cases this
  refine ⟨((e.dcr.archSet.lookup c0).getD ∅).keys.filter
      (fun archId => !(comp.map (fun compId => (e.dcr.archSet.lookup compId).getD ∅)).any
        (fun fl => (fl.lookup archId).isNone)),
    { e with filterLists := comp.map (fun compId => (e.dcr.archSet.lookup compId).getD ∅) },
    ?_, rfl, rfl, rfl, ?_, hmem, ?_⟩
  · unfold archEngine.FilterList
    simp only [hfl]
    have h0 : (comp.map (fun compId => (e.dcr.archSet.lookup compId).getD ∅))[0]? =
        some ((e.dcr.archSet.lookup c0).getD ∅) := by
      rw [hcomp]; simp
    rw [h0]
    simp only [Option.some.injEq, Prod.mk.injEq, and_true]
    rw [foldl_cond_append (fun archId =>
      !(comp.map (fun compId => (e.dcr.archSet.lookup compId).getD ∅)).any
        (fun fl => (fl.lookup archId).isNone))]
    simp
  · exact (AList.keys_nodup _).filter _
  · intro components hidx a
    rw [hmem a]
    unfold referenceIntersection referenceSuperset
    constructor
    · intro h c hc
      exact (hidx c a).1 (h c hc)
    · intro h c hc
      exact (hidx c a).2 (h c hc)

/-- C7: filter correctness.  For a non-empty query and any contents of the `archIds`
buffer, `FilterList` returns, without duplicates, exactly the archetype ids that occur in
the inverted-index set of every queried component id (the reference set intersection);
when the inverted index records, for every component id, the archetypes whose component
set contains it, these are exactly the archetypes whose component-id set is a superset
of the query. -/
theorem FilterList_correct (e : archEngine V) (archIds : List archetypeId)
    (comp : List componentId) (hne : comp ≠ []) :
    ∃ res e1, e.FilterList archIds comp = some (res, e1) ∧ res.Nodup ∧
      (∀ a, a ∈ res ↔ referenceIntersection e.dcr.archSet comp a) ∧
      (∀ components : archetypeId → List componentId,
        (∀ c a, a ∈ ((e.dcr.archSet.lookup c).getD ∅).keys ↔ c ∈ components a) →
        ∀ a, a ∈ res ↔ referenceSuperset components comp a) := by
  obtain ⟨res, e1, h, _, _, _, hnd, hmem, hsup⟩ := FilterList_spec e archIds comp hne
  exact ⟨res, e1, h, hnd, hmem, hsup⟩

/-- Witness for C7: with archetype 7 = `{1}` and archetype 8 = `{1, 2}`, the query `[1, 2]`
on a dirty buffer returns archetype 8 only, and the query `[1]` both archetypes. -/
theorem FilterList_correct_witness :
    ([1, 2] : List componentId) ≠ [] ∧
    (∃ res e1, filterEngine.FilterList [3, 3, 9] [1, 2] = some (res, e1) ∧ res.Nodup ∧
      (∀ a, a ∈ res ↔ referenceIntersection filterEngine.dcr.archSet [1, 2] a) ∧
      (∀ components : archetypeId → List componentId,
        (∀ c a, a ∈ ((filterEngine.dcr.archSet.lookup c).getD ∅).keys ↔ c ∈ components a) →
        ∀ a, a ∈ res ↔ referenceSuperset components [1, 2] a)) ∧
    (filterEngine.FilterList [3, 3, 9] [1, 2]).map (fun r => r.1) = some [8] ∧
    (filterEngine.FilterList [] [1]).map (fun r => r.1) = some [8, 7] :=
  ⟨by decide, FilterList_correct filterEngine [3, 3, 9] [1, 2] (by decide), by decide, by decide⟩

end filter

section counts
variable {V : Type}

theorem nameAll_length (g : nameRegistry) (anything : List reflectType) :
    (nameAll g anything).1.length = anything.length := by
  unfold nameAll
  have key : ∀ (xs : List reflectType) (acc : List componentId × nameRegistry),
      (xs.foldl (fun acc c => let r := name acc.2 c; (acc.1 ++ [r.1], r.2)) acc).1.length =
        acc.1.length + xs.length := by
    intro xs
    induction xs with
    | nil => intro acc; simp
    | cons x xs ih =>
      intro acc
      rw [List.foldl_cons, ih]
      simp
      omega
  rw [key]
  simp

/-- The summation loop of `count` over archetypes that all have a well-formed lookup list:
it returns the running total plus the number of live entities of each archetype. -/
theorem countLoop_spec (inv : Id) (e : archEngine V) :
    ∀ (archIds : List archetypeId) (total : Int),
    (∀ a ∈ archIds, ∃ l, e.lookup.lookup a = some l ∧ l.WF inv) →
    archIds.foldlM
      (fun (total : Int) archId =>
        match e.lookup.lookup archId with
        | none => none
        | some lookup => some (total + (lookup.id.length : Int) - (lookup.holes.length : Int)))
      total = some (total + ((archIds.map (fun a => (liveEntities e a : Int))).sum)) := by
  intro archIds
  induction archIds with
  | nil => intro total _; simp
  | cons a as ih =>
    intro total h
    obtain ⟨l, hl, hwf⟩ := h a (List.mem_cons_self _ _)
    rw [List.foldlM_cons, hl]
    simp only [Option.bind_eq_bind, Option.some_bind]
    rw [ih _ (fun b hb => h b (List.mem_cons_of_mem _ hb))]
    have hcount := length_id_eq_holes_add_keys hwf
    have hlive : liveEntities e a = l.index.keys.length := by
      unfold liveEntities
      rw [hl]
    simp only [List.map_cons, List.sum_cons, hlive]
    congr 1
    omega

/-- C8, amended: count correctness.  For a non-empty query, in a state in which every
archetype of the inverted index that matches the query has a lookup list, one that
satisfies the lookup invariant as every reachable lookup list does, `count` returns
the number of live entities (entities with a forward mapping, so entities tagged for
deletion are excluded whether or not compaction has run) summed over the archetypes that
match the query, each counted once; the matching archetypes are those whose component
set is a superset of the query when the inverted index records component sets.  In
particular `len(id) - len(holes)` is the number of live entities of every well-formed
lookup list. -/
theorem count_correct (InvalidEntity : Id) (g : nameRegistry) (e : archEngine V)
    (anything : List reflectType) (hne : anything ≠ [])
    (hwf : ∀ a, referenceIntersection e.dcr.archSet (nameAll g anything).1 a →
      ∃ l, e.lookup.lookup a = some l ∧ l.WF InvalidEntity) :
    (∃ (total : Int) (g1 : nameRegistry) (e1 : archEngine V) (archIds : List archetypeId),
      e.count g anything = some (total, g1, e1) ∧
      archIds.Nodup ∧
      (∀ a, a ∈ archIds ↔ referenceIntersection e.dcr.archSet (nameAll g anything).1 a) ∧
      (∀ components : archetypeId → List componentId,
        (∀ c a, a ∈ ((e.dcr.archSet.lookup c).getD ∅).keys ↔ c ∈ components a) →
        ∀ a, a ∈ archIds ↔ referenceSuperset components (nameAll g anything).1 a) ∧
      total = (archIds.map (fun a => (liveEntities e a : Int))).sum) ∧
    (∀ l : lookupList, l.WF InvalidEntity →
      (l.id.length : Int) - (l.holes.length : Int) = (l.index.keys.length : Int)) := by
  refine ⟨?_, ?_⟩
  · have hcomp : (nameAll g anything).1 ≠ [] := by
      intro h
      have := nameAll_length g anything
      rw [h] at this
      cases anything with
      | nil => exact hne rfl
      | cons x xs => simp at this
    obtain ⟨res, e1, hf, hlook, _, _, hnd, hmem, hsup⟩ :=
      FilterList_spec e [] (nameAll g anything).1 hcomp
    have hloop := countLoop_spec InvalidEntity e1 res 0 (by
      intro a ha
      rw [hlook]
      exact hwf a ((hmem a).1 ha))
    have hlive : (fun a => (liveEntities e1 a : Int)) = (fun a => (liveEntities e a : Int)) := by
      funext a
      unfold liveEntities
      rw [hlook]
    refine ⟨_, (nameAll g anything).2, e1, res, ?_, hnd, hmem, hsup, rfl⟩
    unfold archEngine.count
    have hn : anything.foldl
        (fun acc c => let r := name acc.2 c; (acc.1 ++ [r.1], r.2))
        (([] : List componentId), g) = nameAll g anything := rfl
    simp only [hn, hf, hloop, hlive, zero_add]
  · intro l hl
    have := length_id_eq_holes_add_keys hl
    omega

end counts

theorem filterEngine_lookups (a : archetypeId)
    (h : referenceIntersection filterEngine.dcr.archSet (nameAll filterNames [100]).1 a) :
    ∃ l, filterEngine.lookup.lookup a = some l ∧ l.WF 0 := by
  have h1 := h 1 (by decide)
  have hk : ((filterEngine.dcr.archSet.lookup 1).getD ∅).keys = [8, 7] := by decide
  rw [hk] at h1
  simp only [List.mem_cons, List.mem_singleton, List.not_mem_nil, or_false] at h1
  rcases h1 with h8 | h7
  · subst h8
    exact ⟨holeAndEntityLookup, by decide, by decide⟩
  · subst h7
    exact ⟨twoEntitiesLookup, by decide, by decide⟩

/-- Witness for C8: archetype 7 holds two live entities, archetype 8 one live entity and
one pending hole; both contain the queried component, and `count` returns 3. -/
theorem count_correct_witness :
    ([100] : List reflectType) ≠ [] ∧
    ((∃ (total : Int) (g1 : nameRegistry) (e1 : archEngine Nat) (archIds : List archetypeId),
      filterEngine.count filterNames [100] = some (total, g1, e1) ∧
      archIds.Nodup ∧
      (∀ a, a ∈ archIds ↔
        referenceIntersection filterEngine.dcr.archSet (nameAll filterNames [100]).1 a) ∧
      (∀ components : archetypeId → List componentId,
        (∀ c a, a ∈ ((filterEngine.dcr.archSet.lookup c).getD ∅).keys ↔ c ∈ components a) →
        ∀ a, a ∈ archIds ↔ referenceSuperset components (nameAll filterNames [100]).1 a) ∧
      total = (archIds.map (fun a => (liveEntities filterEngine a : Int))).sum) ∧
    (∀ l : lookupList, l.WF 0 →
      (l.id.length : Int) - (l.holes.length : Int) = (l.index.keys.length : Int))) ∧
    (filterEngine.count filterNames [100]).map (fun r => r.1) = some 3 ∧
    (filterEngine.count filterNames [100, 101]).map (fun r => r.1) = some 1 :=
  ⟨by decide, count_correct 0 filterNames filterEngine [100] (by decide) filterEngine_lookups,
    by decide, by decide⟩

section lookuponly
variable {V : Type}

theorem deleteAll_empty (A : archetypeId) (i : Int) :
    deleteAll (∅ : GoMap componentId (componentSliceStorage V)) A i = some ∅ := rfl

/-- The reverse array the trimming loop returns does not depend on the column stores. -/
theorem trim_indep {inv : Id} {A : archetypeId} :
    ∀ (fuel : Nat) (ids ids1 : List Id) (st st1 : GoMap componentId (componentSliceStorage V)),
    CleanupHoles.trim inv A fuel ids st = some (ids1, st1) →
    CleanupHoles.trim inv A fuel ids (∅ : GoMap componentId (componentSliceStorage V)) =
      some (ids1, ∅) := by
  intro fuel
  induction fuel with
  | zero => intro ids ids1 st st1 h; unfold CleanupHoles.trim at h; cases h
  | succ fuel ih =>
    intro ids ids1 st st1 h
    unfold CleanupHoles.trim at h ⊢
    simp only at h ⊢
    split at h
    · rename_i hlt
      rw [if_pos hlt]
      simp only [Option.some.injEq, Prod.mk.injEq] at h
      rw [h.1]
    · rename_i hlt
      rw [if_neg hlt]
      split at h
      · cases h
      · rename_i lastId hg
        split at h
        · rename_i hl
          rw [if_pos hl]
          split at h
          · cases h
          · rw [deleteAll_empty]
            simp only
            exact ih _ _ _ _ h
        · rename_i hl
          rw [if_neg hl]
          simp only [Option.some.injEq, Prod.mk.injEq] at h
          rw [h.1]

/-- The lookup list an iteration of the outer loop returns does not depend on the column
stores. -/
theorem step_indep {inv : Id} {A : archetypeId} {l l1 : lookupList}
    {st st1 : GoMap componentId (componentSliceStorage V)} {h : Int}
    (hs : CleanupHoles.step inv A (l, st) h = some (l1, st1)) :
    CleanupHoles.step inv A (l, (∅ : GoMap componentId (componentSliceStorage V))) h =
      some (l1, ∅) := by
  unfold CleanupHoles.step at hs ⊢
  simp only at hs ⊢
  split at hs
  · cases hs
  · rename_i ids2 st2 ht
    rw [trim_indep _ _ _ _ _ ht]
    simp only
    split at hs
    · rename_i hge
      rw [if_pos hge]
      simp only [Option.some.injEq, Prod.mk.injEq] at hs
      rw [hs.1]
    · rename_i hge
      rw [if_neg hge]
      split at hs
      · cases hs
      · rename_i lastId hg
        split at hs
        · cases hs
        · rename_i hl
          rw [if_neg hl]
          split at hs
          · cases hs
          · rename_i ids3 hset
            split at hs
            · cases hs
            · rw [deleteAll_empty]
              simp only [Option.some.injEq, Prod.mk.injEq] at hs ⊢
              first | exact hs.1 | exact ⟨hs.1, trivial⟩

theorem loop_indep {inv : Id} {A : archetypeId} :
    ∀ (hs : List Int) (l l1 : lookupList)
      (st st1 : GoMap componentId (componentSliceStorage V)),
    hs.foldlM (CleanupHoles.step inv A) (l, st) = some (l1, st1) →
    hs.foldlM (CleanupHoles.step inv A)
      (l, (∅ : GoMap componentId (componentSliceStorage V))) = some (l1, ∅) := by
  intro hs
  induction hs with
  | nil =>
    intro l l1 st st1 h
    simp only [List.foldlM_nil, Option.pure_def, Option.some.injEq, Prod.mk.injEq] at h ⊢
    first | exact h.1 | exact ⟨h.1, rfl⟩ | exact ⟨h.1, trivial⟩
  | cons x hs ih =>
    intro l l1 st st1 h
    rw [List.foldlM_cons] at h ⊢
    cases hstep : CleanupHoles.step inv A (l, st) x with
    | none => rw [hstep] at h; cases h
    | some r =>
      obtain ⟨l2, st2⟩ := r
      rw [hstep] at h
      rw [step_indep hstep]
      simp only [Option.bind_eq_bind, Option.some_bind] at h ⊢
      exact ih _ _ _ _ h

/-- Whatever the columns are, a `CleanupHoles` that returns on a well-formed lookup list
leaves a well-formed lookup list without holes, with the same entities. -/
theorem CleanupHoles_WF {inv : Id} {e e1 : archEngine V} {A : archetypeId} {l : lookupList}
    (hl : e.lookup.lookup A = some l) (hwf : l.WF inv)
    (h : e.CleanupHoles inv A = some e1) :
    ∃ l1, e1.lookup.lookup A = some l1 ∧ l1.WF inv ∧ l1.holes = [] ∧
      ∀ x, (l1.index.lookup x).isSome = (l.index.lookup x).isSome := by
  unfold archEngine.CleanupHoles at h
  rw [hl] at h
  simp only at h
  split at h
  · cases h
  · rename_i l2 st2 hfold
    simp only [Option.some.injEq] at h
    subst h
    have hindep := loop_indep _ _ _ _ _ hfold
    have hlock : Lockstep (∅ : GoMap componentId (componentSliceStorage V)) A l.id.length := by
      intro p hp
      cases hp
    obtain ⟨l3, st3, hfold3, hinv3, hpres3⟩ :=
      loop_spec l.holes l (∅ : GoMap componentId (componentSliceStorage V))
        (CleanupInv.of_WF hwf hlock)
    rw [hindep] at hfold3
    simp only [Option.some.injEq, Prod.mk.injEq] at hfold3
    obtain ⟨h1, h2⟩ := hfold3
    subst h1 h2
    have hinv4 : CleanupInv inv A { l2 with holes := l2.holes.take 0 }
        (∅ : GoMap componentId (componentSliceStorage V)) [] :=
      ⟨hinv3.live, hinv3.hole, hinv3.back, hinv3.nodup, hinv3.pending, hinv3.lock⟩
    obtain ⟨hwf4, _, _⟩ := hinv4.to_WF (by simp)
    exact ⟨_, AList.lookup_insert _, hwf4, by simp, hpres3.keys⟩

/-- Tagging an entity for deletion keeps the lookup-list invariant. -/
theorem TagForDeletion_WF {inv : Id} {l : lookupList} {id : Id} {k : Nat}
    (hwf : l.WF inv) (hi : l.index.lookup id = some (k : Int)) :
    (lookupList.mk (l.index.erase id) (l.id.set k inv) (l.holes ++ [(k : Int)])).WF inv := by
  obtain ⟨h1, h2, h3, h4, h5⟩ := WF_iff.1 hwf
  obtain ⟨hid, hg⟩ := h3 id _ hi
  rw [sliceGet_natCast] at hg
  have hklt : k < l.id.length := (List.getElem?_eq_some_iff.1 hg).1
  have hset : ∀ i : Nat, (l.id.set k inv)[i]? = if i = k then some inv else l.id[i]? := by
    intro i
    rw [List.getElem?_set]
    by_cases hik : i = k
    · subst hik; simp [hklt]
    · have : ¬ k = i := fun h => hik h.symm
      simp [hik, this]
  apply WF_iff.2
  refine ⟨?_, ?_, ?_, ?_, ?_⟩
  · intro i e hi1 he
    show (l.index.erase id).lookup e = some (i : Int)
    have hi2 : (l.id.set k inv)[i]? = some e := hi1
    rw [hset i] at hi2
    by_cases hik : i = k
    · rw [if_pos hik] at hi2
      exact absurd (Option.some.inj hi2).symm he
    · rw [if_neg hik] at hi2
      have hl := h1 i e hi2 he
      have hne : e ≠ id := by
        intro heq
        rw [heq, hi] at hl
        have := Option.some.inj hl
        exact hik (by omega)
      rw [AList.lookup_erase_ne hne]
      exact hl
  · intro i hi1
    show (i : Int) ∈ l.holes ++ [(k : Int)]
    have hi2 : (l.id.set k inv)[i]? = some inv := hi1
    rw [hset i] at hi2
    by_cases hik : i = k
    · rw [hik]; simp
    · rw [if_neg hik] at hi2
      exact List.mem_append_left _ (h2 i hi2)
  · intro e j hj
    have hj1 : (l.index.erase id).lookup e = some j := hj
    show e ≠ inv ∧ sliceGet (l.id.set k inv) j = some e
    have hne : e ≠ id := by
      intro heq
      rw [heq, AList.lookup_erase] at hj1
      cases hj1
    rw [AList.lookup_erase_ne hne] at hj1
    obtain ⟨he, hgj⟩ := h3 e j hj1
    refine ⟨he, ?_⟩
    obtain ⟨m, hm, hgm⟩ := sliceGet_eq_some hgj
    have hmk : m ≠ k := by
      intro hmk
      rw [hmk, hg] at hgm
      exact hne (Option.some.inj hgm).symm
    rw [hm, sliceGet_natCast, hset m, if_neg hmk]
    exact hgm
  · show (l.holes ++ [(k : Int)]).Nodup
    rw [List.nodup_append]
    refine ⟨h4, List.nodup_singleton _, ?_⟩
    intro x hx hx2
    rw [List.mem_singleton] at hx2
    subst hx2
    have := h5 _ hx
    rw [sliceGet_natCast, hg] at this
    exact hid (Option.some.inj this)
  · intro x hx
    show sliceGet (l.id.set k inv) x = some inv
    have hx1 : x ∈ l.holes ++ [(k : Int)] := hx
    rcases List.mem_append.1 hx1 with hh | hh
    · obtain ⟨m, hm, hgm⟩ := sliceGet_eq_some (h5 x hh)
      rw [hm, sliceGet_natCast, hset m]
      by_cases hmk : m = k
      · rw [if_pos hmk]
      · rw [if_neg hmk]; exact hgm
    · rw [List.mem_singleton] at hh
      rw [hh, sliceGet_natCast, hset k, if_pos rfl]

end lookuponly

section invariant
variable {V : Type}

theorem emptyLookup_WF (inv : Id) : emptyLookup.WF inv := by
  apply WF_iff.2
  refine ⟨?_, ?_, ?_, List.nodup_nil, ?_⟩
  · intro i e hi _
    exact absurd hi (by simp [emptyLookup])
  · intro i hi
    exact absurd hi (by simp [emptyLookup])
  · intro e j hj
    have : (∅ : GoMap Id Int).lookup e = some j := hj
    rw [AList.lookup_empty] at this
    cases this
  · intro h hh
    exact absurd hh (List.not_mem_nil _)

/-- Whatever the columns are, a `getOrAddLookupIndex` that returns, for an entity other
than the sentinel, keeps the lookup-list invariant. -/
theorem getOrAddLookupIndex_WF {inv : Id} {e e1 : archEngine V} {A : archetypeId} {id : Id}
    {index : Int} (hwf : ((e.lookup.lookup A).getD emptyLookup).WF inv) (hid : id ≠ inv)
    (h : e.getOrAddLookupIndex inv A id = some (index, e1)) :
    ∃ l1, e1.lookup.lookup A = some l1 ∧ l1.WF inv := by
  rw [getOrAddLookupIndex_eq] at h
  have hl0 : (ensureLookup e A).lookup.lookup A =
      some ((e.lookup.lookup A).getD emptyLookup) := ensureLookup_lookup e A
  rw [hl0] at h
  simp only at h
  split at h
  · cases h
  · rename_i e2 he2
    obtain ⟨l2, hl2, hwf2⟩ : ∃ l2, e2.lookup.lookup A = some l2 ∧ l2.WF inv := by
      split at he2
      · obtain ⟨l2, hl2, hwf2, _, _⟩ := CleanupHoles_WF hl0 hwf he2
        exact ⟨l2, hl2, hwf2⟩
      · simp only [Option.some.injEq] at he2
        subst he2
        exact ⟨_, hl0, hwf⟩
    obtain ⟨la, l1, hla, hl1, _, _, _, _, _, hcase⟩ := resolveSlot_spec h
    rw [hl2] at hla
    cases hla
    refine ⟨l1, hl1, ?_⟩
    rcases hcase with ⟨_, h2, _⟩ | ⟨h1, h2⟩
    · rw [h2]; exact hwf2
    · exact addToEasiestHole_WF hwf2 hid h1 h2

/-- Every call on the lookup list of an archetype keeps the lookup-list invariant. -/
theorem lookupStep_WF {inv : Id} {A : archetypeId} {e e1 : archEngine V}
    (hstep : lookupStep inv A e e1)
    (hwf : ((e.lookup.lookup A).getD emptyLookup).WF inv) :
    ((e1.lookup.lookup A).getD emptyLookup).WF inv := by
  cases hstep with
  | getOrAdd hid h =>
    obtain ⟨l1, hl1, hwf1⟩ := getOrAddLookupIndex_WF hwf hid h
    rw [hl1]
    exact hwf1
  | addToEasiestHole hid hl hnew h =>
    rw [hl] at hwf
    show lookupList.WF inv (Option.getD (AList.lookup A (AList.insert A _ e.lookup)) emptyLookup)
    rw [AList.lookup_insert]
    exact addToEasiestHole_WF hwf hid hnew h
  | tag hid h =>
    obtain ⟨l, k, hl, hi, _, he1⟩ := TagForDeletion_spec h
    rw [hl] at hwf
    subst he1
    show lookupList.WF inv (Option.getD (AList.lookup A (AList.insert A _ e.lookup)) emptyLookup)
    rw [AList.lookup_insert]
    exact TagForDeletion_WF hwf hi
  | cleanup h =>
    cases hl : e.lookup.lookup A with
    | none =>
      unfold archEngine.CleanupHoles at h
      rw [hl] at h
      cases h
    | some l =>
      rw [hl] at hwf
      obtain ⟨l1, hl1, hwf1, _, _⟩ := CleanupHoles_WF hl hwf h
      rw [hl1]
      exact hwf1
  | frame h =>
    rw [h]
    exact hwf

/-- C9: lookup-list invariant.  Starting from an engine in which the lookup list of the
archetype is absent or empty, after any sequence of `getOrAddLookupIndex`,
`addToEasiestHole` (for an entity without a slot), `TagForDeletion` and `CleanupHoles`
calls with entity ids other than `InvalidEntity`: every slot `i < len(id)` that is not a
hole has `id[i] != InvalidEntity` and `index[id[i]] == i`, and every entity of `index`
has `0 <= index[e] < len(id)` and `id[index[e]] == e`. -/
theorem lookup_invariant (InvalidEntity : Id) (archId : archetypeId) (e0 e : archEngine V)
    (hinit : ∀ l, e0.lookup.lookup archId = some l → l = emptyLookup)
    (hreach : Relation.ReflTransGen (lookupStep InvalidEntity archId) e0 e) :
    ∀ l, e.lookup.lookup archId = some l →
      (∀ (i : Nat) (h : i < l.id.length), (i : Int) ∉ l.holes →
        l.id[i] ≠ InvalidEntity ∧ l.index.lookup l.id[i] = some (i : Int)) ∧
      (∀ (ent : Id) (j : Int), l.index.lookup ent = some j →
        0 ≤ j ∧ j < (l.id.length : Int) ∧ sliceGet l.id j = some ent) := by
  have hwf : ((e.lookup.lookup archId).getD emptyLookup).WF InvalidEntity := by
    induction hreach with
    | refl =>
      cases hl : e0.lookup.lookup archId with
      | none => exact emptyLookup_WF _
      | some l =>
        rw [hinit l hl]
        exact emptyLookup_WF _
    | tail _ hstep ih => exact lookupStep_WF hstep ih
  intro l hl
  rw [hl] at hwf
  have hwf1 : l.WF InvalidEntity := hwf
  obtain ⟨_, h2, h3, _, _⟩ := WF_iff.1 hwf1
  refine ⟨?_, ?_⟩
  · intro i hlt hnot
    rcases hwf1.1 i hlt with ⟨ha, _⟩ | hb
    · exfalso
      apply hnot
      apply h2 i
      rw [List.getElem?_eq_getElem hlt, ha]
    · exact hb
  · intro ent j hj
    obtain ⟨_, hg⟩ := h3 ent j hj
    obtain ⟨k, hk, hgk⟩ := sliceGet_eq_some hg
    have hklt : k < l.id.length := (List.getElem?_eq_some_iff.1 hgk).1
    exact ⟨by omega, by omega, hg⟩

end invariant

/-- The compacted scenario is reached from the new engine by two additions, a deletion tag
and a compaction. -/
theorem compacted_reachable :
    Relation.ReflTransGen (lookupStep 0 7) (newArchEngine : archEngine Nat)
      (lookupOnly compactedLookup) := by
  have s1 : lookupStep 0 7 (newArchEngine : archEngine Nat)
      (lookupOnly { index := (∅ : GoMap Id Int).insert 1 0, id := [1], holes := [] }) :=
    @lookupStep.getOrAdd Nat 0 7 _ _ 1 0 (by decide) (by decide)
  have s2 : lookupStep 0 7
      (lookupOnly { index := (∅ : GoMap Id Int).insert 1 0, id := [1], holes := [] })
      (lookupOnly twoEntitiesLookup) :=
    @lookupStep.getOrAdd Nat 0 7 _ _ 2 1 (by decide) (by decide)
  have s3 : lookupStep 0 7 (lookupOnly twoEntitiesLookup) (lookupOnly scenarioLookup) :=
    @lookupStep.tag Nat 0 7 _ _ 1 (by decide) (by decide)
  have s4 : lookupStep 0 7 (lookupOnly scenarioLookup) (lookupOnly compactedLookup) :=
    lookupStep.cleanup (by decide)
  exact (((Relation.ReflTransGen.single s1).tail s2).tail s3).tail s4

/-- Witness for C9: entities 1 and 2 are added to a new archetype, entity 1 is tagged and
the holes are cleaned up. -/
theorem lookup_invariant_witness :
    (∀ l, (newArchEngine : archEngine Nat).lookup.lookup 7 = some l → l = emptyLookup) ∧
    Relation.ReflTransGen (lookupStep 0 7) (newArchEngine : archEngine Nat)
      (lookupOnly compactedLookup) ∧
    ∀ l, (lookupOnly compactedLookup).lookup.lookup 7 = some l →
      (∀ (i : Nat) (h : i < l.id.length), (i : Int) ∉ l.holes →
        l.id[i] ≠ 0 ∧ l.index.lookup l.id[i] = some (i : Int)) ∧
      (∀ (ent : Id) (j : Int), l.index.lookup ent = some j →
        0 ≤ j ∧ j < (l.id.length : Int) ∧ sliceGet l.id j = some ent) :=
  ⟨fun l h => absurd h (by simp [newArchEngine]), compacted_reachable,
    lookup_invariant 0 7 newArchEngine (lookupOnly compactedLookup)
      (fun l h => absurd h (by simp [newArchEngine])) compacted_reachable⟩

section engineinv
variable {V : Type}

/-- The engine invariant, archetype by archetype. -/
theorem EngineInv_iff {inv : Id} {e : archEngine V} :
    EngineInv inv e ↔ ∀ A, ArchInv inv e A := by
  unfold EngineInv ArchInv
  constructor
  · rintro ⟨h1, h2⟩ A
    cases hl : e.lookup.lookup A with
    | some l =>
      have hmem : (⟨A, l⟩ : Sigma fun _ : archetypeId => lookupList) ∈ e.lookup.entries :=
        AList.mem_lookup_iff.1 hl
      exact h1 ⟨A, l⟩ hmem
    | none =>
      refine ⟨emptyLookup_WF inv, ?_⟩
      intro q hq c hc
      have hmem : (⟨A, c⟩ : Sigma fun _ : archetypeId => componentSlice V) ∈ q.2.slice.entries :=
        AList.mem_lookup_iff.1 hc
      rcases h2 q hq ⟨A, c⟩ hmem with h | h
      · rw [hl] at h; cases h
      · exact h
  · intro h
    refine ⟨?_, ?_⟩
    · intro p hp
      have hl : e.lookup.lookup p.1 = some p.2 := AList.mem_lookup_iff.2 hp
      have := h p.1
      rw [hl] at this
      exact this
    · intro q hq r hr
      cases hl : e.lookup.lookup r.1 with
      | some l => left; rfl
      | none =>
        right
        have := (h r.1).2
        rw [hl] at this
        exact this q hq r.2 (AList.mem_lookup_iff.2 hr)

/-- The invariant of an archetype depends on its lookup list and its columns only. -/
theorem ArchInv_congr {inv : Id} {e e1 : archEngine V} {B : archetypeId}
    (hl : e1.lookup.lookup B = e.lookup.lookup B)
    (hc : ∀ m, column e1.compSliceStorage m B = column e.compSliceStorage m B)
    (h : ArchInv inv e B) : ArchInv inv e1 B := by
  unfold ArchInv at h ⊢
  rw [hl]
  refine ⟨h.1, lockstep_iff.2 ?_⟩
  intro m col hcol
  rw [hc m] at hcol
  exact lockstep_iff.1 h.2 m col hcol

/-- A column exists exactly when an entry of the column-store map has one. -/
theorem column_isSome_iff_entries {st : GoMap componentId (componentSliceStorage V)}
    {A : archetypeId} {m : componentId} :
    (column st m A).isSome ↔ ∃ p ∈ st.entries, p.1 = m ∧ (p.2.slice.lookup A).isSome := by
  constructor
  · intro hm
    obtain ⟨col, hcol⟩ := Option.isSome_iff_exists.1 hm
    obtain ⟨ss, c, h1, h2, _⟩ := column_eq_some.1 hcol
    exact ⟨⟨m, ss⟩, AList.mem_lookup_iff.1 h1, rfl, by rw [h2]; rfl⟩
  · rintro ⟨p, hp, hpm, hs⟩
    have h1 : st.lookup p.1 = some p.2 := AList.mem_lookup_iff.2 hp
    obtain ⟨c, hc⟩ := Option.isSome_iff_exists.1 hs
    rw [← hpm]
    have := column_eq_some.2 ⟨p.2, c, h1, hc, rfl⟩
    rw [this]; rfl

/-- A write that respects the proviso, for an entity other than the sentinel, into an
archetype that satisfies its invariant: it returns and the archetype satisfies its
invariant afterwards. -/
theorem write_ArchInv {inv : Id} {e : archEngine V} {A : archetypeId} {id : Id}
    {comps : List (Component V)} (hinv : ArchInv inv e A) (hid : id ≠ inv)
    (hok : WriteOK e A id comps) :
    ∃ e1, e.write inv A id comps = some e1 ∧ ArchInv inv e1 A := by
  obtain ⟨hwf, hlock⟩ := hinv
  obtain ⟨hok1, hok2⟩ := hok
  have hl0 : (ensureLookup e A).lookup.lookup A =
      some ((e.lookup.lookup A).getD emptyLookup) := ensureLookup_lookup e A
  generalize hlg : (e.lookup.lookup A).getD emptyLookup = l at hwf hlock hok1 hok2 hl0
  have hcols : l.id ≠ [] → ∀ c ∈ comps, (column e.compSliceStorage c.id A).isSome := by
    intro hne
    cases hi : l.index.lookup id with
    | some i => exact hok1 (by rw [hi]; rfl)
    | none => exact (hok2 hi).2 hne
  obtain ⟨e1, e0, index, hwrite, hg, heff⟩ := write_spec id comps hl0 hwf hlock hcols
  obtain ⟨l2, l1, st2, hwf2, hlock2, hpres, hsame, _, hl1, hst, _, _, _, _, hcase⟩ :=
    getOrAddLookupIndex_spec hl0 hwf hlock hg
  obtain ⟨k, hk, hkle, hklt, hlen⟩ := resolved_slot_bound hwf2 hcase
  have hwf1 : l1.WF inv := by
    rcases hcase with ⟨_, h2⟩ | ⟨h1, h2⟩
    · rw [h2]; exact hwf2
    · exact addToEasiestHole_WF hwf2 hid h1 h2
  have hl1b : e1.lookup.lookup A = some l1 := by rw [heff.lookup]; exact hl1
  refine ⟨e1, hwrite, ?_⟩
  unfold ArchInv
  rw [hl1b]
  simp only [Option.getD_some]
  refine ⟨hwf1, lockstep_iff.2 ?_⟩
  intro m col hcol
  have hnew : l1.id.length = l2.id.length + 1 → l.index.lookup id = none := by
    intro hgrow
    rcases hcase with ⟨_, h2⟩ | ⟨h1, _⟩
    · rw [h2] at hgrow; omega
    · have := hpres.keys id
      rw [h1] at this
      cases hi : l.index.lookup id with
      | none => rfl
      | some i => rw [hi] at this; cases this
  cases hsup : supplied comps m with
  | some v =>
    obtain ⟨col1, k1, hk1, _, hcol1, hlen1, _, _⟩ := heff.written m v hsup
    rw [hcol1] at hcol
    cases hcol
    have hkk : k1 = k := by omega
    subst hkk
    rw [hst] at hlen1
    cases hold : column st2 m A with
    | some old =>
      rw [hold] at hlen1
      simp only [Option.getD_some] at hlen1
      have := lockstep_iff.1 hlock2 m old hold
      rw [hlen1, this, Nat.max_def]
      split <;> omega
    | none =>
      rw [hold] at hlen1
      simp only [Option.getD_none, List.length_nil] at hlen1
      -- the column is new, so the archetype had no slot
      have hnocol : ¬ (column e.compSliceStorage m A).isSome := by
        rw [← hpres.cols m, hold]
        simp
      obtain ⟨c, hc, hcm⟩ := supplied_some_mem hsup
      have hidnil : l.id = [] := by
        by_contra hne
        exact hnocol (hcm ▸ hcols hne c hc)
      have hhole := holes_nil_of_id_nil hwf hidnil
      have hlt : l.holes.length < 1024 := by rw [hhole]; simp
      obtain ⟨h2, _⟩ := hsame hlt
      rw [h2, hidnil] at hkle hlen
      simp only [List.length_nil] at hkle hlen
      rw [hlen1, Nat.max_def]
      split <;> omega
  | none =>
    rw [(heff.untouched m hsup).1, hst] at hcol
    have hlen2 := lockstep_iff.1 hlock2 m col hcol
    rw [hlen2]
    rcases hlen with h | ⟨h, _⟩
    · exact h.symm
    · exfalso
      have hnone := hnew h
      have hex : (column e.compSliceStorage m A).isSome := by
        rw [← hpres.cols m, hcol]; rfl
      obtain ⟨p, hp, hpm, hps⟩ := column_isSome_iff_entries.1 hex
      have := (hok2 hnone).1 p hp hps
      rw [hpm, hsup] at this
      cases this

end engineinv

section engineinv2
variable {V : Type}

/-- The new engine satisfies the engine invariant. -/
theorem newArchEngine_ArchInv (inv : Id) (A : archetypeId) :
    ArchInv inv (newArchEngine : archEngine V) A := by
  unfold ArchInv
  refine ⟨emptyLookup_WF inv, lockstep_iff.2 ?_⟩
  intro m col hcol
  obtain ⟨ss, c, h1, _, _⟩ := column_eq_some.1 hcol
  cases h1

/-- A write that respects the proviso keeps the invariant of every archetype. -/
theorem write_EngineInv {inv : Id} {e : archEngine V} {A : archetypeId} {id : Id}
    {comps : List (Component V)} (hinv : ∀ B, ArchInv inv e B) (hid : id ≠ inv)
    (hok : WriteOK e A id comps) :
    ∃ e1, e.write inv A id comps = some e1 ∧ ∀ B, ArchInv inv e1 B := by
  obtain ⟨e1, hw, hA⟩ := write_ArchInv (hinv A) hid hok
  refine ⟨e1, hw, ?_⟩
  intro B
  by_cases hBA : B = A
  · subst hBA; exact hA
  · obtain ⟨f1, f2, _, _⟩ := write_frame hw
    exact ArchInv_congr (f1 B hBA) (fun m => f2 m B hBA) (hinv B)

/-- The call `TagForDeletion` keeps the invariant of every archetype. -/
theorem TagForDeletion_EngineInv {inv : Id} {e e1 : archEngine V} {A : archetypeId} {id : Id}
    (hinv : ∀ B, ArchInv inv e B) (h : e.TagForDeletion inv A id = some e1) :
    ∀ B, ArchInv inv e1 B := by
  obtain ⟨l, i, hl, hi, hlt, he1⟩ := TagForDeletion_spec h
  subst he1
  intro B
  by_cases hBA : B = A
  · subst hBA
    have hA := hinv B
    unfold ArchInv at hA ⊢
    rw [hl] at hA
    simp only [Option.getD_some] at hA
    simp only [AList.lookup_insert, Option.getD_some, List.length_set]
    exact ⟨TagForDeletion_WF hA.1 hi, hA.2⟩
  · exact ArchInv_congr (AList.lookup_insert_ne hBA) (fun _ => rfl) (hinv B)

/-- The call `TagForDeletion` returns exactly when the entity is live in the archetype. -/
theorem TagForDeletion_isSome {inv : Id} {e : archEngine V} {A : archetypeId} {id : Id}
    (hinv : ArchInv inv e A) :
    (e.TagForDeletion inv A id).isSome =
      (((e.lookup.lookup A).getD emptyLookup).index.lookup id).isSome := by
  cases hl : e.lookup.lookup A with
  | none =>
    unfold archEngine.TagForDeletion
    rw [hl]
    rfl
  | some l =>
    unfold ArchInv at hinv
    rw [hl] at hinv
    simp only [Option.getD_some] at hinv ⊢
    cases hi : l.index.lookup id with
    | none =>
      unfold archEngine.TagForDeletion
      rw [hl]
      simp only
      rw [hi]
      rfl
    | some i =>
      obtain ⟨k, _, _, ht⟩ := TagForDeletion_of_WF hl hinv.1 hi
      rw [ht]
      rfl

/-- The call `CleanupHoles` returns exactly when the archetype has a lookup list, and keeps
the invariant of every archetype. -/
theorem CleanupHoles_EngineInv {inv : Id} {e : archEngine V} {A : archetypeId}
    (hinv : ∀ B, ArchInv inv e B) :
    (e.CleanupHoles inv A).isSome = (e.lookup.lookup A).isSome ∧
    ∀ e1, e.CleanupHoles inv A = some e1 → ∀ B, ArchInv inv e1 B := by
  cases hl : e.lookup.lookup A with
  | none =>
    unfold archEngine.CleanupHoles
    rw [hl]
    exact ⟨rfl, fun e1 h => by cases h⟩
  | some l =>
    have hA := hinv A
    unfold ArchInv at hA
    rw [hl] at hA
    simp only [Option.getD_some] at hA
    obtain ⟨l1, st1, hc, hholes, hci, hpres⟩ := CleanupHoles_spec hl hA.1 hA.2
    rw [hc]
    refine ⟨rfl, ?_⟩
    intro e1 he1 B
    simp only [Option.some.injEq] at he1
    subst he1
    by_cases hBA : B = A
    · subst hBA
      obtain ⟨hwf, hlock, _⟩ := CleanupInv.to_WF hci hholes
      unfold ArchInv
      simp only [AList.lookup_insert, Option.getD_some]
      exact ⟨hwf, hlock⟩
    · exact ArchInv_congr (AList.lookup_insert_ne hBA) (fun m => hpres.others m B hBA) (hinv B)

/-- The proviso of a write depends on the lookup list of the archetype and on the column
stores only. -/
theorem WriteOK_congr {e e1 : archEngine V} {B : archetypeId} {id : Id}
    {comps : List (Component V)} (hl : e1.lookup.lookup B = e.lookup.lookup B)
    (hc : e1.compSliceStorage = e.compSliceStorage) (h : WriteOK e B id comps) :
    WriteOK e1 B id comps := by
  unfold WriteOK at h ⊢
  rw [hl, hc]
  exact h

end engineinv2

section engineinv3
variable {V : Type}

/-- The call `rewriteArch` whose write respects the proviso returns exactly when the entity
is live in the archetype, and keeps the invariant of every archetype. -/
theorem rewriteArch_EngineInv {inv : Id}
    {reg : componentRegistry → List componentId → archetypeId × componentRegistry}
    {e : archEngine V} {A : archetypeId} {id : Id} {comps : List (Component V)}
    (hinv : ∀ B, ArchInv inv e B) (hok : RewriteOK reg e A id comps) :
    (e.rewriteArch inv reg A id comps).isSome =
      (((e.lookup.lookup A).getD emptyLookup).index.lookup id).isSome ∧
    ∀ B e1, e.rewriteArch inv reg A id comps = some (B, e1) → ∀ C, ArchInv inv e1 C := by
  have hdead : e.ReadEntity A id = none →
      (e.rewriteArch inv reg A id comps).isSome = false ∧
      ∀ B e1, e.rewriteArch inv reg A id comps = some (B, e1) → ∀ C, ArchInv inv e1 C := by
    intro hr
    have : e.rewriteArch inv reg A id comps = none := by
      unfold archEngine.rewriteArch
      rw [hr]
    rw [this]
    exact ⟨rfl, fun B e1 h => by cases h⟩
  cases hl : e.lookup.lookup A with
  | none =>
    have hr : e.ReadEntity A id = none := by
      unfold archEngine.ReadEntity
      rw [hl]
    obtain ⟨h1, h2⟩ := hdead hr
    exact ⟨by rw [h1]; rfl, h2⟩
  | some l =>
    simp only [Option.getD_some]
    cases hi : l.index.lookup id with
    | none =>
      have hr : e.ReadEntity A id = none := by
        unfold archEngine.ReadEntity
        rw [hl]
        simp only
        rw [hi]
      obtain ⟨h1, h2⟩ := hdead hr
      exact ⟨by rw [h1]; rfl, h2⟩
    | some i =>
      have hA := hinv A
      unfold ArchInv at hA
      rw [hl] at hA
      simp only [Option.getD_some] at hA
      obtain ⟨hwf, hlock⟩ := hA
      obtain ⟨_, _, h3, _, _⟩ := WF_iff.1 hwf
      have hid : id ≠ inv := (h3 id i hi).1
      obtain ⟨ent, hread, _⟩ := ReadEntity_of_WF hl hwf hlock hi
      unfold RewriteOK at hok
      rw [hread] at hok
      simp only at hok
      unfold archEngine.rewriteArch
      rw [hread]
      simp only
      generalize hr : e.GetarchetypeId reg (((ent.Add comps).Comps).map (fun c => c.id)) = r
        at hok ⊢
      have hr1 : r.2.lookup = e.lookup := by rw [← hr]; rfl
      have hr2 : r.2.compSliceStorage = e.compSliceStorage := by rw [← hr]; rfl
      have hinv2 : ∀ B, ArchInv inv r.2 B := fun B =>
        ArchInv_congr (by rw [hr1]) (fun m => by rw [hr2]) (hinv B)
      by_cases hAB : A = r.1
      · rw [if_pos hAB] at hok ⊢
        obtain ⟨e1, hw, hinv1⟩ := write_EngineInv hinv2 hid
          (WriteOK_congr (by rw [hr1]) hr2 hok)
        rw [hw]
        refine ⟨rfl, ?_⟩
        intro B e2 h
        simp only [Option.some.injEq, Prod.mk.injEq] at h
        rw [← h.2]
        exact hinv1
      · rw [if_neg hAB] at hok ⊢
        have hl2 : r.2.lookup.lookup A = some l := by rw [hr1]; exact hl
        obtain ⟨k, _, _, ht⟩ := TagForDeletion_of_WF hl2 hwf hi
        rw [ht]
        simp only
        have hinv3 := TagForDeletion_EngineInv hinv2 ht
        have hne : r.1 ≠ A := fun h => hAB h.symm
        obtain ⟨e1, hw, hinv1⟩ := write_EngineInv hinv3 hid
          (WriteOK_congr
            (by
              show AList.lookup r.1 (AList.insert A _ r.2.lookup) = _
              rw [AList.lookup_insert_ne hne, hr1])
            hr2 hok)
        rw [hw]
        refine ⟨rfl, ?_⟩
        intro B e2 h
        simp only [Option.some.injEq, Prod.mk.injEq] at h
        rw [← h.2]
        exact hinv1

/-- Every engine operation keeps the invariant of every archetype. -/
theorem engineStep_EngineInv {inv : Id}
    {reg : componentRegistry → List componentId → archetypeId × componentRegistry}
    {e e1 : archEngine V} (hstep : engineStep inv reg e e1) (hinv : ∀ B, ArchInv inv e B) :
    ∀ B, ArchInv inv e1 B := by
  cases hstep with
  | write hid hok hw =>
    obtain ⟨e2, hw2, h2⟩ := write_EngineInv hinv hid hok
    rw [hw] at hw2
    simp only [Option.some.injEq] at hw2
    rw [hw2]
    exact h2
  | tag ht => exact TagForDeletion_EngineInv hinv ht
  | cleanup hc => exact (CleanupHoles_EngineInv hinv).2 _ hc
  | rewrite hok hr => exact (rewriteArch_EngineInv hinv hok).2 _ _ hr

/-- Every state reached from the new engine by engine operations satisfies the invariant of
every archetype. -/
theorem reachable_EngineInv {inv : Id}
    {reg : componentRegistry → List componentId → archetypeId × componentRegistry}
    {e : archEngine V}
    (hreach : Relation.ReflTransGen (engineStep inv reg) (newArchEngine : archEngine V) e) :
    ∀ B, ArchInv inv e B := by
  induction hreach with
  | refl => exact newArchEngine_ArchInv inv
  | tail _ hstep ih => exact engineStep_EngineInv hstep ih

end engineinv3

/-- The tagged scenario is reached from the new engine by two writes and a deletion tag. -/
theorem scenarioTagged_reachable :
    Relation.ReflTransGen (engineStep 0 (constRegistry 7))
      (newArchEngine : archEngine (Int × Int)) scenarioTagged := by
  have s1 : engineStep 0 (constRegistry 7) (newArchEngine : archEngine (Int × Int))
      scenarioOne :=
    @engineStep.write (Int × Int) 0 (constRegistry 7) _ _ 7 1 [C 1 (0, 0)]
      (by decide) (by decide) (by decide)
  have s2 : engineStep 0 (constRegistry 7) scenarioOne scenarioBoth :=
    @engineStep.write (Int × Int) 0 (constRegistry 7) _ _ 7 2 [C 1 (1, 1)]
      (by decide) (by decide) (by decide)
  have s3 : engineStep 0 (constRegistry 7) scenarioBoth scenarioTagged :=
    @engineStep.tag (Int × Int) 0 (constRegistry 7) _ _ 7 1 (by decide)
  exact ((Relation.ReflTransGen.single s1).tail s2).tail s3

/-- C10, as stated, fails: in the tagged scenario (archetype 7 with one column, slot 0 a
pending hole, `len(id) = 2`) a write for the new entity 3 that supplies the component type
of the archetype and one more reuses slot 0 and creates the second column with a single
row. -/
theorem write_extra_component_counterexample :
    ¬ (∀ (e : archEngine (Int × Int)) (A : archetypeId) (id : Id)
        (comps : List (Component (Int × Int))) (e1 : archEngine (Int × Int)),
        EngineInv 0 e → id ≠ 0 → StatedProviso e A id comps →
        e.write 0 A id comps = some e1 →
        ∀ l m col, e1.lookup.lookup A = some l →
          column e1.compSliceStorage m A = some col → col.length = l.id.length) := by
  intro h
  have hs : (scenarioTagged.write 0 7 3 [C 1 (5, 5), C 2 (9, 9)]).isSome = true := by decide
  obtain ⟨e1, he1⟩ := Option.isSome_iff_exists.1 hs
  have hl : (scenarioTagged.write 0 7 3 [C 1 (5, 5), C 2 (9, 9)]).bind
      (fun e2 => (e2.lookup.lookup 7).map (fun l => l.id.length)) = some 2 := by decide
  have hc : (scenarioTagged.write 0 7 3 [C 1 (5, 5), C 2 (9, 9)]).bind
      (fun e2 => column e2.compSliceStorage 2 7) = some [(9, 9)] := by decide
  rw [he1] at hl hc
  simp only [Option.some_bind] at hl hc
  obtain ⟨l, hl1, hl2⟩ := Option.map_eq_some'.1 hl
  have := h scenarioTagged 7 3 [C 1 (5, 5), C 2 (9, 9)] e1 (by decide) (by decide) (by decide)
    he1 l 2 [(9, 9)] hl1 hc
  rw [hl2] at this
  exact absurd this (by decide)

section lockstep
variable {V : Type}

/-- C10, amended: column lockstep invariant.  In every state reached from the new engine by
`write`, `TagForDeletion`, `CleanupHoles` and `rewriteArch` calls, every column that exists
for an archetype has exactly `len(id)` rows, provided each write (also the one made by
`rewriteArch`) is for an entity other than `InvalidEntity` and respects `WriteOK`: for an
entity not yet in the archetype it supplies a value for every component type of the
archetype and, once the archetype has a slot, no other; for an entity already in it it
supplies only component types of the archetype.  In such a state a write that respects
the proviso returns, `TagForDeletion` and `rewriteArch` return exactly when the entity is
live in the archetype, and `CleanupHoles` returns exactly when the archetype has a lookup
list. -/
theorem column_lockstep (InvalidEntity : Id)
    (getArchetypeId : componentRegistry → List componentId → archetypeId × componentRegistry)
    (e : archEngine V)
    (hreach : Relation.ReflTransGen (engineStep InvalidEntity getArchetypeId)
      (newArchEngine : archEngine V) e) :
    (∀ (archId : archetypeId) (l : lookupList) (m : componentId) (col : List V),
      e.lookup.lookup archId = some l → column e.compSliceStorage m archId = some col →
      col.length = l.id.length) ∧
    (∀ (archId : archetypeId) (id : Id) (comp : List (Component V)),
      id ≠ InvalidEntity → WriteOK e archId id comp →
      (e.write InvalidEntity archId id comp).isSome) ∧
    (∀ (archId : archetypeId) (id : Id),
      (e.TagForDeletion InvalidEntity archId id).isSome =
        (((e.lookup.lookup archId).getD emptyLookup).index.lookup id).isSome) ∧
    (∀ (archId : archetypeId),
      (e.CleanupHoles InvalidEntity archId).isSome = (e.lookup.lookup archId).isSome) ∧
    (∀ (archId : archetypeId) (id : Id) (comp : List (Component V)),
      RewriteOK getArchetypeId e archId id comp →
      (e.rewriteArch InvalidEntity getArchetypeId archId id comp).isSome =
        (((e.lookup.lookup archId).getD emptyLookup).index.lookup id).isSome) := by
  have hinv := reachable_EngineInv hreach
  refine ⟨?_, ?_, ?_, ?_, ?_⟩
  · intro A l m col hl hcol
    have hA := hinv A
    unfold ArchInv at hA
    rw [hl] at hA
    exact lockstep_iff.1 hA.2 m col hcol
  · intro A id comps hid hok
    obtain ⟨e1, hw, _⟩ := write_EngineInv hinv hid hok
    rw [hw]
    rfl
  · intro A id
    exact TagForDeletion_isSome (hinv A)
  · intro A
    exact (CleanupHoles_EngineInv hinv).1
  · intro A id comps hok
    exact (rewriteArch_EngineInv hinv hok).1

end lockstep

/-- Witness for C10 (amended): the tagged scenario, reached by two writes and a deletion
tag, has its one column at `len(id) = 2` rows. -/
theorem column_lockstep_witness :
    Relation.ReflTransGen (engineStep 0 (constRegistry 7))
      (newArchEngine : archEngine (Int × Int)) scenarioTagged ∧
    ((∀ (archId : archetypeId) (l : lookupList) (m : componentId) (col : List (Int × Int)),
      scenarioTagged.lookup.lookup archId = some l →
      column scenarioTagged.compSliceStorage m archId = some col →
      col.length = l.id.length) ∧
    (∀ (archId : archetypeId) (id : Id) (comp : List (Component (Int × Int))),
      id ≠ 0 → WriteOK scenarioTagged archId id comp →
      (scenarioTagged.write 0 archId id comp).isSome) ∧
    (∀ (archId : archetypeId) (id : Id),
      (scenarioTagged.TagForDeletion 0 archId id).isSome =
        (((scenarioTagged.lookup.lookup archId).getD emptyLookup).index.lookup id).isSome) ∧
    (∀ (archId : archetypeId),
      (scenarioTagged.CleanupHoles 0 archId).isSome =
        (scenarioTagged.lookup.lookup archId).isSome) ∧
    (∀ (archId : archetypeId) (id : Id) (comp : List (Component (Int × Int))),
      RewriteOK (constRegistry 7) scenarioTagged archId id comp →
      (scenarioTagged.rewriteArch 0 (constRegistry 7) archId id comp).isSome =
        (((scenarioTagged.lookup.lookup archId).getD emptyLookup).index.lookup id).isSome)) ∧
    scenarioTagged.lookup.lookup 7 = some scenarioLookup ∧
    column scenarioTagged.compSliceStorage 1 7 = some [(0, 0), (1, 1)] ∧
    scenarioLookup.id.length = 2 :=
  ⟨scenarioTagged_reachable,
    column_lockstep 0 (constRegistry 7) scenarioTagged scenarioTagged_reachable,
    by decide, by decide, by decide⟩

section columnops
variable {V : Type}

/-- C14: column write boundary.  `componentSlice.Write(i, v)` on a column of length `n`:
with `i == n` it yields a column of length `n + 1` whose first `n` elements are unchanged
and whose last element is `v`; with `0 <= i < n` it yields a column of length `n` that
holds `v` at position `i` and is unchanged at every other position; with `i > n` or
`i < 0` it fails. -/
theorem Write_boundary (s : componentSlice V) (i : Int) (v : V) :
    (i = (s.comp.length : Int) →
      ∃ s1, s.Write i v = some s1 ∧ s1.comp.length = s.comp.length + 1 ∧
        (∀ j : Nat, j < s.comp.length → s1.comp[j]? = s.comp[j]?) ∧
        s1.comp[s.comp.length]? = some v ∧ s1.comp = s.comp ++ [v]) ∧
    (0 ≤ i → i < (s.comp.length : Int) →
      ∃ s1, s.Write i v = some s1 ∧ s1.comp.length = s.comp.length ∧
        s1.comp[i.toNat]? = some v ∧
        ∀ j : Nat, j ≠ i.toNat → s1.comp[j]? = s.comp[j]?) ∧
    (((s.comp.length : Int) < i ∨ i < 0) → s.Write i v = none) := by
  refine ⟨?_, ?_, ?_⟩
  · intro hi
    refine ⟨{ comp := s.comp ++ [v] }, ?_, by simp, ?_, by simp, rfl⟩
    · unfold componentSlice.Write
      rw [if_pos hi]
    · intro j hj
      simp [List.getElem?_append_left hj]
  · intro h0 hlt
    have hne : i ≠ (s.comp.length : Int) := by omega
    have hlt2 : i.toNat < s.comp.length := by omega
    refine ⟨{ comp := s.comp.set i.toNat v }, ?_, by simp, by simp [hlt2], ?_⟩
    · unfold componentSlice.Write sliceSet
      rw [if_neg hne, if_pos ⟨h0, hlt⟩]
      rfl
    · intro j hj
      simp only
      rw [List.getElem?_set_ne (fun h => hj h.symm)]
  · intro h
    have hne : i ≠ (s.comp.length : Int) := by omega
    unfold componentSlice.Write sliceSet
    rw [if_neg hne, if_neg (by omega)]
    rfl

/-- Swap-remove of the last position drops the last element. -/
theorem swapRemove_last {α : Type} (col : List α) (hpos : 0 < col.length) :
    swapRemove col (col.length - 1) = col.dropLast := by
  apply List.ext_getElem?
  intro j
  by_cases hj : j < col.length - 1
  · rw [getElem?_swapRemove col _ j (by omega) hj, if_neg (by omega),
      List.dropLast_eq_take, List.getElem?_take_of_lt hj]
  · rw [List.getElem?_eq_none, List.getElem?_eq_none]
    · simp only [List.length_dropLast]; omega
    · rw [length_swapRemove col _ (by omega)]; omega

/-- C15: swap-remove delete.  For a column of `archId` and an index `0 <= i < n` (so the
length `n` is at least 1), `Delete(archId, i)` returns and yields a column of length
`n - 1` in which position `i`, when it remains, holds the old last element and every other
remaining position is unchanged; for `i == n - 1` the result is the old column with its
last element dropped; the columns of the other archetypes are unchanged.  When no column
exists for `archId`, `Delete` returns and changes nothing. -/
theorem Delete_swap_remove (ss : componentSliceStorage V) (archId : archetypeId) (i : Int) :
    (∀ c : componentSlice V, ss.slice.lookup archId = some c →
      0 ≤ i → i < (c.comp.length : Int) →
      ∃ (ss1 : componentSliceStorage V) (col : List V),
        ss.Delete archId i = some ss1 ∧ ss1.slice.lookup archId = some { comp := col } ∧
        col.length = c.comp.length - 1 ∧
        (∀ j : Nat, j < c.comp.length - 1 →
          col[j]? = if (j : Int) = i then c.comp[c.comp.length - 1]? else c.comp[j]?) ∧
        (i = (c.comp.length : Int) - 1 → col = c.comp.dropLast) ∧
        ∀ B, B ≠ archId → ss1.slice.lookup B = ss.slice.lookup B) ∧
    (ss.slice.lookup archId = none → ss.Delete archId i = some ss) := by
  refine ⟨?_, fun h => Delete_lookup_none i h⟩
  intro c hc h0 hlt
  obtain ⟨k, hk⟩ : ∃ k : Nat, i = (k : Int) := ⟨i.toNat, by omega⟩
  subst hk
  have hk : k < c.comp.length := by omega
  have hd := Delete_lookup_some k hc hk
  refine ⟨_, swapRemove c.comp k, hd, by simp, length_swapRemove _ _ hk, ?_, ?_, ?_⟩
  · intro j hj
    rw [getElem?_swapRemove _ _ _ hk hj]
    by_cases hjk : j = k
    · rw [if_pos hjk, if_pos (by omega)]
    · rw [if_neg hjk, if_neg (by omega)]
  · intro hlast
    have : k = c.comp.length - 1 := by omega
    rw [this]
    exact swapRemove_last _ (by omega)
  · intro B hB
    exact Delete_lookup_ne hd hB

end columnops

/-- Witness for C14: on the column `[1, 2]`, a write at index 2 appends, a write at index 1
overwrites the second element, and a write at index 3 fails. -/
theorem Write_boundary_witness :
    (∃ s1, (componentSlice.mk [1, 2]).Write 2 9 = some s1 ∧ s1.comp.length = 2 + 1 ∧
        (∀ j : Nat, j < 2 → s1.comp[j]? = [1, 2][j]?) ∧
        s1.comp[2]? = some 9 ∧ s1.comp = [1, 2] ++ [9]) ∧
    (∃ s1, (componentSlice.mk [1, 2]).Write 1 9 = some s1 ∧ s1.comp.length = 2 ∧
        s1.comp[1]? = some 9 ∧ ∀ j : Nat, j ≠ 1 → s1.comp[j]? = [1, 2][j]?) ∧
    (componentSlice.mk [1, 2]).Write 3 9 = none ∧
    (componentSlice.mk [1, 2]).Write 2 9 = some (componentSlice.mk [1, 2, 9]) ∧
    (componentSlice.mk [1, 2]).Write 1 9 = some (componentSlice.mk [1, 9]) :=
  ⟨(Write_boundary (componentSlice.mk [1, 2]) 2 9).1 (by decide),
    (Write_boundary (componentSlice.mk [1, 2]) 1 9).2.1 (by decide) (by decide),
    (Write_boundary (componentSlice.mk [1, 2]) 3 9).2.2 (Or.inl (by decide)),
    by decide, by decide⟩

/-- Witness for C15: in a store whose column of archetype 7 is `[1, 2, 3]`, `Delete(7, 0)`
yields `[3, 2]`, and `Delete(8, 0)`, for an archetype without a column, changes nothing. -/
theorem Delete_swap_remove_witness :
    (∃ (ss1 : componentSliceStorage Nat) (col : List Nat),
        (componentSliceStorage.mk ((∅ : GoMap archetypeId (componentSlice Nat)).insert 7
          (componentSlice.mk [1, 2, 3]))).Delete 7 0 = some ss1 ∧
        ss1.slice.lookup 7 = some { comp := col } ∧
        col.length = 3 - 1 ∧
        (∀ j : Nat, j < 3 - 1 →
          col[j]? = if (j : Int) = 0 then [1, 2, 3][3 - 1]? else [1, 2, 3][j]?) ∧
        ((0 : Int) = 3 - 1 → col = [1, 2, 3].dropLast) ∧
        ∀ B, B ≠ 7 → ss1.slice.lookup B =
          (componentSliceStorage.mk ((∅ : GoMap archetypeId (componentSlice Nat)).insert 7
            (componentSlice.mk [1, 2, 3]))).slice.lookup B) ∧
    (componentSliceStorage.mk ((∅ : GoMap archetypeId (componentSlice Nat)).insert 7
      (componentSlice.mk [1, 2, 3]))).Delete 8 0 =
      some (componentSliceStorage.mk ((∅ : GoMap archetypeId (componentSlice Nat)).insert 7
        (componentSlice.mk [1, 2, 3]))) ∧
    ((componentSliceStorage.mk ((∅ : GoMap archetypeId (componentSlice Nat)).insert 7
      (componentSlice.mk [1, 2, 3]))).Delete 7 0).bind (fun ss1 => ss1.slice.lookup 7) =
      some (componentSlice.mk [3, 2]) :=
  ⟨(Delete_swap_remove (componentSliceStorage.mk
      ((∅ : GoMap archetypeId (componentSlice Nat)).insert 7 (componentSlice.mk [1, 2, 3])))
      7 0).1 (componentSlice.mk [1, 2, 3]) (by decide) (by decide) (by decide),
    (Delete_swap_remove (componentSliceStorage.mk
      ((∅ : GoMap archetypeId (componentSlice Nat)).insert 7 (componentSlice.mk [1, 2, 3])))
      8 0).2 (by decide),
    by decide⟩

section emptyquery
variable {V : Type}

/-- C18: an empty filter query is a precondition failure.  For every engine state and
every buffer, `FilterList` called with an empty list of component ids panics (the read
of `e.filterLists[0]` is out of range), and so does `count` called with no component
types, for every state of the name registry. -/
theorem FilterList_empty_query (g : nameRegistry) (e : archEngine V)
    (archIds : List archetypeId) :
    e.FilterList archIds [] = none ∧ archEngine.count g e [] = none := by
  have h : ∀ ids : List archetypeId, e.FilterList ids [] = none := by
    intro ids
    unfold archEngine.FilterList
    simp
  refine ⟨h archIds, ?_⟩
  unfold archEngine.count
  simp only [List.foldl_nil]
  rw [h]

end emptyquery

section slotresolution
variable {V : Type}

/-- Below the compaction threshold `getOrAddLookupIndex` is the slot resolution alone. -/
theorem getOrAddLookupIndex_below (inv : Id) {e : archEngine V} {A : archetypeId}
    {l : lookupList} (id : Id) (hl : e.lookup.lookup A = some l)
    (hlt : l.holes.length < 1024) :
    e.getOrAddLookupIndex inv A id = resolveSlot e A id := by
  have he : ensureLookup e A = e := by
    unfold ensureLookup
    rw [hl]
  rw [getOrAddLookupIndex_eq, he, hl]
  simp only
  rw [if_neg (by omega)]

/-- The call `addToEasiestHole` when a hole is recorded and the last one is a slot. -/
theorem addToEasiestHole_hole {l : lookupList} {hs : List Int} {h : Int} (id : Id)
    (hh : l.holes = hs ++ [h]) (h0 : 0 ≤ h) (hlt : h < (l.id.length : Int)) :
    l.addToEasiestHole id =
      some (h, { index := l.index.insert id h, id := l.id.set h.toNat id, holes := hs }) := by
  unfold lookupList.addToEasiestHole sliceSet
  rw [if_pos (by rw [hh]; simp)]
  simp only [hh, List.length_append, List.length_singleton, Nat.add_sub_cancel,
    List.getElem?_concat_length, List.take_left', if_pos (And.intro h0 hlt)]

/-- The call `addToEasiestHole` when no hole is recorded. -/
theorem addToEasiestHole_append {l : lookupList} (id : Id) (hh : l.holes = []) :
    l.addToEasiestHole id =
      some ((l.id.length : Int),
        { index := l.index.insert id (l.id.length : Int), id := l.id ++ [id], holes := [] }) := by
  unfold lookupList.addToEasiestHole
  rw [if_neg (by rw [hh]; simp)]
  simp only [hh, List.length_append, List.length_singleton, Nat.cast_add, Nat.cast_one,
    add_sub_cancel_right]

/-- C12: slot resolution.  For an archetype whose lookup list `l` has fewer than 1024
pending holes, `getOrAddLookupIndex(archId, id)`: returns `index[id]` and changes nothing
when `id` is present; when `id` is absent and `holes` is non-empty (its last element `h`
being a slot of `id`, as in every well-formed list) it returns `h`, removes exactly that
element from `holes` and sets `id[h] = id` and `index[id] = h`; when `id` is absent and
`holes` is empty it returns the old `len(id)`, appends `id` to the reverse array and sets
`index[id]`; in all cases the forward mapping of every other entity, every other slot of
the reverse array, the other lookup lists and the columns are unchanged. -/
theorem getOrAddLookupIndex_resolution (InvalidEntity : Id) (e : archEngine V)
    (archId : archetypeId) (l : lookupList) (id : Id)
    (hl : e.lookup.lookup archId = some l) (hlt : l.holes.length < 1024) :
    (∀ s, l.index.lookup id = some s →
      e.getOrAddLookupIndex InvalidEntity archId id = some (s, e)) ∧
    (l.index.lookup id = none → ∀ (hs : List Int) (h : Int), l.holes = hs ++ [h] →
      0 ≤ h → h < (l.id.length : Int) →
      e.getOrAddLookupIndex InvalidEntity archId id =
        some (h, { e with lookup := e.lookup.insert archId (lookupList.mk
          (l.index.insert id h) (l.id.set h.toNat id) hs) })) ∧
    (l.index.lookup id = none → l.holes = [] →
      e.getOrAddLookupIndex InvalidEntity archId id =
        some ((l.id.length : Int), { e with lookup := e.lookup.insert archId (lookupList.mk
          (l.index.insert id (l.id.length : Int)) (l.id ++ [id]) []) })) ∧
    (∀ s e1, e.getOrAddLookupIndex InvalidEntity archId id = some (s, e1) →
      ∃ l1, e1.lookup.lookup archId = some l1 ∧ l1.index.lookup id = some s ∧
        (∀ other, other ≠ id → l1.index.lookup other = l.index.lookup other) ∧
        (∀ j : Nat, (j : Int) ≠ s → j < l.id.length → l1.id[j]? = l.id[j]?) ∧
        (∀ B, B ≠ archId → e1.lookup.lookup B = e.lookup.lookup B) ∧
        e1.compSliceStorage = e.compSliceStorage ∧ e1.dcr = e.dcr ∧
        e1.filterLists = e.filterLists) := by
  have hbelow := getOrAddLookupIndex_below InvalidEntity id hl hlt
  refine ⟨?_, ?_, ?_, ?_⟩
  · intro s hs
    rw [hbelow]
    unfold resolveSlot
    rw [hl]
    simp only
    rw [hs]
  · intro hi hs h hh h0 hlt2
    rw [hbelow]
    unfold resolveSlot
    rw [hl]
    simp only
    rw [hi]
    simp only
    rw [addToEasiestHole_hole id hh h0 hlt2]
  · intro hi hh
    rw [hbelow]
    unfold resolveSlot
    rw [hl]
    simp only
    rw [hi]
    simp only
    rw [addToEasiestHole_append id hh]
  · intro s e1 hg
    rw [hbelow] at hg
    obtain ⟨l3, l1, hl3, hl1, hi, hoth, hst, hdcr, hfl, hcase⟩ := resolveSlot_spec hg
    rw [hl] at hl3
    cases hl3
    refine ⟨l1, hl1, hi, ?_, ?_, hoth, hst, hdcr, hfl⟩
    · intro other hne
      rcases hcase with ⟨_, h2, _⟩ | ⟨_, h2⟩
      · rw [h2]
      · rcases addToEasiestHole_spec h2 with ⟨hs, i, _, _, _, h3⟩ | ⟨_, _, h3⟩
        · rw [h3]
          exact AList.lookup_insert_ne hne
        · rw [h3]
          exact AList.lookup_insert_ne hne
    · intro j hj hjl
      rcases hcase with ⟨_, h2, _⟩ | ⟨_, h2⟩
      · rw [h2]
      · rcases addToEasiestHole_spec h2 with ⟨hs, i, _, hsi, _, h3⟩ | ⟨_, _, h3⟩
        · rw [h3]
          simp only
          rw [List.getElem?_set_ne]
          intro hij
          apply hj
          rw [hsi, hij]
        · rw [h3]
          simp only
          rw [List.getElem?_append_left hjl]

end slotresolution

/-- Witness for C12: in the tagged scenario (entity 2 in slot 1, slot 0 a pending hole)
entity 2 resolves to its slot 1 with no change and the new entity 3 takes the hole 0; in
the scenario after the first write (no hole) the new entity 5 is appended at slot 1. -/
theorem getOrAddLookupIndex_resolution_witness :
    scenarioTagged.getOrAddLookupIndex 0 7 2 = some (1, scenarioTagged) ∧
    scenarioTagged.getOrAddLookupIndex 0 7 3 =
      some (0, { scenarioTagged with lookup := scenarioTagged.lookup.insert 7 (lookupList.mk
        (scenarioLookup.index.insert 3 0) (scenarioLookup.id.set (0 : Int).toNat 3) []) }) ∧
    scenarioOne.getOrAddLookupIndex 0 7 5 =
      some ((([1] : List Id).length : Int),
        { scenarioOne with lookup := scenarioOne.lookup.insert 7 (lookupList.mk
          (((∅ : GoMap Id Int).insert 1 0).insert 5 (([1] : List Id).length : Int))
          ([1] ++ [5]) []) }) ∧
    (scenarioTagged.getOrAddLookupIndex 0 7 3).bind (fun r => r.2.lookup.lookup 7) =
      some (lookupList.mk (((∅ : GoMap Id Int).insert 2 1).insert 3 0) [3, 2] []) :=
  ⟨(getOrAddLookupIndex_resolution 0 scenarioTagged 7 scenarioLookup 2
      (by decide) (by decide)).1 1 (by decide),
    (getOrAddLookupIndex_resolution 0 scenarioTagged 7 scenarioLookup 3
      (by decide) (by decide)).2.1 (by decide) [] 0 (by decide) (by decide) (by decide),
    (getOrAddLookupIndex_resolution 0 scenarioOne 7
      (lookupList.mk ((∅ : GoMap Id Int).insert 1 0) [1] []) 5
      (by decide) (by decide)).2.2.1 (by decide) (by decide),
    by decide⟩

section tageffect
variable {V : Type}

/-- C13: tag-for-deletion effect.  For an entity `id` live in archetype `archId` at slot
`s` (`index[id] == s` and `id[s] == id`), `TagForDeletion(archId, id)` returns; it sets
`id[s]` to `InvalidEntity`, removes `id` from `index` and appends `s` as the last element
of `holes`; `len(id)`, every other slot, every other forward mapping, the lookup lists of
the other archetypes and the column stores (so every column, the stale row `s` included)
are unchanged; afterwards `readArch(archId, id)` reports not found for every component
type. -/
theorem TagForDeletion_effect (InvalidEntity : Id) (e : archEngine V) (archId : archetypeId)
    (l : lookupList) (id : Id) (s : Int)
    (hl : e.lookup.lookup archId = some l) (hi : l.index.lookup id = some s)
    (hlive : sliceGet l.id s = some id) :
    ∃ (e1 : archEngine V) (l1 : lookupList),
      e.TagForDeletion InvalidEntity archId id = some e1 ∧
      e1.lookup.lookup archId = some l1 ∧
      sliceGet l1.id s = some InvalidEntity ∧
      l1.index.lookup id = none ∧
      l1.holes = l.holes ++ [s] ∧
      l1.id.length = l.id.length ∧
      (∀ j : Int, j ≠ s → sliceGet l1.id j = sliceGet l.id j) ∧
      (∀ other, other ≠ id → l1.index.lookup other = l.index.lookup other) ∧
      (∀ B, B ≠ archId → e1.lookup.lookup B = e.lookup.lookup B) ∧
      e1.compSliceStorage = e.compSliceStorage ∧ e1.dcr = e.dcr ∧
      e1.filterLists = e.filterLists ∧
      ∀ n, readArch e1 archId id n = some none := by
  obtain ⟨k, hk, hgk⟩ := sliceGet_eq_some hlive
  subst hk
  have hklt : k < l.id.length := (List.getElem?_eq_some_iff.1 hgk).1
  have ht : e.TagForDeletion InvalidEntity archId id =
      some { e with lookup := e.lookup.insert archId (lookupList.mk (l.index.erase id)
        (l.id.set k InvalidEntity) (l.holes ++ [(k : Int)])) } := by
    unfold archEngine.TagForDeletion
    rw [hl]
    simp only
    rw [hi]
    simp only
    rw [sliceSet_natCast, if_pos hklt]
  refine ⟨_, _, ht, AList.lookup_insert _, ?_, ?_, rfl, ?_, ?_, ?_, ?_, rfl, rfl, rfl, ?_⟩
  · rw [sliceGet_natCast]
    simp [hklt]
  · simp
  · simp
  · intro j hj
    unfold sliceGet
    split
    · rename_i h0
      simp only
      rw [List.getElem?_set_ne]
      intro hkj
      apply hj
      omega
    · rfl
  · intro other hne
    simp only
    exact AList.lookup_erase_ne hne
  · intro B hB
    exact AList.lookup_insert_ne hB
  · intro n
    unfold readArch
    simp
end tageffect

/-- Witness for C13: in the scenario after its two writes, entity 1 (slot 0) is tagged for
deletion; the result is the tagged scenario, whose column still holds the stale row. -/
theorem TagForDeletion_effect_witness :
    (∃ (e1 : archEngine (Int × Int)) (l1 : lookupList),
      scenarioBoth.TagForDeletion 0 7 1 = some e1 ∧
      e1.lookup.lookup 7 = some l1 ∧
      sliceGet l1.id 0 = some 0 ∧
      l1.index.lookup 1 = none ∧
      l1.holes = twoEntitiesLookup.holes ++ [0] ∧
      l1.id.length = twoEntitiesLookup.id.length ∧
      (∀ j : Int, j ≠ 0 → sliceGet l1.id j = sliceGet twoEntitiesLookup.id j) ∧
      (∀ other, other ≠ 1 → l1.index.lookup other = twoEntitiesLookup.index.lookup other) ∧
      (∀ B, B ≠ 7 → e1.lookup.lookup B = scenarioBoth.lookup.lookup B) ∧
      e1.compSliceStorage = scenarioBoth.compSliceStorage ∧ e1.dcr = scenarioBoth.dcr ∧
      e1.filterLists = scenarioBoth.filterLists ∧
      ∀ n, readArch e1 7 1 n = some none) ∧
    scenarioBoth.TagForDeletion 0 7 1 = some scenarioTagged ∧
    column scenarioTagged.compSliceStorage 1 7 = some [(0, 0), (1, 1)] :=
  ⟨TagForDeletion_effect 0 scenarioBoth 7 twoEntitiesLookup 1 0
      (by decide) (by decide) (by decide),
    by decide, by decide⟩

section threshold
variable {V : Type}

/-- After `CleanupHoles` returns, the archetype has no pending hole. -/
theorem CleanupHoles_holes {inv : Id} {e e1 : archEngine V} {A : archetypeId}
    (h : e.CleanupHoles inv A = some e1) :
    ∃ l1, e1.lookup.lookup A = some l1 ∧ l1.holes = [] := by
  unfold archEngine.CleanupHoles at h
  split at h
  · cases h
  · split at h
    · cases h
    · simp only [Option.some.injEq] at h
      subst h
      exact ⟨_, AList.lookup_insert _, by simp⟩

/-- The slot resolution removes at most the last pending hole, and maps the entity to a
slot that holds it. -/
theorem resolveSlot_holes {e e1 : archEngine V} {A : archetypeId} {id : Id} {s : Int}
    {l : lookupList} (hl : e.lookup.lookup A = some l)
    (h : resolveSlot e A id = some (s, e1)) :
    ∃ l1, e1.lookup.lookup A = some l1 ∧ l1.index.lookup id = some s ∧
      l1.holes.length ≤ l.holes.length ∧ l.holes.length ≤ l1.holes.length + 1 ∧
      (l.index.lookup id = none → sliceGet l1.id s = some id) ∧
      (l.index.lookup id = some s → l1 = l) ∧ e1.compSliceStorage = e.compSliceStorage := by
  obtain ⟨l0, l1, hl0, hl1, hi, _, hst, _, _, hcase⟩ := resolveSlot_spec h
  rw [hl] at hl0
  cases hl0
  refine ⟨l1, hl1, hi, ?_⟩
  rcases hcase with ⟨h1, h2, _⟩ | ⟨h1, h2⟩
  · rw [h2]
    exact ⟨le_refl _, by omega, fun hn => absurd (hn.symm.trans h1) (by simp), fun _ => rfl, hst⟩
  · rcases addToEasiestHole_spec h2 with ⟨hs, i, hh, hsi, hlt, h3⟩ | ⟨hh, hsi, h3⟩
    · rw [h3, hh]
      refine ⟨by simp, by simp, ?_, fun hn => absurd (hn.symm.trans h1) (by simp), hst⟩
      intro _
      rw [hsi, sliceGet_natCast]
      simp [hlt]
    · rw [h3, hh]
      refine ⟨by simp, by simp, ?_, fun hn => absurd (hn.symm.trans h1) (by simp), hst⟩
      intro _
      rw [hsi, sliceGet_natCast]
      simp

/-- The compaction threshold of `getOrAddLookupIndex`, as an equation. -/
theorem getOrAddLookupIndex_threshold (inv : Id) (e : archEngine V) (A : archetypeId)
    (id : Id) :
    e.getOrAddLookupIndex inv A id =
      if 1024 ≤ ((e.lookup.lookup A).getD emptyLookup).holes.length then
        (e.CleanupHoles inv A).bind (fun e2 => resolveSlot e2 A id)
      else resolveSlot (ensureLookup e A) A id := by
  rw [getOrAddLookupIndex_eq, ensureLookup_lookup]
  simp only
  by_cases hge : 1024 ≤ ((e.lookup.lookup A).getD emptyLookup).holes.length
  · have he : ensureLookup e A = e := by
      unfold ensureLookup
      cases hl : e.lookup.lookup A with
      | some l => rfl
      | none =>
        rw [hl] at hge
        simp [emptyLookup] at hge
    have hge2 : (((e.lookup.lookup A).getD emptyLookup).holes.length : Int) ≥ 1024 := by
      omega
    rw [if_pos hge, he]
    unfold emptyLookup at hge2
    rw [if_pos hge2]
    cases e.CleanupHoles inv A <;> rfl
  · have hge2 : ¬ (((e.lookup.lookup A).getD emptyLookup).holes.length : Int) ≥ 1024 := by
      omega
    rw [if_neg hge]
    unfold emptyLookup at hge2
    rw [if_neg hge2]

/-- After `getOrAddLookupIndex` returns, the archetype has at most 1023 pending holes. -/
theorem getOrAddLookupIndex_holes {inv : Id} {e e1 : archEngine V} {A : archetypeId}
    {id : Id} {s : Int} (h : e.getOrAddLookupIndex inv A id = some (s, e1)) :
    ∃ l1, e1.lookup.lookup A = some l1 ∧ l1.holes.length ≤ 1023 := by
  rw [getOrAddLookupIndex_threshold] at h
  by_cases hge : 1024 ≤ ((e.lookup.lookup A).getD emptyLookup).holes.length
  · rw [if_pos hge] at h
    cases hc : e.CleanupHoles inv A with
    | none => rw [hc] at h; cases h
    | some e2 =>
      rw [hc] at h
      obtain ⟨l2, hl2, hh2⟩ := CleanupHoles_holes hc
      obtain ⟨l1, hl1, _, hle, _⟩ := resolveSlot_holes hl2 h
      refine ⟨l1, hl1, ?_⟩
      rw [hh2] at hle
      simp only [List.length_nil] at hle
      omega
  · rw [if_neg hge] at h
    have hl0 := ensureLookup_lookup e A
    obtain ⟨l1, hl1, _, hle, _⟩ := resolveSlot_holes hl0 h
    refine ⟨l1, hl1, ?_⟩
    unfold emptyLookup at hge
    omega

/-- C19: automatic compaction threshold.  `getOrAddLookupIndex` runs `CleanupHoles` on the
archetype before it resolves the slot exactly when the archetype has 1024 or more pending
holes (first conjunct).  On a well-formed archetype with columns in lockstep it returns a
slot that is valid afterwards (`index[id] == slot` and `id[slot] == id`); when 1024 or more
holes were pending no hole is left, and otherwise the columns are untouched and at most the
last hole is consumed (second conjunct).  After every write to the archetype its
pending-hole count is at most 1023 (third conjunct). -/
theorem compaction_threshold (InvalidEntity : Id) (e : archEngine V) (archId : archetypeId)
    (id : Id) :
    (e.getOrAddLookupIndex InvalidEntity archId id =
      if 1024 ≤ ((e.lookup.lookup archId).getD emptyLookup).holes.length then
        (e.CleanupHoles InvalidEntity archId).bind (fun e2 => resolveSlot e2 archId id)
      else resolveSlot (ensureLookup e archId) archId id) ∧
    (ArchInv InvalidEntity e archId →
      ∃ (s : Int) (e1 : archEngine V) (l1 : lookupList),
        e.getOrAddLookupIndex InvalidEntity archId id = some (s, e1) ∧
        e1.lookup.lookup archId = some l1 ∧
        l1.index.lookup id = some s ∧ sliceGet l1.id s = some id ∧
        (1024 ≤ ((e.lookup.lookup archId).getD emptyLookup).holes.length → l1.holes = []) ∧
        (((e.lookup.lookup archId).getD emptyLookup).holes.length < 1024 →
          e1.compSliceStorage = e.compSliceStorage ∧
          ((e.lookup.lookup archId).getD emptyLookup).holes.length ≤ l1.holes.length + 1)) ∧
    (∀ (comp : List (Component V)) (e1 : archEngine V) (l1 : lookupList),
      e.write InvalidEntity archId id comp = some e1 → e1.lookup.lookup archId = some l1 →
      l1.holes.length ≤ 1023) := by
  refine ⟨getOrAddLookupIndex_threshold _ _ _ _, ?_, ?_⟩
  · rintro ⟨hwf, hlock⟩
    have hl0 : (ensureLookup e archId).lookup.lookup archId =
        some ((e.lookup.lookup archId).getD emptyLookup) := ensureLookup_lookup e archId
    obtain ⟨r, hg⟩ := Option.isSome_iff_exists.1
      (getOrAddLookupIndex_isSome hl0 hwf hlock id)
    obtain ⟨s, e1⟩ := r
    obtain ⟨l2, l1, st2, hwf2, _, _, hsame, hnil, hl1, hst, _, _, _, hi, hcase⟩ :=
      getOrAddLookupIndex_spec hl0 hwf hlock hg
    refine ⟨s, e1, l1, hg, hl1, hi, ?_, ?_, ?_⟩
    · rcases hcase with ⟨h1, h2⟩ | ⟨_, h2⟩
      · rw [h2]
        obtain ⟨_, _, h3, _, _⟩ := WF_iff.1 hwf2
        exact (h3 id s h1).2
      · rcases addToEasiestHole_spec h2 with ⟨hs, i, _, hsi, hlt, h3⟩ | ⟨_, hsi, h3⟩
        · rw [h3, hsi, sliceGet_natCast]
          simp [hlt]
        · rw [h3, hsi, sliceGet_natCast]
          simp
    · intro hge
      have hh2 := hnil hge
      rcases hcase with ⟨_, h2⟩ | ⟨_, h2⟩
      · rw [h2]; exact hh2
      · rcases addToEasiestHole_spec h2 with ⟨hs, i, hh, _, _, h3⟩ | ⟨_, _, h3⟩
        · rw [hh2] at hh
          simp at hh
        · rw [h3]
    · intro hlt
      obtain ⟨h2, h3⟩ := hsame hlt
      refine ⟨by rw [hst, h3], ?_⟩
      rw [← h2]
      rcases hcase with ⟨_, h4⟩ | ⟨_, h4⟩
      · rw [h4]; omega
      · rcases addToEasiestHole_spec h4 with ⟨hs, i, hh, _, _, h5⟩ | ⟨hh, _, h5⟩
        · rw [h5, hh]; simp
        · rw [h5, hh]; simp
  · intro comps e1 l1 hw hl1
    unfold archEngine.write at hw
    cases hg : e.getOrAddLookupIndex InvalidEntity archId id with
    | none => rw [hg] at hw; cases hw
    | some r =>
      obtain ⟨s, e0⟩ := r
      rw [hg] at hw
      simp only at hw
      have heff := writeLoop_spec comps e0 e1 hw
      obtain ⟨l0, hl0, hle⟩ := getOrAddLookupIndex_holes hg
      rw [heff.lookup, hl0] at hl1
      cases hl1
      exact hle

end threshold

/-- The archetype with `n` pending holes is well formed and in lockstep. -/
theorem holesEngine_ArchInv (n : Nat) : ArchInv 0 (holesEngine n) 7 := by
  have hl : (holesEngine n).lookup.lookup 7 = some (holesLookup n) := AList.lookup_insert _
  unfold ArchInv
  rw [hl]
  exact ⟨holesLookup_WF n, holesEngine_Lockstep n⟩

/-- Witness for C19: in the tagged scenario (one pending hole) the slot of the new entity 3
is resolved without compaction; in the archetype with 1024 pending holes the slot of
entity 5 is resolved after compaction. -/
theorem compaction_threshold_witness :
    (ArchInv 0 scenarioTagged 7 ∧
      ∃ (s : Int) (e1 : archEngine (Int × Int)) (l1 : lookupList),
        scenarioTagged.getOrAddLookupIndex 0 7 3 = some (s, e1) ∧
        e1.lookup.lookup 7 = some l1 ∧
        l1.index.lookup 3 = some s ∧ sliceGet l1.id s = some 3 ∧
        (1024 ≤ ((scenarioTagged.lookup.lookup 7).getD emptyLookup).holes.length →
          l1.holes = []) ∧
        (((scenarioTagged.lookup.lookup 7).getD emptyLookup).holes.length < 1024 →
          e1.compSliceStorage = scenarioTagged.compSliceStorage ∧
          ((scenarioTagged.lookup.lookup 7).getD emptyLookup).holes.length ≤
            l1.holes.length + 1)) ∧
    (ArchInv 0 (holesEngine 1024) 7 ∧
      ∃ (s : Int) (e1 : archEngine Nat) (l1 : lookupList),
        (holesEngine 1024).getOrAddLookupIndex 0 7 5 = some (s, e1) ∧
        e1.lookup.lookup 7 = some l1 ∧
        l1.index.lookup 5 = some s ∧ sliceGet l1.id s = some 5 ∧
        (1024 ≤ (((holesEngine 1024).lookup.lookup 7).getD emptyLookup).holes.length →
          l1.holes = []) ∧
        ((((holesEngine 1024).lookup.lookup 7).getD emptyLookup).holes.length < 1024 →
          e1.compSliceStorage = (holesEngine 1024).compSliceStorage ∧
          (((holesEngine 1024).lookup.lookup 7).getD emptyLookup).holes.length ≤
            l1.holes.length + 1)) ∧
    scenarioTagged.getOrAddLookupIndex 0 7 3 =
      resolveSlot (ensureLookup scenarioTagged 7) 7 3 :=
  ⟨⟨by decide, (compaction_threshold 0 scenarioTagged 7 3).2.1 (by decide)⟩,
    ⟨holesEngine_ArchInv 1024,
      (compaction_threshold 0 (holesEngine 1024) 7 5).2.1 (holesEngine_ArchInv 1024)⟩,
    by decide⟩

section safety
variable {V : Type}

/-- The outer loop of `CleanupHoles` over a prefix of the recorded holes. -/
theorem loop_prefix {inv : Id} {A : archetypeId} (rest : List Int) :
    ∀ (pre : List Int) (l : lookupList) (st : GoMap componentId (componentSliceStorage V)),
    CleanupInv inv A l st (pre ++ rest) →
    ∃ l1 st1, pre.foldlM (CleanupHoles.step inv A) (l, st) = some (l1, st1) ∧
      CleanupInv inv A l1 st1 rest := by
  intro pre
  induction pre with
  | nil =>
    intro l st hinv
    exact ⟨l, st, rfl, hinv⟩
  | cons h hs ih =>
    intro l st hinv
    obtain ⟨l1, st1, hstep, hinv1, _⟩ := step_spec hinv
    obtain ⟨l2, st2, hfold, hinv2⟩ := ih l1 st1 hinv1
    refine ⟨l2, st2, ?_, hinv2⟩
    rw [List.foldlM_cons, hstep]
    exact hfold

/-- C20: `CleanupHoles` is safe on well-formed states.  For an archetype whose lookup list
satisfies the lookup invariant and whose columns are in lockstep with `id`,
`CleanupHoles` returns (no panic, no index out of range, and every run of the trimming
loop ends within `len(id) + 1` iterations).  In every iteration of the outer loop, for the
hole index `h`: the trimming loop returns, the reverse array it leaves is empty or ends in
a live slot (so the branch `panic("Bug: This shouldn't happen")` is not taken), a hole
index that is still in range is not negative and is not the last slot, and the iteration
returns. -/
theorem CleanupHoles_safe (InvalidEntity : Id) (e : archEngine V) (archId : archetypeId)
    (l : lookupList) (hl : e.lookup.lookup archId = some l) (hwf : l.WF InvalidEntity)
    (hlock : Lockstep e.compSliceStorage archId l.id.length) :
    (e.CleanupHoles InvalidEntity archId).isSome ∧
    ∀ (pre : List Int) (h : Int) (post : List Int), l.holes = pre ++ h :: post →
      ∃ (l1 : lookupList) (st1 : GoMap componentId (componentSliceStorage V))
        (ids : List Id) (st2 : GoMap componentId (componentSliceStorage V)),
        pre.foldlM (CleanupHoles.step InvalidEntity archId) (l, e.compSliceStorage) =
          some (l1, st1) ∧
        CleanupHoles.trim InvalidEntity archId (l1.id.length + 1) l1.id st1 =
          some (ids, st2) ∧
        (∀ k : Nat, ids.length = k + 1 →
          ∃ lastId, ids[k]? = some lastId ∧ lastId ≠ InvalidEntity ∧
            (h < (ids.length : Int) → 0 ≤ h ∧ h ≠ (k : Int))) ∧
        (CleanupHoles.step InvalidEntity archId (l1, st1) h).isSome := by
  refine ⟨?_, ?_⟩
  · obtain ⟨l1, st1, hc, _⟩ := CleanupHoles_spec hl hwf hlock
    rw [hc]
    rfl
  · intro pre h post hh
    have hinv0 : CleanupInv InvalidEntity archId l e.compSliceStorage (pre ++ h :: post) := by
      rw [← hh]
      exact CleanupInv.of_WF hwf hlock
    obtain ⟨l1, st1, hfold, hinv1⟩ := loop_prefix (h :: post) pre l e.compSliceStorage hinv0
    obtain ⟨ids, st2, ht, hinv2, _, hlast⟩ :=
      trim_spec InvalidEntity archId (h :: post) (l1.id.length + 1) l1 st1 (by omega) hinv1
    obtain ⟨l3, st3, hstep, _, _⟩ := step_spec hinv1
    refine ⟨l1, st1, ids, st2, hfold, ht, ?_, by rw [hstep]; rfl⟩
    intro k hk
    have hklt : k < ids.length := by omega
    refine ⟨ids[k], List.getElem?_eq_getElem hklt, ?_, ?_⟩
    · intro heq
      apply hlast k hk
      rw [List.getElem?_eq_getElem hklt, heq]
    · intro hlt
      obtain ⟨m, hm, hp⟩ := hinv2.pending h (List.mem_cons_self _ _)
      refine ⟨by omega, ?_⟩
      intro hhk
      have hmk : m = k := by omega
      subst hmk
      exact hlast m hk (hp hklt)

end safety

/-- Witness for C20: the tagged scenario, with its one pending hole at slot 0. -/
theorem CleanupHoles_safe_witness :
    (scenarioTagged.lookup.lookup 7 = some scenarioLookup ∧ scenarioLookup.WF 0 ∧
      Lockstep scenarioTagged.compSliceStorage 7 scenarioLookup.id.length) ∧
    ((scenarioTagged.CleanupHoles 0 7).isSome ∧
    ∀ (pre : List Int) (h : Int) (post : List Int), scenarioLookup.holes = pre ++ h :: post →
      ∃ (l1 : lookupList) (st1 : GoMap componentId (componentSliceStorage (Int × Int)))
        (ids : List Id) (st2 : GoMap componentId (componentSliceStorage (Int × Int))),
        pre.foldlM (CleanupHoles.step 0 7) (scenarioLookup, scenarioTagged.compSliceStorage) =
          some (l1, st1) ∧
        CleanupHoles.trim 0 7 (l1.id.length + 1) l1.id st1 = some (ids, st2) ∧
        (∀ k : Nat, ids.length = k + 1 →
          ∃ lastId, ids[k]? = some lastId ∧ lastId ≠ 0 ∧
            (h < (ids.length : Int) → 0 ≤ h ∧ h ≠ (k : Int))) ∧
        (CleanupHoles.step 0 7 (l1, st1) h).isSome) ∧
    (scenarioTagged.CleanupHoles 0 7).bind (fun e1 => e1.lookup.lookup 7) =
      some compactedLookup :=
  ⟨⟨by decide, by decide, by decide⟩,
    CleanupHoles_safe 0 scenarioTagged 7 scenarioLookup (by decide) (by decide) (by decide),
    by decide⟩

section slotreuse
variable {V : Type}

/-- After a write that supplies every column of the archetype, on a well-formed archetype,
the snapshot of the entity holds exactly the supplied values. -/
theorem write_ReadEntity_exact {inv : Id} {e eW : archEngine V} {A : archetypeId} {id : Id}
    {comps : List (Component V)} (hinv : ArchInv inv e A)
    (hall : ∀ p ∈ e.compSliceStorage.entries, (p.2.slice.lookup A).isSome →
      (supplied comps p.1).isSome)
    (hw : e.write inv A id comps = some eW) :
    ∃ ent, eW.ReadEntity A id = some ent ∧ ∀ m, ent.comp.lookup m = supplied comps m := by
  obtain ⟨hwf, hlock⟩ := hinv
  have hl0 : (ensureLookup e A).lookup.lookup A =
      some ((e.lookup.lookup A).getD emptyLookup) := ensureLookup_lookup e A
  unfold archEngine.write at hw
  cases hg : e.getOrAddLookupIndex inv A id with
  | none => rw [hg] at hw; cases hw
  | some r =>
    obtain ⟨index, e0⟩ := r
    rw [hg] at hw
    simp only at hw
    have heff := writeLoop_spec comps e0 eW hw
    obtain ⟨l2, l1, st2, _, _, hpres, _, _, hl1, hst, _, _, _, hi, _⟩ :=
      getOrAddLookupIndex_spec hl0 hwf hlock hg
    have hl1w : eW.lookup.lookup A = some l1 := by rw [heff.lookup]; exact hl1
    have hnone : ∀ m, supplied comps m = none → column eW.compSliceStorage m A = none := by
      intro m hm
      rw [(heff.untouched m hm).1, hst]
      cases hc : column st2 m A with
      | none => rfl
      | some col =>
        exfalso
        have hex : (column e.compSliceStorage m A).isSome := by
          rw [← hpres.cols m, hc]; rfl
        obtain ⟨p, hp, hpm, hps⟩ := column_isSome_iff_entries.1 hex
        have := hall p hp hps
        rw [hpm, hm] at this
        cases this
    have hsome : ∀ m v, supplied comps m = some v →
        (column eW.compSliceStorage m A).bind (fun col => sliceGet col index) = some v := by
      intro m v hm
      obtain ⟨col, i, hii, _, hcol, _, hv, _⟩ := heff.written m v hm
      rw [hcol, hii]
      simp only [Option.some_bind]
      rw [sliceGet_natCast]
      exact hv
    have hrow : ∀ n col, column eW.compSliceStorage n A = some col →
        (sliceGet col index).isSome := by
      intro n col hcol
      cases hs : supplied comps n with
      | none => rw [hnone n hs] at hcol; cases hcol
      | some v =>
        have := hsome n v hs
        rw [hcol] at this
        simp only [Option.some_bind] at this
        rw [this]; rfl
    obtain ⟨ent, hent⟩ := Option.isSome_iff_exists.1 (ReadEntity_isSome hl1w hi hrow)
    refine ⟨ent, hent, ?_⟩
    intro m
    obtain ⟨l3, index3, hl3, hi3, _, hval⟩ := ReadEntity_spec hent
    rw [hl1w] at hl3
    cases hl3
    rw [hi] at hi3
    cases hi3
    rw [hval m]
    cases hs : supplied comps m with
    | none => rw [hnone m hs]; rfl
    | some v => exact hsome m v hs

/-- C11: slot reuse without bleed-through.  In a well-formed state, after entity `e1` of
archetype `archId` is tagged for deletion, with or without a following `CleanupHoles`,
a write for entity `e2` that supplies a value for every component type the archetype has a
column for is followed by a `ReadEntity(archId, e2)` that returns, and the snapshot holds
exactly the values written for `e2`: for every component id the supplied value, and
nothing for a component id that was not supplied, whichever slot `e2` was given.  The
write itself returns when `e2` is not `InvalidEntity` and the write respects `WriteOK`. -/
theorem slot_reuse (InvalidEntity : Id) (e eT eC : archEngine V) (archId : archetypeId)
    (e1 e2 : Id) (comp : List (Component V))
    (hinv : EngineInv InvalidEntity e)
    (htag : e.TagForDeletion InvalidEntity archId e1 = some eT)
    (hclean : eC = eT ∨ eT.CleanupHoles InvalidEntity archId = some eC)
    (hall : ∀ p ∈ eC.compSliceStorage.entries, (p.2.slice.lookup archId).isSome →
      (supplied comp p.1).isSome) :
    (e2 ≠ InvalidEntity → WriteOK eC archId e2 comp →
      (eC.write InvalidEntity archId e2 comp).isSome) ∧
    ∀ eW, eC.write InvalidEntity archId e2 comp = some eW →
      ∃ ent, eW.ReadEntity archId e2 = some ent ∧
        ∀ m, ent.comp.lookup m = supplied comp m := by
  have hT := TagForDeletion_EngineInv (EngineInv_iff.1 hinv) htag
  have hC : ∀ B, ArchInv InvalidEntity eC B := by
    rcases hclean with h | h
    · rw [h]; exact hT
    · exact (CleanupHoles_EngineInv hT).2 eC h
  refine ⟨?_, ?_⟩
  · intro hid hok
    obtain ⟨eW, hw, _⟩ := write_EngineInv hC hid hok
    rw [hw]
    rfl
  · intro eW hw
    exact write_ReadEntity_exact (hC archId) hall hw

end slotreuse

/-- Witness for C11: in the scenario after its two writes, entity 1 (slot 0, Position
`(0,0)`) is tagged for deletion and the new entity 3 is written with Position `(5,5)`; it
takes slot 0, and its snapshot holds `(5,5)` only. -/
theorem slot_reuse_witness :
    (EngineInv 0 scenarioBoth ∧ scenarioBoth.TagForDeletion 0 7 1 = some scenarioTagged ∧
      ∀ p ∈ scenarioTagged.compSliceStorage.entries, (p.2.slice.lookup 7).isSome →
        (supplied [C 1 ((5 : Int), (5 : Int))] p.1).isSome) ∧
    ((3 ≠ 0 → WriteOK scenarioTagged 7 3 [C 1 ((5 : Int), (5 : Int))] →
      (scenarioTagged.write 0 7 3 [C 1 (5, 5)]).isSome) ∧
    ∀ eW, scenarioTagged.write 0 7 3 [C 1 (5, 5)] = some eW →
      ∃ ent, eW.ReadEntity 7 3 = some ent ∧
        ∀ m, ent.comp.lookup m = supplied [C 1 ((5 : Int), (5 : Int))] m) ∧
    (scenarioTagged.getOrAddLookupIndex 0 7 3).map (fun r => r.1) = some 0 ∧
    scenarioLookup.holes = [0] ∧
    ((scenarioTagged.write 0 7 3 [C 1 (5, 5)]).bind (fun eW => eW.ReadEntity 7 3)).map
      (fun ent => ent.comp.entries) = some [⟨1, (5, 5)⟩] :=
  ⟨⟨by decide, by decide, by decide⟩,
    slot_reuse 0 scenarioBoth scenarioTagged scenarioTagged 7 1 3 [C 1 (5, 5)]
      (by decide) (by decide) (Or.inl rfl) (by decide),
    by decide, by decide, by decide⟩

/-- The invariant of the component identity registry while the counter has not wrapped
around: the counter is one more than the number of registered types, the ids handed out
are `1` to that number, and no id was handed out twice. -/
theorem registerAll_inv (ts : List reflectType) :
    (registerAll ts).registeredComponents.keys.length + 1 < 2 ^ 32 →
    (registerAll ts).componentRegistryCounter =
      (registerAll ts).registeredComponents.keys.length + 1 ∧
    (∀ t id, (registerAll ts).registeredComponents.lookup t = some id →
      1 ≤ id ∧ id ≤ (registerAll ts).registeredComponents.keys.length) ∧
    (∀ t1 t2 id, (registerAll ts).registeredComponents.lookup t1 = some id →
      (registerAll ts).registeredComponents.lookup t2 = some id → t1 = t2) := by
  induction ts using List.reverseRecOn with
  | nil =>
    intro _
    refine ⟨rfl, ?_, ?_⟩
    · intro t id h
      cases h
    · intro t1 t2 id h
      cases h
  | append_singleton ts t ih =>
    have hstep : registerAll (ts ++ [t]) = (name (registerAll ts) t).2 := by
      unfold registerAll
      rw [List.foldl_append]
      rfl
    rw [hstep]
    generalize registerAll ts = g at ih ⊢
    unfold name
    cases hl : g.registeredComponents.lookup t with
    | some id => exact ih
    | none =>
      simp only
      have hnot : t ∉ g.registeredComponents.keys := by
        rw [← AList.mem_keys]
        exact AList.lookup_eq_none.1 hl
      have hkeys : (g.registeredComponents.insert t g.componentRegistryCounter).keys.length =
          g.registeredComponents.keys.length + 1 := by
        rw [AList.keys_insert, List.erase_of_not_mem hnot, List.length_cons]
      rw [hkeys]
      intro hlt
      obtain ⟨hc, hr, hinj⟩ := ih (by omega)
      refine ⟨?_, ?_, ?_⟩
      · rw [hc]
        exact Nat.mod_eq_of_lt hlt
      · intro t1 id h1
        by_cases ht : t1 = t
        · rw [ht, AList.lookup_insert] at h1
          cases h1
          rw [hc]
          exact ⟨Nat.le_add_left _ _, Nat.le_refl _⟩
        · rw [AList.lookup_insert_ne ht] at h1
          have := hr t1 id h1
          exact ⟨this.1, Nat.le_succ_of_le this.2⟩
      · intro t1 t2 id h1 h2
        by_cases ht1 : t1 = t
        · by_cases ht2 : t2 = t
          · rw [ht1, ht2]
          · rw [ht1, AList.lookup_insert] at h1
            rw [AList.lookup_insert_ne ht2] at h2
            cases h1
            have h3 := (hr t2 _ h2).2
            rw [hc] at h3
            exact absurd h3 (Nat.not_succ_le_self _)
        · by_cases ht2 : t2 = t
          · rw [ht2, AList.lookup_insert] at h2
            rw [AList.lookup_insert_ne ht1] at h1
            cases h2
            have h3 := (hr t1 _ h1).2
            rw [hc] at h3
            exact absurd h3 (Nat.not_succ_le_self _)
          · rw [AList.lookup_insert_ne ht1] at h1
            rw [AList.lookup_insert_ne ht2] at h2
            exact hinj t1 t2 id h1 h2

/-- C16: component identity registry.  Let `g` be the registry state after any sequence of
`name` calls from the initial state (empty map, counter 1), with `k` registered types, and
suppose the counter has not wrapped around (`k + 1 < 2^32`).  Then `name` for a registered
type returns its id and leaves the state unchanged (idempotence); `name` for a type that
is not registered, the `(k+1)`-th distinct type, returns `k + 1`, registers exactly that
type, and a second call returns `k + 1` again with no further change; the ids handed out
are `1, ..., k`, two distinct types never share an id, and no call returns the invalid
id 0. -/
theorem name_registry (ts : List reflectType)
    (hwrap : (registerAll ts).registeredComponents.keys.length + 1 < 2 ^ 32) :
    (registerAll ts).componentRegistryCounter =
      (registerAll ts).registeredComponents.keys.length + 1 ∧
    (∀ t id, (registerAll ts).registeredComponents.lookup t = some id →
      name (registerAll ts) t = (id, registerAll ts) ∧
      1 ≤ id ∧ id ≤ (registerAll ts).registeredComponents.keys.length) ∧
    (∀ t, (registerAll ts).registeredComponents.lookup t = none →
      (name (registerAll ts) t).1 = (registerAll ts).registeredComponents.keys.length + 1 ∧
      (name (registerAll ts) t).2 = registerAll (ts ++ [t]) ∧
      (name (registerAll ts) t).2.registeredComponents.keys.length =
        (registerAll ts).registeredComponents.keys.length + 1 ∧
      (∀ t1, t1 ≠ t → (name (registerAll ts) t).2.registeredComponents.lookup t1 =
        (registerAll ts).registeredComponents.lookup t1) ∧
      name (name (registerAll ts) t).2 t =
        ((registerAll ts).registeredComponents.keys.length + 1, (name (registerAll ts) t).2)) ∧
    (∀ t1 t2 id, (registerAll ts).registeredComponents.lookup t1 = some id →
      (registerAll ts).registeredComponents.lookup t2 = some id → t1 = t2) ∧
    (∀ t, (name (registerAll ts) t).1 ≠ invalidComponentId) := by
  obtain ⟨hc, hr, hinj⟩ := registerAll_inv ts hwrap
  have hstep : ∀ t, registerAll (ts ++ [t]) = (name (registerAll ts) t).2 := by
    intro t
    unfold registerAll
    rw [List.foldl_append]
    rfl
  have hnew : ∀ t, (registerAll ts).registeredComponents.lookup t = none →
      name (registerAll ts) t = ((registerAll ts).registeredComponents.keys.length + 1,
        { registeredComponents := (registerAll ts).registeredComponents.insert t
            ((registerAll ts).registeredComponents.keys.length + 1),
          componentRegistryCounter :=
            ((registerAll ts).registeredComponents.keys.length + 1 + 1) % 2 ^ 32 }) := by
    intro t hl
    unfold name
    rw [hl]
    simp only
    rw [hc]
  refine ⟨hc, ?_, ?_, hinj, ?_⟩
  · intro t id hl
    refine ⟨?_, hr t id hl⟩
    unfold name
    rw [hl]
  · intro t hl
    have hnot : t ∉ (registerAll ts).registeredComponents.keys := by
      rw [← AList.mem_keys]
      exact AList.lookup_eq_none.1 hl
    rw [hstep t, hnew t hl]
    refine ⟨rfl, rfl, ?_, ?_, ?_⟩
    · simp only
      rw [AList.keys_insert, List.erase_of_not_mem hnot, List.length_cons]
    · intro t1 ht1
      exact AList.lookup_insert_ne ht1
    · unfold name
      simp only [AList.lookup_insert]
  · intro t
    unfold invalidComponentId
    cases hl : (registerAll ts).registeredComponents.lookup t with
    | some id =>
      have h1 : name (registerAll ts) t = (id, registerAll ts) := by
        unfold name
        rw [hl]
      rw [h1]
      exact Nat.one_le_iff_ne_zero.1 (hr t id hl).1
    | none =>
      rw [hnew t hl]
      exact Nat.succ_ne_zero _

/-- Witness for C16: after `name` was called for the types 10, 20 and 10 again, the type 10
has id 1, the type 20 has id 2 and a new type 30 receives id 3. -/
theorem name_registry_witness :
    (registerAll [10, 20, 10]).registeredComponents.keys.length + 1 < 2 ^ 32 ∧
    ((registerAll [10, 20, 10]).componentRegistryCounter =
      (registerAll [10, 20, 10]).registeredComponents.keys.length + 1 ∧
    (∀ t id, (registerAll [10, 20, 10]).registeredComponents.lookup t = some id →
      name (registerAll [10, 20, 10]) t = (id, registerAll [10, 20, 10]) ∧
      1 ≤ id ∧ id ≤ (registerAll [10, 20, 10]).registeredComponents.keys.length) ∧
    (∀ t, (registerAll [10, 20, 10]).registeredComponents.lookup t = none →
      (name (registerAll [10, 20, 10]) t).1 =
        (registerAll [10, 20, 10]).registeredComponents.keys.length + 1 ∧
      (name (registerAll [10, 20, 10]) t).2 = registerAll ([10, 20, 10] ++ [t]) ∧
      (name (registerAll [10, 20, 10]) t).2.registeredComponents.keys.length =
        (registerAll [10, 20, 10]).registeredComponents.keys.length + 1 ∧
      (∀ t1, t1 ≠ t → (name (registerAll [10, 20, 10]) t).2.registeredComponents.lookup t1 =
        (registerAll [10, 20, 10]).registeredComponents.lookup t1) ∧
      name (name (registerAll [10, 20, 10]) t).2 t =
        ((registerAll [10, 20, 10]).registeredComponents.keys.length + 1,
          (name (registerAll [10, 20, 10]) t).2)) ∧
    (∀ t1 t2 id, (registerAll [10, 20, 10]).registeredComponents.lookup t1 = some id →
      (registerAll [10, 20, 10]).registeredComponents.lookup t2 = some id → t1 = t2) ∧
    (∀ t, (name (registerAll [10, 20, 10]) t).1 ≠ invalidComponentId)) ∧
    (name (registerAll [10, 20, 10]) 10).1 = 1 ∧ (name (registerAll [10, 20, 10]) 20).1 = 2 ∧
    (name (registerAll [10, 20, 10]) 30).1 = 3 ∧
    (name nameRegistry.init 10).1 = 1 :=
  ⟨by decide, name_registry [10, 20, 10] (by decide), by decide, by decide, by decide,
    by decide⟩

section failures
variable {V : Type}

/-- The two embeddings of `TagForDeletion` agree. -/
theorem TagForDeletion_withState (inv : Id) (e : archEngine V) (A : archetypeId) (id : Id) :
    e.TagForDeletion inv A id = (archEngine.TagForDeletion.withState inv e A id).toOption := by
  unfold archEngine.TagForDeletion archEngine.TagForDeletion.withState
  cases e.lookup.lookup A with
  | none => rfl
  | some l =>
    simp only
    cases l.index.lookup id with
    | none => rfl
    | some index =>
      simp only
      cases sliceSet l.id index inv <;> rfl

/-- The two embeddings of `ReadEntity` agree. -/
theorem ReadEntity_withState (e : archEngine V) (A : archetypeId) (id : Id) :
    e.ReadEntity A id = (archEngine.ReadEntity.withState e A id).toOption.map Prod.fst := by
  unfold archEngine.ReadEntity archEngine.ReadEntity.withState
  cases e.lookup.lookup A with
  | none => rfl
  | some l =>
    simp only
    cases l.index.lookup id with
    | none => rfl
    | some index =>
      simp only
      cases forRangeAccM e.compSliceStorage
        (fun ent n ss => (ss.ReadToEntity n ent A index).map Prod.fst) NewEntity <;> rfl

/-- In whatever state, a panic of `TagForDeletion` or `ReadEntity` is raised in the engine
state of the call, and a return of `ReadEntity` leaves the engine state of the call. -/
theorem withState_unchanged (inv : Id) (e : archEngine V) (A : archetypeId) (id : Id) :
    (∀ s, archEngine.TagForDeletion.withState inv e A id = Except.error s → s = e) ∧
    (∀ s, archEngine.ReadEntity.withState e A id = Except.error s → s = e) ∧
    (∀ ent s, archEngine.ReadEntity.withState e A id = Except.ok (ent, s) → s = e) := by
  refine ⟨?_, ?_, ?_⟩
  · intro s h
    unfold archEngine.TagForDeletion.withState at h
    split at h
    · cases h; rfl
    · split at h
      · cases h; rfl
      · split at h
        · cases h; rfl
        · cases h
  · intro s h
    unfold archEngine.ReadEntity.withState at h
    split at h
    · cases h; rfl
    · split at h
      · cases h; rfl
      · split at h
        · cases h; rfl
        · cases h
  · intro ent s h
    unfold archEngine.ReadEntity.withState at h
    split at h
    · cases h
    · split at h
      · cases h
      · split at h
        · cases h
        · cases h; rfl

/-- On a well-formed archetype `ReadEntity` returns exactly when the entity is live in
it. -/
theorem ReadEntity_isSome_iff {inv : Id} {e : archEngine V} {A : archetypeId} {id : Id}
    (hinv : ArchInv inv e A) :
    (e.ReadEntity A id).isSome =
      (((e.lookup.lookup A).getD emptyLookup).index.lookup id).isSome := by
  cases hl : e.lookup.lookup A with
  | none =>
    unfold archEngine.ReadEntity
    rw [hl]
    rfl
  | some l =>
    unfold ArchInv at hinv
    rw [hl] at hinv
    simp only [Option.getD_some] at hinv ⊢
    cases hi : l.index.lookup id with
    | none =>
      unfold archEngine.ReadEntity
      rw [hl]
      simp only
      rw [hi]
      rfl
    | some i =>
      obtain ⟨ent, hr, _⟩ := ReadEntity_of_WF hl hinv.1 hinv.2 hi
      rw [hr]
      rfl

/-- C17: invariant violations fail loudly and atomically.  On a well-formed archetype
(lookup invariant, columns in lockstep), `TagForDeletion(archId, id)` and
`ReadEntity(archId, id)` panic if and only if the archetype has no lookup list or the
entity has no forward mapping in it; a panic of either is raised in the unchanged engine
state, and a return of `ReadEntity` leaves the engine state unchanged as well. -/
theorem fail_loudly (InvalidEntity : Id) (e : archEngine V) (archId : archetypeId) (id : Id)
    (hinv : ArchInv InvalidEntity e archId) :
    (e.TagForDeletion InvalidEntity archId id = none ↔
      (e.lookup.lookup archId = none ∨
        ∃ l, e.lookup.lookup archId = some l ∧ l.index.lookup id = none)) ∧
    (e.ReadEntity archId id = none ↔
      (e.lookup.lookup archId = none ∨
        ∃ l, e.lookup.lookup archId = some l ∧ l.index.lookup id = none)) ∧
    e.TagForDeletion InvalidEntity archId id =
      (archEngine.TagForDeletion.withState InvalidEntity e archId id).toOption ∧
    e.ReadEntity archId id =
      (archEngine.ReadEntity.withState e archId id).toOption.map Prod.fst ∧
    (∀ s, archEngine.TagForDeletion.withState InvalidEntity e archId id = Except.error s →
      s = e) ∧
    (∀ s, archEngine.ReadEntity.withState e archId id = Except.error s → s = e) ∧
    (∀ ent s, archEngine.ReadEntity.withState e archId id = Except.ok (ent, s) → s = e) := by
  have hcond : (((e.lookup.lookup archId).getD emptyLookup).index.lookup id).isSome = false ↔
      (e.lookup.lookup archId = none ∨
        ∃ l, e.lookup.lookup archId = some l ∧ l.index.lookup id = none) := by
    cases hl : e.lookup.lookup archId with
    | none => simp [emptyLookup]
    | some l =>
      simp only [Option.getD_some, false_or, Option.some.injEq, exists_eq_left', reduceCtorEq]
      cases l.index.lookup id <;> simp
  have ht := @TagForDeletion_isSome V InvalidEntity e archId id hinv
  have hr := @ReadEntity_isSome_iff V InvalidEntity e archId id hinv
  obtain ⟨w1, w2, w3⟩ := withState_unchanged InvalidEntity e archId id
  refine ⟨?_, ?_, TagForDeletion_withState _ _ _ _, ReadEntity_withState _ _ _, w1, w2, w3⟩
  · rw [← hcond, ← ht]
    cases e.TagForDeletion InvalidEntity archId id <;> simp
  · rw [← hcond, ← hr]
    cases e.ReadEntity archId id <;> simp

end failures

/-- Witness for C17: in the tagged scenario entity 1 has no forward mapping in archetype 7,
so both calls panic, in the unchanged state; entity 2 is live and `ReadEntity` returns its
snapshot in the unchanged state. -/
theorem fail_loudly_witness :
    ArchInv 0 scenarioTagged 7 ∧
    ((scenarioTagged.TagForDeletion 0 7 1 = none ↔
      (scenarioTagged.lookup.lookup 7 = none ∨
        ∃ l, scenarioTagged.lookup.lookup 7 = some l ∧ l.index.lookup 1 = none)) ∧
    (scenarioTagged.ReadEntity 7 1 = none ↔
      (scenarioTagged.lookup.lookup 7 = none ∨
        ∃ l, scenarioTagged.lookup.lookup 7 = some l ∧ l.index.lookup 1 = none)) ∧
    scenarioTagged.TagForDeletion 0 7 1 =
      (archEngine.TagForDeletion.withState 0 scenarioTagged 7 1).toOption ∧
    scenarioTagged.ReadEntity 7 1 =
      (archEngine.ReadEntity.withState scenarioTagged 7 1).toOption.map Prod.fst ∧
    (∀ s, archEngine.TagForDeletion.withState 0 scenarioTagged 7 1 = Except.error s →
      s = scenarioTagged) ∧
    (∀ s, archEngine.ReadEntity.withState scenarioTagged 7 1 = Except.error s →
      s = scenarioTagged) ∧
    (∀ ent s, archEngine.ReadEntity.withState scenarioTagged 7 1 = Except.ok (ent, s) →
      s = scenarioTagged)) ∧
    scenarioTagged.TagForDeletion 0 7 1 = none ∧ scenarioTagged.ReadEntity 7 1 = none ∧
    archEngine.TagForDeletion.withState 0 scenarioTagged 7 1 = Except.error scenarioTagged ∧
    archEngine.ReadEntity.withState scenarioTagged 7 1 = Except.error scenarioTagged ∧
    (scenarioTagged.ReadEntity 7 2).isSome = true ∧
    (archEngine.ReadEntity.withState scenarioTagged 7 2).toOption.map Prod.snd =
      some scenarioTagged :=
  ⟨by decide, fail_loudly 0 scenarioTagged 7 1 (by decide), by decide, by decide, rfl, rfl,
    by decide, by decide⟩

/-- The state `staleEngine` is reached from the new engine by two writes and a deletion
tag. -/
theorem staleEngine_reachable :
    (((newArchEngine : archEngine Nat).write 0 7 5 [C 1 1, C 2 2]).bind
      (fun e => e.write 0 8 9 [C 1 91, C 2 92, C 3 90, C 4 93])).bind
      (fun e => e.TagForDeletion 0 8 9) = some staleEngine := by
  decide

/-- The state `partialEngine` is reached from the new engine by two writes. -/
theorem partialEngine_reachable :
    ((newArchEngine : archEngine Nat).write 0 7 5 [C 1 1, C 2 2]).bind
      (fun e => e.write 0 8 9 [C 1 91, C 2 92]) = some partialEngine := by
  decide

/-- The state `mintedEngine` is reached from the new engine by one call of
`GetarchetypeId`. -/
theorem mintedEngine_reachable :
    ((newArchEngine : archEngine Nat).GetarchetypeId mintRegistry [1]).2 = mintedEngine := by
  decide

/-- In `staleEngine` archetype 8 has a column for every component id of the merged set of
entity 5 and the supplied `Z = 3`. -/
theorem staleEngine_full (m : componentId)
    (hm : (mergedRow staleEngine 7 0 [C 3 3] m).isSome) :
    (column staleEngine.compSliceStorage m 8).isSome := by
  by_cases h1 : m = 1
  · subst h1; decide
  by_cases h2 : m = 2
  · subst h2; decide
  by_cases h3 : m = 3
  · subst h3; decide
  by_cases h4 : m = 4
  · subst h4; decide
  exfalso
  have hnone : mergedRow staleEngine 7 0 [C 3 3] m = none := by
    unfold mergedRow supplied column Entity.Add NewEntity staleEngine C Component.id
    simp [AList.lookup_insert_ne, h1, h2, h3, h4, AList.singleton, AList.lookup,
      List.dlookup_cons_ne]
  rw [hnone] at hm
  cases hm

/-- C5, as stated, fails, in two ways, in states that satisfy the engine invariant and are
reached by writes that respect the write proviso.  First, archetype 8 holds a pending hole
in slot 0 and a column for component id 4 that is not in the merged set: `rewriteArch`
returns 8, the entity reuses slot 0, and `ReadEntity(8, 5)` yields a fourth component, the
stale value 93 of the deleted entity 9.  Second, archetype 8 holds a live entity and has no
column for the merged component id 3: the write inside `rewriteArch` panics (the new column
is written at index 1).  In the first state archetype 8 has a column for every merged
component id, in the second one every column of archetype 8 belongs to the merged set. -/
theorem rewriteArch_move_counterexample :
    ¬ (∀ (e : archEngine Nat) (A B : archetypeId) (id : Id) (comps : List (Component Nat))
        (lA : lookupList) (i : Int),
        EngineInv 0 e → e.lookup.lookup A = some lA → lA.index.lookup id = some i →
        (∀ ent, e.ReadEntity A id = some ent →
          (xyzRegistry e.dcr (((ent.Add comps).Comps).map Component.id)).1 = B) →
        B ≠ A →
        (((e.lookup.lookup B).getD emptyLookup).id ≠ [] →
          ∀ m, (mergedRow e A i comps m).isSome → (column e.compSliceStorage m B).isSome) →
        ∃ e1 entB, e.rewriteArch 0 xyzRegistry A id comps = some (B, e1) ∧
          e1.ReadEntity B id = some entB ∧
          ∀ m, entB.comp.lookup m = mergedRow e A i comps m) ∧
    ¬ (∀ (e : archEngine Nat) (A B : archetypeId) (id : Id) (comps : List (Component Nat))
        (lA : lookupList) (i : Int),
        EngineInv 0 e → e.lookup.lookup A = some lA → lA.index.lookup id = some i →
        (∀ ent, e.ReadEntity A id = some ent →
          (xyzRegistry e.dcr (((ent.Add comps).Comps).map Component.id)).1 = B) →
        B ≠ A →
        (∀ m, (column e.compSliceStorage m B).isSome →
          (mergedRow e A i comps m).isSome) →
        ∃ e1, e.rewriteArch 0 xyzRegistry A id comps = some (B, e1)) := by
  refine ⟨?_, ?_⟩
  · intro h
    obtain ⟨e1, entB, he1, hent, hval⟩ := h staleEngine 7 8 5 [C 3 3] xyLookup 0
      (by decide) (by decide) (by decide)
      (fun ent h =>
        (by decide : ∀ ent ∈ staleEngine.ReadEntity 7 5,
          (xyzRegistry staleEngine.dcr (((ent.Add [C 3 3]).Comps).map Component.id)).1 = 8)
          ent h)
      (by decide) (fun _ => staleEngine_full)
    have hr : (staleEngine.rewriteArch 0 xyzRegistry 7 5 [C 3 3]).bind
        (fun r => (r.2.ReadEntity 8 5).bind (fun ent => ent.comp.lookup 4)) = some 93 := by
      decide
    rw [he1] at hr
    simp only [Option.some_bind] at hr
    rw [hent] at hr
    simp only [Option.some_bind] at hr
    rw [hval 4] at hr
    exact absurd hr (by decide)
  · intro h
    obtain ⟨e1, he1⟩ := h partialEngine 7 8 5 [C 3 3] xyLookup 0
      (by decide) (by decide) (by decide)
      (fun ent h =>
        (by decide : ∀ ent ∈ partialEngine.ReadEntity 7 5,
          (xyzRegistry partialEngine.dcr
            (((ent.Add [C 3 3]).Comps).map Component.id)).1 = 8) ent h)
      (by decide) (column_isSome_of_entries (by decide))
    have hr : partialEngine.rewriteArch 0 xyzRegistry 7 5 [C 3 3] = none := by decide
    rw [hr] at he1
    cases he1

/-- C8, as stated, fails: after the registry minted archetype 8 for the component set `{1}`
and before any entity is written to it, the engine invariant holds, the query for the
runtime type that `name` maps to component id 1 is not empty, and `count` panics (archetype
8 matches the query and has no lookup list). -/
theorem count_counterexample :
    ¬ (∀ (g : nameRegistry) (e : archEngine Nat) (anything : List reflectType),
        anything ≠ [] → EngineInv 0 e →
        ∃ (total : Int) (g1 : nameRegistry) (e1 : archEngine Nat),
          e.count g anything = some (total, g1, e1)) := by
  intro h
  obtain ⟨total, g1, e1, hc⟩ := h nameRegistry.init mintedEngine [100] (by decide) (by decide)
  have hr : mintedEngine.count nameRegistry.init [100] = none := by decide
  rw [hr] at hc
  cases hc

end ecs
